import Mathlib

/-!
# Event emission (package `event`): a shallow embedding

The Go sources `event/emitter.go`, `event/model.go`, `event/outbox.go`,
`event/hybrid.go` and `event/pubsub.go` are embedded as pure functions over explicit state.
The packages `config` (`Load`) and `storage` (`CachedCollection`) follow, each in its own
namespace, before the theorems.

* Go `string`s are Lean `String`s (valid UTF-8); bytes appear only where a digest is taken.
* `interface{}` values are the JSON-like trees of `Value`; `Value.chan` stands for the values
  `json.Marshal` refuses (channels, functions).
* `map[string]T` is an association list searched from the front (`Assoc.get`), updated in
  place or extended at the end (`Assoc.set`).
* The document store, the key-value cache and the broker are explicit state; the outcome of
  every call that can fail for outside reasons is supplied by an `Env` value.
* Library code (`crypto/sha256`, `encoding/base64`, `encoding/json`, `fmt`, `mergo`, `viper`)
  is written out from its published behaviour.
-/

set_option autoImplicit false

namespace Event

/-! ## Association lists standing for Go maps -/

namespace Assoc

variable {β : Type}

/-- Map lookup `m[k]`: the first entry stored under `k`. -/
def get (k : String) : List (String × β) → Option β
  | [] => none
  | (k', v) :: m => if k' = k then some v else get k m

/-- Map assignment `m[k] = v`: overwrite the entry of `k` where it stands, or add one. -/
def set (k : String) (v : β) : List (String × β) → List (String × β)
  | [] => [(k, v)]
  | (k', v') :: m => if k' = k then (k, v) :: m else (k', v') :: set k v m

/-- Map deletion `delete(m, k)`. -/
def erase (k : String) : List (String × β) → List (String × β)
  | [] => []
  | (k', v') :: m => if k' = k then erase k m else (k', v') :: erase k m

/-- The entries of a map with every key listed once (the first entry of a key is the live one). -/
def live : List (String × β) → List (String × β)
  | [] => []
  | (k, v) :: m => (k, v) :: erase k (live m)

/-- Byte-wise order of two strings, read off their code points (UTF-8 keeps that order). -/
def ltChars : List Char → List Char → Bool
  | _, [] => false
  | [], _ :: _ => true
  | a :: as, b :: bs =>
    if a.toNat < b.toNat then true else if b.toNat < a.toNat then false else ltChars as bs

/-- The order `sort.Strings` puts map keys in. -/
def keyLt (a b : String) : Bool := ltChars a.data b.data

/-- Insertion of one entry into a list kept in increasing key order. -/
def insertSorted (e : String × β) : List (String × β) → List (String × β)
  | [] => [e]
  | e' :: m => if keyLt e.1 e'.1 then e :: e' :: m else e' :: insertSorted e m

/-- The live entries in increasing key order, the order in which `encoding/json` writes a map. -/
def sorted (m : List (String × β)) : List (String × β) :=
  (live m).foldr insertSorted []

end Assoc

/-! ## Dynamic values and `encoding/json` -/

/-- The values an `interface{}` holds in this model. -/
inductive Value where
  | null
  | bool (b : Bool)
  | int (n : Int)
  | str (s : String)
  | list (xs : List Value)
  | map (m : List (String × Value))
  | chan
deriving Repr, Inhabited

/-- A `map[string]interface{}`. -/
abbrev Metadata := List (String × Value)

/-- Errors returned by the code or by the libraries it calls. -/
inductive Error where
  | unsupportedType
  | notFound
  | alreadyExists
  | emptyCache
  | notConfigured
  | missingBroker
  | external (msg : String)
deriving DecidableEq, Repr, Inhabited

/-- The result of `gcerrors.Code(err) == gcerrors.NotFound`. -/
def Error.isNotFound : Error → Bool
  | .notFound => true
  | _ => false

/-- Lower-case hexadecimal digit of a number below 16. -/
def hexDigit (n : Nat) : Char :=
  if n < 10 then Char.ofNat (48 + n) else Char.ofNat (87 + n)

/-- Decimal digits of a natural number, most significant first; `fuel` bounds the digit count. -/
def natDigits : Nat → Nat → List Char
  | 0, _ => []
  | fuel + 1, n => if n < 10 then [Char.ofNat (48 + n)] else natDigits fuel (n / 10) ++ [Char.ofNat (48 + n % 10)]

/-- Decimal text of a natural number. -/
def natText (n : Nat) : String := ⟨natDigits (n + 1) n⟩

/-- Decimal text of an integer, as `strconv` writes it. -/
def intText : Int → String
  | .ofNat n => natText n
  | .negSucc n => "-" ++ natText (n + 1)

/-- The escape `encoding/json` (with HTML escaping, as `json.Marshal` has) writes for one
character of a string. -/
def escapeChar (c : Char) : List Char :=
  let n := c.toNat
  if n = 34 then [Char.ofNat 92, Char.ofNat 34]
  else if n = 92 then [Char.ofNat 92, Char.ofNat 92]
  else if n = 10 then [Char.ofNat 92, Char.ofNat 110]
  else if n = 13 then [Char.ofNat 92, Char.ofNat 114]
  else if n = 9 then [Char.ofNat 92, Char.ofNat 116]
  else if n < 32 ∨ n = 60 ∨ n = 62 ∨ n = 38 then
    [Char.ofNat 92, Char.ofNat 117, Char.ofNat 48, Char.ofNat 48, hexDigit (n / 16), hexDigit (n % 16)]
  else if n = 8232 ∨ n = 8233 then
    [Char.ofNat 92, Char.ofNat 117, Char.ofNat 50, Char.ofNat 48, Char.ofNat 50, hexDigit (n % 16)]
  else [c]

/-- A JSON string literal. -/
def quote (s : String) : String :=
  ⟨Char.ofNat 34 :: (s.data.flatMap escapeChar ++ [Char.ofNat 34])⟩

/-- Joins already encoded items with commas. -/
def commaJoin : List String → String
  | [] => ""
  | [a] => a
  | a :: rest => a ++ "," ++ commaJoin rest

mutual
/-- The text `json.Marshal` produces for a value, or its error. Map entries are written in increasing
key order; the text is computed entry by entry in stored order and then ordered. -/
def Value.encode : Value → Except Error String
  | .null => .ok "null"
  | .bool b => .ok (if b then "true" else "false")
  | .int n => .ok (intText n)
  | .str s => .ok (quote s)
  | .list xs =>
    match encodeList xs with
    | .ok items => .ok ("[" ++ commaJoin items ++ "]")
    | .error e => .error e
  | .map m =>
    match encodeFields m with
    | .ok fields => .ok ("\x7b" ++ commaJoin ((Assoc.sorted fields).map (fun kv => quote kv.1 ++ ":" ++ kv.2)) ++ "\x7d")
    | .error e => .error e
  | .chan => .error .unsupportedType
/-- Encodes the elements of a slice, left to right. -/
def encodeList : List Value → Except Error (List String)
  | [] => .ok []
  | x :: xs =>
    match x.encode with
    | .ok a => (match encodeList xs with
      | .ok rest => .ok (a :: rest)
      | .error e => .error e)
    | .error e => .error e
/-- Encodes the values of a map, keeping each under its key. -/
def encodeFields : List (String × Value) → Except Error (List (String × String))
  | [] => .ok []
  | (k, x) :: m =>
    match x.encode with
    | .ok a => (match encodeFields m with
      | .ok rest => .ok ((k, a) :: rest)
      | .error e => .error e)
    | .error e => .error e
end

/-- The function `json.Marshal` on an `interface{}`. -/
def jsonMarshal (v : Value) : Except Error String := v.encode

/-! ## Bytes, `crypto/sha256` and `encoding/base64` -/

/-- UTF-8 bytes of one character. -/
def utf8Char (c : Char) : List Nat :=
  let n := c.toNat
  if n < 128 then [n]
  else if n < 2048 then [192 + n / 64, 128 + n % 64]
  else if n < 65536 then [224 + n / 4096, 128 + n / 64 % 64, 128 + n % 64]
  else [240 + n / 262144, 128 + n / 4096 % 64, 128 + n / 64 % 64, 128 + n % 64]

/-- The conversion `[]byte(s)`. -/
def bytes (s : String) : List Nat := s.data.flatMap utf8Char

namespace SHA256

/-- The modulus of 32-bit word arithmetic. -/
def wordMod : Nat := 4294967296

/-- Rotation of a 32-bit word to the right. -/
def rotr (x n : Nat) : Nat := (x >>> n ||| x <<< (32 - n)) % wordMod

/-- The sixty-four round constants. -/
def roundConstants : List Nat := [
  0x428a2f98, 0x71374491, 0xb5c0fbcf, 0xe9b5dba5, 0x3956c25b, 0x59f111f1, 0x923f82a4, 0xab1c5ed5,
  0xd807aa98, 0x12835b01, 0x243185be, 0x550c7dc3, 0x72be5d74, 0x80deb1fe, 0x9bdc06a7, 0xc19bf174,
  0xe49b69c1, 0xefbe4786, 0x0fc19dc6, 0x240ca1cc, 0x2de92c6f, 0x4a7484aa, 0x5cb0a9dc, 0x76f988da,
  0x983e5152, 0xa831c66d, 0xb00327c8, 0xbf597fc7, 0xc6e00bf3, 0xd5a79147, 0x06ca6351, 0x14292967,
  0x27b70a85, 0x2e1b2138, 0x4d2c6dfc, 0x53380d13, 0x650a7354, 0x766a0abb, 0x81c2c92e, 0x92722c85,
  0xa2bfe8a1, 0xa81a664b, 0xc24b8b70, 0xc76c51a3, 0xd192e819, 0xd6990624, 0xf40e3585, 0x106aa070,
  0x19a4c116, 0x1e376c08, 0x2748774c, 0x34b0bcb5, 0x391c0cb3, 0x4ed8aa4a, 0x5b9cca4f, 0x682e6ff3,
  0x748f82ee, 0x78a5636f, 0x84c87814, 0x8cc70208, 0x90befffa, 0xa4506ceb, 0xbef9a3f7, 0xc67178f2]

/-- Message padding: a one bit, zero bits up to 56 modulo 64 bytes, then the bit length on 8 bytes. -/
def pad (msg : List Nat) : List Nat :=
  let l := msg.length
  msg ++ [128] ++ List.replicate ((119 - l % 64) % 64) 0
    ++ (List.range 8).map (fun i => ((8 * l) >>> (8 * (7 - i))) % 256)

/-- Big-endian 32-bit words of a byte string. -/
def words : List Nat → List Nat
  | a :: b :: c :: d :: rest =>
    ((((a % 256) * 256 + b % 256) * 256 + c % 256) * 256 + d % 256) :: words rest
  | _ => []

/-- Splits the word list into blocks of sixteen; `n` bounds the number of blocks. -/
def blocks : Nat → List Nat → List (List Nat)
  | 0, _ => []
  | n + 1, ws => if ws.isEmpty then [] else ws.take 16 :: blocks n (ws.drop 16)

/-- Extends the message schedule by `n` words; `w` holds the schedule so far, newest word first. -/
def schedule : Nat → List Nat → List Nat
  | 0, w => w
  | n + 1, w =>
    let w2 := w.getD 1 0
    let w7 := w.getD 6 0
    let w15 := w.getD 14 0
    let w16 := w.getD 15 0
    let s0 := rotr w15 7 ^^^ rotr w15 18 ^^^ (w15 >>> 3)
    let s1 := rotr w2 17 ^^^ rotr w2 19 ^^^ (w2 >>> 10)
    schedule n (((w16 + s0 + w7 + s1) % wordMod) :: w)

/-- The eight working variables. -/
structure Regs where
  a : Nat
  b : Nat
  c : Nat
  d : Nat
  e : Nat
  f : Nat
  g : Nat
  h : Nat

/-- One round, on a round constant paired with a schedule word. -/
def step (s : Regs) (kw : Nat × Nat) : Regs :=
  let s1 := rotr s.e 6 ^^^ rotr s.e 11 ^^^ rotr s.e 25
  let ch := (s.e &&& s.f) ^^^ ((wordMod - 1 - s.e) &&& s.g)
  let t1 := (s.h + s1 + ch + kw.1 + kw.2) % wordMod
  let s0 := rotr s.a 2 ^^^ rotr s.a 13 ^^^ rotr s.a 22
  let maj := (s.a &&& s.b) ^^^ (s.a &&& s.c) ^^^ (s.b &&& s.c)
  let t2 := (s0 + maj) % wordMod
  ⟨(t1 + t2) % wordMod, s.a, s.b, s.c, (s.d + t1) % wordMod, s.e, s.f, s.g⟩

/-- Compression of one block into the chaining value. -/
def compress (s : Regs) (block : List Nat) : Regs :=
  let w := (schedule 48 block.reverse).reverse
  let r := (roundConstants.zip w).foldl step s
  ⟨(s.a + r.a) % wordMod, (s.b + r.b) % wordMod, (s.c + r.c) % wordMod, (s.d + r.d) % wordMod,
   (s.e + r.e) % wordMod, (s.f + r.f) % wordMod, (s.g + r.g) % wordMod, (s.h + r.h) % wordMod⟩

/-- Big-endian bytes of a 32-bit word. -/
def wordBytes (w : Nat) : List Nat :=
  [(w >>> 24) % 256, (w >>> 16) % 256, (w >>> 8) % 256, w % 256]

/-- The function `sha256.Sum256`: the 32-byte digest of a byte string. -/
def sum256 (msg : List Nat) : List Nat :=
  let ws := words (pad msg)
  let s := (blocks ws.length ws).foldl compress
    ⟨0x6a09e667, 0xbb67ae85, 0x3c6ef372, 0xa54ff53a, 0x510e527f, 0x9b05688c, 0x1f83d9ab, 0x5be0cd19⟩
  wordBytes s.a ++ wordBytes s.b ++ wordBytes s.c ++ wordBytes s.d
    ++ wordBytes s.e ++ wordBytes s.f ++ wordBytes s.g ++ wordBytes s.h

end SHA256

namespace Base64

/-- The character of a 6-bit group in the standard alphabet. -/
def digit (n : Nat) : Char :=
  if n < 26 then Char.ofNat (65 + n)
  else if n < 52 then Char.ofNat (71 + n)
  else if n < 62 then Char.ofNat (n - 4)
  else if n = 62 then Char.ofNat 43
  else Char.ofNat 47

/-- Characters of the padded standard encoding, three bytes at a time. -/
def chars : List Nat → List Char
  | [] => []
  | [a] =>
    let n := (a % 256) * 65536
    [digit (n / 262144 % 64), digit (n / 4096 % 64), Char.ofNat 61, Char.ofNat 61]
  | [a, b] =>
    let n := (a % 256) * 65536 + (b % 256) * 256
    [digit (n / 262144 % 64), digit (n / 4096 % 64), digit (n / 64 % 64), Char.ofNat 61]
  | a :: b :: c :: rest =>
    let n := (a % 256) * 65536 + (b % 256) * 256 + c % 256
    digit (n / 262144 % 64) :: digit (n / 4096 % 64) :: digit (n / 64 % 64) :: digit (n % 64)
      :: chars rest

/-- The function `base64.StdEncoding.EncodeToString`. -/
def encodeToString (b : List Nat) : String := ⟨chars b⟩

end Base64

/-- The text form of a byte string's SHA-256 digest, the shape of every hash and id here. -/
def digestText (s : String) : String :=
  Base64.encodeToString (SHA256.sum256 (bytes s))

/-- The function `hash` of `emitter.go`: base64 of the SHA-256 digest of the JSON text of `m`. -/
def hash (m : Value) : Except Error String :=
  match jsonMarshal m with
  | .error err => .error err
  | .ok mb => .ok (digestText mb)

/-! ## `time.Time` and the outbox record (`model.go`) -/

/-- A `time.Time` in UTC without monotonic reading: the nanoseconds elapsed since the zero
instant, January 1 of year 1, 00:00:00 UTC. The zero value is `0`. -/
abbrev Time := Nat

/-- The method `Time.IsZero`. -/
def Time.IsZero (t : Time) : Bool := t == 0

/-- Digits of `n` padded with zeros on the left to `width` characters. -/
def padDigits (width n : Nat) : List Char :=
  let ds := natDigits (n + 1) n
  List.replicate (width - ds.length) (Char.ofNat 48) ++ ds

/-- Removes the zeros that end a digit list. -/
def trimZeros (ds : List Char) : List Char :=
  (ds.reverse.dropWhile (fun c => c == Char.ofNat 48)).reverse

/-- Year (from 1) and day of the year (from 0) of a day count in the proleptic Gregorian
calendar. -/
def yearDay (days : Nat) : Nat × Nat :=
  let n400 := days / 146097
  let d1 := days % 146097
  let n100 := min (d1 / 36524) 3
  let d2 := d1 - n100 * 36524
  let n4 := d2 / 1461
  let d3 := d2 % 1461
  let n1 := min (d3 / 365) 3
  (400 * n400 + 100 * n100 + 4 * n4 + n1 + 1, d3 - n1 * 365)

/-- Lengths of the months of a year. -/
def monthLengths (year : Nat) : List Nat :=
  let leap := year % 4 = 0 ∧ (year % 100 ≠ 0 ∨ year % 400 = 0)
  [31, if leap then 29 else 28, 31, 30, 31, 30, 31, 31, 30, 31, 30, 31]

/-- Month (from 1) and day of the month (from 1) of a day of the year, given the month lengths. -/
def monthDay : List Nat → Nat → Nat → Nat × Nat
  | [], m, d => (m, d + 1)
  | len :: rest, m, d => if d < len then (m, d + 1) else monthDay rest (m + 1) (d - len)

/-- The method `Time.String` on such a value: `2006-01-02 15:04:05.999999999 -0700 MST`. -/
def Time.String (t : Time) : String :=
  let sec := t / 1000000000
  let ns := t % 1000000000
  let yd := yearDay (sec / 86400)
  let md := monthDay (monthLengths yd.1) 1 yd.2
  let rem := sec % 86400
  let frac := if ns = 0 then [] else Char.ofNat 46 :: trimZeros (padDigits 9 ns)
  ⟨padDigits 4 yd.1 ++ [Char.ofNat 45] ++ padDigits 2 md.1 ++ [Char.ofNat 45] ++ padDigits 2 md.2
    ++ [Char.ofNat 32] ++ padDigits 2 (rem / 3600) ++ [Char.ofNat 58] ++ padDigits 2 (rem / 60 % 60)
    ++ [Char.ofNat 58] ++ padDigits 2 (rem % 60) ++ frac⟩ ++ " +0000 UTC"

/-- The struct `OutboxRecord`. -/
structure OutboxRecord where
  ID : String
  GroupID : String
  KafkaTopic : String
  KafkaKey : String
  KafkaValue : String
  CreatedAt : Time
deriving DecidableEq, Repr, Inhabited

/-- The text of `fmt.Sprintf("%v", o)` for `o *OutboxRecord`: an ampersand, then the fields in
declaration order between braces, separated by single spaces, the time through `Time.String`. -/
def OutboxRecord.Sprintf (o : OutboxRecord) : String :=
  "&\x7b" ++ o.ID ++ " " ++ o.GroupID ++ " " ++ o.KafkaTopic ++ " " ++ o.KafkaKey ++ " "
    ++ o.KafkaValue ++ " " ++ Time.String o.CreatedAt ++ "\x7d"

/-- The method `OutboxRecord.Hash`: SHA-256 of the record's printed form. -/
def OutboxRecord.Hash (o : OutboxRecord) : List Nat :=
  SHA256.sum256 (bytes o.Sprintf)

/-- The method `OutboxRecord.GenerateID`: stores the base64 text of `Hash` in `ID`. -/
def OutboxRecord.GenerateID (o : OutboxRecord) : OutboxRecord :=
  { o with ID := Base64.encodeToString o.Hash }

/-! ## Envelope, configuration and sequencing cache (`emitter.go`) -/

/-- Whether an `interface{}` is nil. -/
def Value.isNull : Value → Bool
  | .null => true
  | _ => false

/-- The struct `EventMessage`. -/
structure EventMessage where
  Data : Value
  Metadata : Metadata
deriving Repr, Inhabited

/-- The method `EventMessage.ToBytes`: `json.Marshal` of the struct. Both fields carry
`omitempty`: a nil `Data` and an empty `Metadata` are left out. -/
def EventMessage.ToBytes (m : EventMessage) : Except Error String :=
  match jsonMarshal m.Data with
  | .error err => .error err
  | .ok d =>
    match jsonMarshal (.map m.Metadata) with
    | .error err => .error err
    | .ok md =>
      .ok ("\x7b" ++ commaJoin ((if m.Data.isNull then [] else ["\"data\":" ++ d])
        ++ (if m.Metadata.isEmpty then [] else ["\"metadata\":" ++ md])) ++ "\x7d")

/-- The struct `EventConfig`. -/
structure EventConfig where
  Metadata : List (String × Metadata)
  EventMap : List (String × String)
deriving Repr, Inhabited

/-- A metadata map handed out by reference. `slot` names the entry of `EventConfig.Metadata`
whose map this is, so that writes to it are writes to the configuration; `none` is a map of its
own. -/
structure Template where
  slot : Option String
  md : Metadata
deriving Repr, Inhabited

/-- Writes through a reference: the stored template becomes `md`. -/
def EventConfig.put (c : EventConfig) (slot : Option String) (md : Event.Metadata) :
    EventConfig :=
  match slot with
  | some name => { c with Metadata := Assoc.set name md c.Metadata }
  | none => c

/-- The method `EventConfig.getTopic`. -/
def EventConfig.getTopic (c : EventConfig) (event : String) : String :=
  match Assoc.get event c.EventMap with
  | some t => t
  | none => event

/-- The method `EventConfig.getDefaultMetadata`: the configuration after the call and the map
returned. -/
def EventConfig.getDefaultMetadata (c : EventConfig) (event : String) : EventConfig × Template :=
  match Assoc.get "default" c.Metadata with
  | some m =>
    (c.put (some "default") (Assoc.set "event" (.str event) m),
      ⟨some "default", Assoc.set "event" (.str event) m⟩)
  | none => (c, ⟨none, [("version", .int 1), ("event", .str event)]⟩)

/-- The method `EventConfig.getMetadata`: the configuration after the call and the map
returned. -/
def EventConfig.getMetadata (c : EventConfig) (event : String) : EventConfig × Template :=
  match Assoc.get event c.Metadata with
  | some m =>
    (c.put (some event) (Assoc.set "event" (.str event) m),
      ⟨some event, Assoc.set "event" (.str event) m⟩)
  | none => c.getDefaultMetadata event

/-- The struct `EmitterCache`; `cache` is `none` for a nil `simplecache.Cache`, otherwise the
entries the cache holds. -/
structure EmitterCache where
  cache : Option (List (String × String))
  keyName : String
deriving DecidableEq, Repr, Inhabited

/-- The method `EmitterCache.getPrevious`. `fault` is the error `GetString` meets for outside
reasons; a failing or missing read yields the empty string. -/
def EmitterCache.getPrevious (e : EmitterCache) (fault : Option Error) (event : String) : String :=
  match e.cache with
  | none => ""
  | some entries =>
    match fault with
    | some _ => ""
    | none => (Assoc.get (e.keyName ++ event) entries).getD ""

/-- The method `EmitterCache.setCurrent`: the cache after the call and the error returned.
`fault` is the error `Set` meets for outside reasons. -/
def EmitterCache.setCurrent (e : EmitterCache) (fault : Option Error) (event val : String) :
    EmitterCache × Option Error :=
  match e.cache with
  | none => (e, some .emptyCache)
  | some entries =>
    match fault with
    | some err => (e, some err)
    | none => ({ e with cache := some (Assoc.set (e.keyName ++ event) val entries) }, none)

/-! ## `mergo.Merge` on `map[string]interface{}` -/

/-- The function `isEmptyValue` of mergo (v0.3.8 and later, where an interface value is empty
when it is nil or holds an empty value): nil, `false`, zero, the empty string, slice and map. -/
def Value.isEmpty : Value → Bool
  | .null => true
  | .bool b => !b
  | .int n => n == 0
  | .str s => s.data.isEmpty
  | .list xs => xs.isEmpty
  | .map m => m.isEmpty
  | .chan => false

mutual
/-- The call `mergo.Merge(&dst, src)` without options: for every key of `src` in turn, see
`mergeKey`. -/
def mergeMap (dst : Metadata) : Metadata → Metadata
  | [] => dst
  | (k, sv) :: rest => mergeMap (mergeKey dst k sv) rest
/-- One key of the merge. A nil source value is skipped; when both sides hold maps the source map
is merged into the destination map; after that the source value is stored when the destination
has no entry or an empty one, and the destination value stays otherwise. -/
def mergeKey (dst : Metadata) (k : String) : Value → Metadata
  | .null => dst
  | .map sm =>
    match Assoc.get k dst with
    | some (.map dm) =>
      if (mergeMap dm sm).isEmpty then Assoc.set k (.map sm) dst
      else Assoc.set k (.map (mergeMap dm sm)) dst
    | some dv => if dv.isEmpty then Assoc.set k (.map sm) dst else dst
    | none => Assoc.set k (.map sm) dst
  | sv =>
    match Assoc.get k dst with
    | some dv => if dv.isEmpty then Assoc.set k sv dst else dst
    | none => Assoc.set k sv dst
end

/-! ## The document store (`gocloud.dev/docstore`, key field `_id`) -/

/-- The documents of a collection. -/
abbrev Collection := List OutboxRecord

/-- The call `collection.Get(ctx, ob)`: the stored document with the id of `ob`, which the call
copies into `ob`, or the error. `fault` is the error the store meets for outside reasons. -/
def Collection.Get (col : Collection) (fault : Option Error) (ob : OutboxRecord) :
    Except Error OutboxRecord :=
  match fault with
  | some err => .error err
  | none =>
    match col.find? (fun r => r.ID == ob.ID) with
    | some r => .ok r
    | none => .error .notFound

/-- The call `collection.Create(ctx, ob)`: the collection with `ob` added, or the error; a
document with the same id makes it fail. -/
def Collection.Create (col : Collection) (fault : Option Error) (ob : OutboxRecord) :
    Except Error Collection :=
  match fault with
  | some err => .error err
  | none => if col.any (fun r => r.ID == ob.ID) then .error .alreadyExists else .ok (col ++ [ob])

/-- The call `collection.Delete(ctx, ob)`: the collection without the document of that id. -/
def Collection.Delete (col : Collection) (fault : Option Error) (ob : OutboxRecord) :
    Except Error Collection :=
  match fault with
  | some err => .error err
  | none => .ok (col.filter (fun r => r.ID != ob.ID))

/-! ## The world outside one call -/

/-- The result of `url.Parse`, as far as the code reads it. -/
structure URL where
  Scheme : String
  Host : String
deriving DecidableEq, Repr, Inhabited

/-- What the outside world answers during one call of `send`: the clock, and for each call into
the store, the cache and the broker the error it meets for outside reasons (`none`: it works). -/
structure Env where
  now : Time
  getErr : Option Error
  createErr : Option Error
  cacheGetErr : Option Error
  cacheSetErr : Option Error
  parsed : Except Error URL
  openErr : Option Error
  sendErr : Option Error

/-- A world in which every outside call works, at clock reading `now`. -/
def Env.working (now : Time) : Env :=
  ⟨now, none, none, none, none, .ok ⟨"mem", ""⟩, none, none⟩

/-- How a call ends: it returns `err`, or it never returns. -/
inductive Outcome where
  | returned (err : Option Error)
  | blocked
deriving DecidableEq, Repr, Inhabited

/-- A `pubsub.Message` with the topic it was sent to. -/
structure Message where
  topic : String
  Body : String
  Metadata : List (String × String)
deriving DecidableEq, Repr, Inhabited

/-- What one call of `send` did: the emitter afterwards, how the call ended, the envelope it
built (`msg`), the record it stored with `Create`, the message the broker accepted, and the
record on which it ran the hand-over statement `h.channel <- ob`. -/
structure Sent (σ : Type) where
  state : σ
  outcome : Outcome
  envelope : Option EventMessage
  inserted : Option OutboxRecord
  published : Option Message
  handed : Option OutboxRecord

/-! ## The Outbox emitter (`outbox.go`) -/

/-- The struct `Outbox`. -/
structure Outbox where
  Config : EventConfig
  collection : Collection
  ec : EmitterCache

/-- The method `Outbox.send`. The map `md` is the one `getMetadata` returned by reference, so
every return writes it back to the configuration. -/
def Outbox.send (o : Outbox) (env : Env) (event key : String) (message : Value)
    (metadata : Option Metadata) : Sent Outbox :=
  let event := o.Config.getTopic event
  let cfg := (o.Config.getMetadata event).1
  let slot := (o.Config.getMetadata event).2.slot
  let md := (o.Config.getMetadata event).2.md
  let md := match metadata with
    | some m => mergeMap md m
    | none => md
  match Event.hash message with
  | .error err => ⟨{ o with Config := cfg.put slot md }, .returned (some err), none, none, none, none⟩
  | .ok mhash =>
    let md := Assoc.set "hash" (.str mhash) md
    let seq := decide (key ≠ "")
    let md := if key = "" then md
      else Assoc.set "previous" (.str (o.ec.getPrevious env.cacheGetErr (event ++ key))) md
    let key := if key = "" then mhash else key
    let msg : EventMessage := ⟨message, md⟩
    let o := { o with Config := cfg.put slot md }
    match msg.ToBytes with
    | .error err => ⟨o, .returned (some err), some msg, none, none, none⟩
    | .ok b =>
      let ob := (OutboxRecord.mk "" "" event key b 0).GenerateID
      match (match o.collection.Get env.getErr ob with
        | .error err => if err.isNotFound then Except.ok ob else Except.error err
        | .ok found => Except.ok found) with
      | .error err => ⟨o, .returned (some err), some msg, none, none, none⟩
      | .ok ob =>
        if !ob.CreatedAt.IsZero then ⟨o, .returned none, some msg, none, none, none⟩
        else
          let ob := { ob with CreatedAt := env.now }
          match o.collection.Create env.createErr ob with
          | .error err => ⟨o, .returned (some err), some msg, none, none, none⟩
          | .ok col =>
            let o := { o with collection := col }
            if seq then
              ⟨{ o with ec := (o.ec.setCurrent env.cacheSetErr (event ++ key) mhash).1 },
                .returned none, some msg, some ob, none, none⟩
            else ⟨o, .returned none, some msg, some ob, none, none⟩

/-- The method `Outbox.Publish`. -/
def Outbox.Publish (o : Outbox) (env : Env) (event : String) (message : Value)
    (metadata : Option Metadata) : Sent Outbox :=
  o.send env event "" message metadata

/-- The method `Outbox.Push`. -/
def Outbox.Push (o : Outbox) (env : Env) (event key : String) (message : Value)
    (metadata : Option Metadata) : Sent Outbox :=
  o.send env event key message metadata

/-! ## The Hybrid emitter (`hybrid.go`) -/

/-- The struct `Hybrid`, as far as `send` uses it. The channel is unbuffered: `channel` lists
the records the relay worker has received and not yet handled, and `receiving` tells whether the
worker is still in its `for o := range h.channel` loop. -/
structure Hybrid where
  Config : EventConfig
  collection : Collection
  ec : EmitterCache
  channel : List OutboxRecord
  receiving : Bool

/-- The method `Hybrid.send`. The statement `h.channel <- ob` completes when the worker takes
the record; without a receiving worker the call never returns. -/
def Hybrid.send (h : Hybrid) (env : Env) (event key : String) (message : Value)
    (metadata : Option Metadata) : Sent Hybrid :=
  let event := h.Config.getTopic event
  let cfg := (h.Config.getMetadata event).1
  let slot := (h.Config.getMetadata event).2.slot
  let md := (h.Config.getMetadata event).2.md
  let md := match metadata with
    | some m => mergeMap md m
    | none => md
  match Event.hash message with
  | .error err => ⟨{ h with Config := cfg.put slot md }, .returned (some err), none, none, none, none⟩
  | .ok mhash =>
    let md := Assoc.set "hash" (.str mhash) md
    let seq := decide (key ≠ "")
    let md := if key = "" then md
      else Assoc.set "previous" (.str (h.ec.getPrevious env.cacheGetErr (event ++ key))) md
    let key := if key = "" then mhash else key
    let msg : EventMessage := ⟨message, md⟩
    let h := { h with Config := cfg.put slot md }
    match msg.ToBytes with
    | .error err => ⟨h, .returned (some err), some msg, none, none, none⟩
    | .ok b =>
      let ob := (OutboxRecord.mk "" "" event key b 0).GenerateID
      match (match h.collection.Get env.getErr ob with
        | .error err => if err.isNotFound then Except.ok ob else Except.error err
        | .ok found => Except.ok found) with
      | .error err => ⟨h, .returned (some err), some msg, none, none, none⟩
      | .ok ob =>
        if !ob.CreatedAt.IsZero then ⟨h, .returned none, some msg, none, none, none⟩
        else
          let ob := { ob with CreatedAt := env.now }
          match h.collection.Create env.createErr ob with
          | .error err => ⟨h, .returned (some err), some msg, none, none, none⟩
          | .ok col =>
            let h := { h with collection := col }
            if seq then
              ⟨{ h with ec := (h.ec.setCurrent env.cacheSetErr (event ++ key) mhash).1 },
                .returned none, some msg, some ob, none, none⟩
            else if h.receiving then
              ⟨{ h with channel := h.channel ++ [ob] }, .returned none, some msg, some ob, none, some ob⟩
            else ⟨h, .blocked, some msg, some ob, none, some ob⟩

/-- The method `Hybrid.Push`. -/
def Hybrid.Push (h : Hybrid) (env : Env) (event key : String) (message : Value)
    (metadata : Option Metadata) : Sent Hybrid :=
  h.send env event key message metadata

/-- The method `Hybrid.Publish`. -/
def Hybrid.Publish (h : Hybrid) (env : Env) (event : String) (message : Value)
    (metadata : Option Metadata) : Sent Hybrid :=
  h.send env event "" message metadata

/-! ## The PubSub emitter (`pubsub.go`) -/

/-- The struct `PubSub`. `topics` is `none` for a nil map, otherwise the topics opened so far;
`broker` lists the messages the broker has accepted, oldest first. -/
structure PubSub where
  Config : EventConfig
  KafkaBroker : String
  topics : Option (List String)
  ec : EmitterCache
  broker : List Message

/-- The method `PubSub.send`. Parsing the address and opening the topic are outside calls
answered by `env.parsed` and `env.openErr`. -/
def PubSub.send (p : PubSub) (env : Env) (event key : String) (message : Value)
    (metadata : Option Metadata) : Sent PubSub :=
  match p.topics with
  | none => ⟨p, .returned (some .notConfigured), none, none, none, none⟩
  | some topics =>
    let event := p.Config.getTopic event
    match (if topics.contains event then Except.ok topics
      else match env.parsed with
        | .error err => Except.error err
        | .ok u =>
          if u.Scheme = "kafka" then
            let brokers := if u.Host.data.contains (Char.ofNat 58) then u.Host else p.KafkaBroker
            if brokers = "" then Except.error Error.missingBroker
            else match env.openErr with
              | some err => Except.error err
              | none => Except.ok (topics ++ [event])
          else match env.openErr with
            | some err => Except.error err
            | none => Except.ok (topics ++ [event])) with
    | .error err => ⟨p, .returned (some err), none, none, none, none⟩
    | .ok topics =>
      let p := { p with topics := some topics }
      let cfg := (p.Config.getMetadata event).1
      let slot := (p.Config.getMetadata event).2.slot
      let md := (p.Config.getMetadata event).2.md
      let md := match metadata with
        | some m => mergeMap md m
        | none => md
      match Event.hash message with
      | .error err => ⟨{ p with Config := cfg.put slot md }, .returned (some err), none, none, none, none⟩
      | .ok mhash =>
        let md := Assoc.set "hash" (.str mhash) md
        let seq := decide (key ≠ "")
        let md := if key = "" then md
          else Assoc.set "previous" (.str (p.ec.getPrevious env.cacheGetErr (event ++ key))) md
        let key := if key = "" then mhash else key
        let msg : EventMessage := ⟨message, md⟩
        let p := { p with Config := cfg.put slot md }
        match msg.ToBytes with
        | .error err => ⟨p, .returned (some err), some msg, none, none, none⟩
        | .ok b =>
          let pmsg : Message := ⟨event, b, [("key", key)]⟩
          match env.sendErr with
          | some err => ⟨p, .returned (some err), some msg, none, none, none⟩
          | none =>
            let p := { p with broker := p.broker ++ [pmsg] }
            if seq then
              ⟨{ p with ec := (p.ec.setCurrent env.cacheSetErr (event ++ key) mhash).1 },
                .returned none, some msg, none, some pmsg, none⟩
            else ⟨p, .returned none, some msg, none, some pmsg, none⟩

/-- The method `PubSub.Publish`. -/
def PubSub.Publish (p : PubSub) (env : Env) (event : String) (message : Value)
    (metadata : Option Metadata) : Sent PubSub :=
  p.send env event "" message metadata

/-- The method `PubSub.Push`. -/
def PubSub.Push (p : PubSub) (env : Env) (event key : String) (message : Value)
    (metadata : Option Metadata) : Sent PubSub :=
  p.send env event key message metadata

/-! ## The steps of `send`, named

The three `send` methods share their first half (topic, metadata, hash, envelope) and differ in
what they do with the serialized envelope. The definitions below name those parts; the
`send_eq` theorems show that each `send` is their composition. -/

/-- The statement `if metadata != nil { mergo.Merge(&md, metadata) }`. -/
def mergeOpt (md : Metadata) : Option Metadata → Metadata
  | some m => mergeMap md m
  | none => md

/-- The metadata map of the envelope: the resolved template of `topic`, merged with the caller
metadata, with `"hash"` set and, for a keyed call, `"previous"` read from the cache. -/
def sendMetadata (c : EventConfig) (ec : EmitterCache) (env : Env) (topic key mhash : String)
    (metadata : Option Metadata) : Metadata :=
  if key = "" then
    Assoc.set "hash" (.str mhash) (mergeOpt (c.getMetadata topic).2.md metadata)
  else
    Assoc.set "previous" (.str (ec.getPrevious env.cacheGetErr (topic ++ key)))
      (Assoc.set "hash" (.str mhash) (mergeOpt (c.getMetadata topic).2.md metadata))

/-- The configuration once the map `getMetadata` returned by reference holds `md`. -/
def sendConfig (c : EventConfig) (topic : String) (md : Metadata) : EventConfig :=
  (c.getMetadata topic).1.put (c.getMetadata topic).2.slot md

/-- The record `send` builds before it asks the store: id, group and time unset, then
`GenerateID`. -/
def newRecord (topic key value : String) : OutboxRecord :=
  (OutboxRecord.mk "" "" topic key value 0).GenerateID

/-- The second half of `Outbox.send`: fetch by id, return on a stored record, otherwise insert
and, for a keyed call, update the cache. -/
def Outbox.persist (o : Outbox) (env : Env) (topic key mhash : String) (seq : Bool)
    (msg : EventMessage) (b : String) : Sent Outbox :=
  match (match o.collection.Get env.getErr (newRecord topic key b) with
    | .error err => if err.isNotFound then Except.ok (newRecord topic key b) else Except.error err
    | .ok found => Except.ok found) with
  | .error err => ⟨o, .returned (some err), some msg, none, none, none⟩
  | .ok ob =>
    if !ob.CreatedAt.IsZero then ⟨o, .returned none, some msg, none, none, none⟩
    else
      match o.collection.Create env.createErr { ob with CreatedAt := env.now } with
      | .error err => ⟨o, .returned (some err), some msg, none, none, none⟩
      | .ok col =>
        if seq then
          ⟨{ o with collection := col,
                    ec := (o.ec.setCurrent env.cacheSetErr (topic ++ key) mhash).1 },
            .returned none, some msg, some { ob with CreatedAt := env.now }, none, none⟩
        else
          ⟨{ o with collection := col }, .returned none, some msg,
            some { ob with CreatedAt := env.now }, none, none⟩

/-- The second half of `Hybrid.send`: as `Outbox.persist`, then the hand-over of an unkeyed
record to the relay worker. -/
def Hybrid.persist (h : Hybrid) (env : Env) (topic key mhash : String) (seq : Bool)
    (msg : EventMessage) (b : String) : Sent Hybrid :=
  match (match h.collection.Get env.getErr (newRecord topic key b) with
    | .error err => if err.isNotFound then Except.ok (newRecord topic key b) else Except.error err
    | .ok found => Except.ok found) with
  | .error err => ⟨h, .returned (some err), some msg, none, none, none⟩
  | .ok ob =>
    if !ob.CreatedAt.IsZero then ⟨h, .returned none, some msg, none, none, none⟩
    else
      match h.collection.Create env.createErr { ob with CreatedAt := env.now } with
      | .error err => ⟨h, .returned (some err), some msg, none, none, none⟩
      | .ok col =>
        if seq then
          ⟨{ h with collection := col,
                    ec := (h.ec.setCurrent env.cacheSetErr (topic ++ key) mhash).1 },
            .returned none, some msg, some { ob with CreatedAt := env.now }, none, none⟩
        else if h.receiving then
          ⟨{ h with collection := col, channel := h.channel ++ [{ ob with CreatedAt := env.now }] },
            .returned none, some msg, some { ob with CreatedAt := env.now }, none, some { ob with CreatedAt := env.now }⟩
        else
          ⟨{ h with collection := col }, .blocked, some msg,
            some { ob with CreatedAt := env.now }, none, some { ob with CreatedAt := env.now }⟩

/-- The durable side of a Hybrid emitter: configuration, store and cache, as an Outbox. -/
def Hybrid.toOutbox (h : Hybrid) : Outbox := ⟨h.Config, h.collection, h.ec⟩

/-- A string without a space character. -/
def noSpace (s : String) : Prop := Char.ofNat 32 ∉ s.data

instance noSpaceDecidable (s : String) : Decidable (noSpace s) := by
  unfold noSpace
  infer_instance

/-- What `mergeKey` leaves under its key, from what the destination held there (`none`: no
entry) and the source value. -/
def mergedValue : Option Value → Value → Option Value
  | dv, .null => dv
  | some (.map dm), .map sm =>
    if (mergeMap dm sm).isEmpty then some (.map sm) else some (.map (mergeMap dm sm))
  | some dv, sv => if dv.isEmpty then some sv else some dv
  | none, sv => some sv

/-- Whether a value is a map. -/
def Value.isMap : Value → Bool
  | .map _ => true
  | _ => false

/-- The precedence `mergo.Merge` gives under key `k` when the caller map `c` is merged into the
template `t` and `md` is the outcome: a non-empty template value stays (two maps apart, which are
merged); a non-nil caller value fills a missing or empty template entry; a key the caller does
not have keeps the template's entry. -/
def Precedence (k : String) (t c md : Metadata) : Prop :=
  (∀ v, Assoc.get k t = some v → v.isEmpty = false →
    (v.isMap = false ∨ ∀ sv, Assoc.get k c = some sv → sv.isMap = false) →
    Assoc.get k md = some v) ∧
  (∀ sv, Assoc.get k c = some sv → sv.isNull = false →
    (Assoc.get k t = none ∨ ∃ v, Assoc.get k t = some v ∧ v.isEmpty = true ∧
      (v.isMap = false ∨ sv.isMap = false)) →
    Assoc.get k md = some sv) ∧
  (Assoc.get k c = none → Assoc.get k md = Assoc.get k t)

mutual
/-- Well-formedness of a value as a Go value: every map reached through maps has distinct keys
(an association list with a repeated key stands for no Go map). -/
def Value.wf : Value → Bool
  | .map m => decide ((m.map Prod.fst).Nodup) && wfFields m
  | _ => true
/-- Well-formedness of the values of a map. -/
def wfFields : List (String × Value) → Bool
  | [] => true
  | (_, v) :: rest => v.wf && wfFields rest
end

/-- The value under `k` after a merge of `c` into a map that holds `v` under `k`. -/
def mergedOver (k : String) (v : Value) (c : Metadata) : Value :=
  match Assoc.get k c with
  | some sv => (mergedValue (some v) sv).getD v
  | none => v

/-- The two facts about one source value that make a second merge change nothing. -/
def Stable (sv : Value) : Prop :=
  (∀ dv, mergedValue (mergedValue dv sv) sv = mergedValue dv sv) ∧
  mergedValue (some sv) sv = some sv

/-- One `Push` after another on the same Outbox emitter, event and key: the results in call
order. Each step brings its world, payload and caller metadata. -/
def Outbox.pushAll (o : Outbox) (event key : String) :
    List (Env × Value × Option Metadata) → List (Sent Outbox)
  | [] => []
  | step :: rest =>
    o.Push step.1 event key step.2.1 step.2.2
      :: pushAll (o.Push step.1 event key step.2.1 step.2.2).state event key rest

/-- One `Push` after another on the same PubSub emitter, event and key. -/
def PubSub.pushAll (p : PubSub) (event key : String) :
    List (Env × Value × Option Metadata) → List (Sent PubSub)
  | [] => []
  | step :: rest =>
    p.Push step.1 event key step.2.1 step.2.2
      :: pushAll (p.Push step.1 event key step.2.1 step.2.2).state event key rest

/-- The string an envelope holds under a metadata key. -/
def EventMessage.text (k : String) (e : EventMessage) : Option String :=
  match Assoc.get k e.Metadata with
  | some (.str s) => some s
  | _ => none

/-- The link between two consecutive calls of a stream: the later envelope's `"previous"` is the
earlier envelope's `"hash"` when the earlier call advanced the stream, and the earlier
envelope's `"previous"` again when it did not. -/
def Linked {σ : Type} (advanced : Sent σ → Bool) (r1 r2 : Sent σ) : Prop :=
  ∀ e1 e2, r1.envelope = some e1 → r2.envelope = some e2 →
    Assoc.get "previous" e2.Metadata
      = if advanced r1 then Assoc.get "hash" e1.Metadata else Assoc.get "previous" e1.Metadata

/-! ## The relay worker of the Hybrid emitter (`Hybrid.sender`) -/

/-- What the outside world answers while the relay worker handles one record: the result of
`url.Parse`, and the errors `OpenTopic`, `Send` and `Delete` meet (`none`: the call works). -/
structure RelayEnv where
  parsed : Except Error URL
  openErr : Option Error
  sendErr : Option Error
  deleteErr : Option Error

/-- The fields of the struct `Hybrid` that only `sender` uses, and the broker. `topics` is `none`
for a nil map, otherwise the topics opened so far; `broker` lists the messages the broker has
accepted from the worker, oldest first. -/
structure Relay where
  KafkaBroker : String
  topics : Option (List String)
  broker : List Message

/-- The lookup of the record's topic in `h.topics`, and the opening of a topic that is not there:
the topics open afterwards, or the error with which `sender` returns. -/
def Relay.openTopic (w : Relay) (env : RelayEnv) (topic : String) : Except Error (List String) :=
  if (w.topics.getD []).contains topic then Except.ok (w.topics.getD [])
  else match env.parsed with
    | .error err => Except.error err
    | .ok u =>
      if u.Scheme = "kafka" then
        let brokers := if u.Host.data.contains (Char.ofNat 58) then u.Host else w.KafkaBroker
        if brokers = "" then Except.error Error.missingBroker
        else match env.openErr with
          | some err => Except.error err
          | none => Except.ok (w.topics.getD [] ++ [topic])
      else match env.openErr with
        | some err => Except.error err
        | none => Except.ok (w.topics.getD [] ++ [topic])

/-- One pass through the body of `for o := range h.channel`, for the record `o` just received:
the emitter and the relay afterwards, and the error with which the pass leaves `sender`
(`none`: the loop goes on, after `continue` or at the end of the body). -/
def Hybrid.senderPass (h : Hybrid) (w : Relay) (env : RelayEnv) (o : OutboxRecord) :
    Hybrid × Relay × Option Error :=
  match w.openTopic env o.KafkaTopic with
  | .error err => (h, w, some err)
  | .ok topics =>
    let w := { w with topics := some topics }
    let msg : Message := ⟨o.KafkaTopic, o.KafkaValue, [("key", o.KafkaKey)]⟩
    match env.sendErr with
    | some _ => (h, w, none)
    | none =>
      let w := { w with broker := w.broker ++ [msg] }
      match h.collection.Delete env.deleteErr o with
      | .error _ => (h, w, none)
      | .ok col => ({ h with collection := col }, w, none)

/-- What a run of `sender` has done: the emitter (its `channel` holds the records the worker has
not taken up, `receiving` tells whether the worker is still in its loop), the relay, and the
result: `none` while the worker is in its loop, `some err` once `sender` has returned `err`. -/
structure Relayed where
  state : Hybrid
  relay : Relay
  result : Option (Option Error)

/-- The loop `for o := range h.channel`. The worker takes the records of `h.channel` in order;
`envs` gives the world of each pass, and a record without one has not been taken up yet.
`closed` tells whether the channel is closed behind the records it holds: the loop ends on a
closed and drained channel, and waits on an open one. -/
def Hybrid.range (closed : Bool) : List RelayEnv → Hybrid → Relay → Relayed
  | [], h, w =>
    match h.channel with
    | [] => if closed then ⟨{ h with receiving := false }, w, some none⟩ else ⟨h, w, none⟩
    | _ :: _ => ⟨h, w, none⟩
  | env :: envs, h, w =>
    match h.channel with
    | [] => if closed then ⟨{ h with receiving := false }, w, some none⟩ else ⟨h, w, none⟩
    | o :: rest =>
      match Hybrid.senderPass { h with channel := rest } w env o with
      | (h, w, some err) => ⟨{ h with receiving := false }, w, some (some err)⟩
      | (h, w, none) => Hybrid.range closed envs h w

/-- The method `Hybrid.sender`, the relay worker. -/
def Hybrid.sender (h : Hybrid) (w : Relay) (envs : List RelayEnv) (closed : Bool) : Relayed :=
  match w.topics with
  | none => ⟨{ h with receiving := false }, w, some (some .notConfigured)⟩
  | some _ => Hybrid.range closed envs h w

/-- A world in which the topic of the record opens whatever is open already: the address
parses, a Kafka address comes with brokers, and `OpenTopic` works. -/
def RelayEnv.opens (env : RelayEnv) (w : Relay) : Bool :=
  match env.parsed with
  | .error _ => false
  | .ok u =>
    env.openErr.isNone &&
      !(u.Scheme = "kafka" &&
        (if u.Host.data.contains (Char.ofNat 58) then u.Host else w.KafkaBroker) = "")

/-- The lookup of the topic in `p.topics` and the opening of a topic that is not there, as
`PubSub.send` does them: the topics open afterwards, or the error `send` returns. -/
def PubSub.openTopic (p : PubSub) (topics : List String) (env : Env) (topic : String) :
    Except Error (List String) :=
  if topics.contains topic then Except.ok topics
  else match env.parsed with
    | .error err => Except.error err
    | .ok u =>
      if u.Scheme = "kafka" then
        let brokers := if u.Host.data.contains (Char.ofNat 58) then u.Host else p.KafkaBroker
        if brokers = "" then Except.error Error.missingBroker
        else match env.openErr with
          | some err => Except.error err
          | none => Except.ok (topics ++ [topic])
      else match env.openErr with
        | some err => Except.error err
        | none => Except.ok (topics ++ [topic])

/-- The message `PubSub.send` hands to the broker: the serialized envelope `b` as body and the
message key as attribute `"key"`. -/
def PubSub.message (topic key mhash b : String) : Message :=
  ⟨topic, b, [("key", if key = "" then mhash else key)]⟩

end Event

/-!
# Configuration loading (package `config`)

`config.Load` is embedded over a model of the `viper` instances it builds. The library
`github.com/spf13/viper` is written out from its published behaviour: a key is put in lower
case and split at the delimiter `.` into a path through nested maps, values that are maps are
stored with lower-case keys, and `find` searches the maps of an instance in viper's order. The
environment, the parsing of the address and the reading of a file or remote source are
answered by a `World`.
-/

namespace Config

open Event

/-- The result of `url.Parse`, as far as `Load` reads it. -/
structure URL where
  Scheme : String
  Host : String
  Path : String
deriving DecidableEq, Repr, Inhabited

/-- A `map[string]interface{}`: the argument `def`, the content of a file or of a remote source,
and each of the maps a `viper.Viper` keeps. -/
abbrev Settings := List (String × Value)

/-- The world outside `Load`: the process environment (`os.LookupEnv`), and the answers of
`url.Parse`, of `ReadInConfig` for a file path and of `ReadRemoteConfig` for a provider, an
endpoint and a path, each the decoded content of the source or the error of the call. -/
structure World where
  environ : List (String × String)
  parse : String → Except Error URL
  readInConfig : String → Except Error Settings
  readRemoteConfig : String → String → String → Except Error Settings

/-- The call `os.Getenv(name)`. -/
def World.Getenv (world : World) (name : String) : String :=
  (Assoc.get name world.environ).getD ""

/-- The call `strings.TrimPrefix(s, pre)`. -/
def trimLeading (pre s : String) : String :=
  if pre.data.isPrefixOf s.data then ⟨s.data.drop pre.data.length⟩ else s

/-! ## Keys as viper reads them -/

/-- The lower-case letter of an ASCII capital; any other character stays. -/
def lowerChar (c : Char) : Char :=
  if 65 ≤ c.toNat ∧ c.toNat ≤ 90 then Char.ofNat (c.toNat + 32) else c

/-- The capital of a lower-case ASCII letter; any other character stays. -/
def upperChar (c : Char) : Char :=
  if 97 ≤ c.toNat ∧ c.toNat ≤ 122 then Char.ofNat (c.toNat - 32) else c

/-- The call `strings.ToLower(s)`, on the letters of ASCII. -/
def toLower (s : String) : String := ⟨s.data.map lowerChar⟩

/-- The call `strings.ToUpper(s)`, on the letters of ASCII. -/
def toUpper (s : String) : String := ⟨s.data.map upperChar⟩

/-- Whether every character of a string is ASCII; on such strings `toLower` and `toUpper` are
the functions of package `strings`. -/
def isASCII (s : String) : Bool := s.data.all (fun c => decide (c.toNat < 128))

/-- Whether a key is free of the key delimiter `.` of viper. -/
def plainKey (k : String) : Bool := !k.data.contains (Char.ofNat 46)

/-- The pieces of a list of characters between the occurrences of a separator. -/
def splitChars (sep : Char) : List Char → List (List Char)
  | [] => [[]]
  | c :: cs =>
    if c = sep then [] :: splitChars sep cs
    else
      match splitChars sep cs with
      | [] => [[c]]
      | p :: ps => (c :: p) :: ps

/-- The call `strings.Split(key, v.keyDelim)`, with the key delimiter `.`. -/
def splitKey (key : String) : List String :=
  (splitChars (Char.ofNat 46) key.data).map String.mk

/-- The call `strings.Join(path, v.keyDelim)`. -/
def joinKey (path : List String) : String := ".".intercalate path

mutual
/-- The function `toCaseInsensitiveValue`: a map becomes a copy with lower-case keys, at every
depth reached through maps; any other value stays. -/
def insensValue : Value → Value
  | .map m => .map (insensMap m)
  | .null => .null
  | .bool b => .bool b
  | .int n => .int n
  | .str s => .str s
  | .list xs => .list xs
  | .chan => .chan
/-- The function `copyAndInsensitiviseMap`, which is also what `insensitiviseMap` leaves of a
decoded source. Go ranges over the map in no fixed order; where two keys differ in case only,
the entry nearer the head of the list is the one kept here. -/
def insensMap : List (String × Value) → List (String × Value)
  | [] => []
  | (k, v) :: rest => (toLower k, insensValue v) :: Assoc.erase (toLower k) (insensMap rest)
end

mutual
/-- Whether the keys of every map reached through maps are ASCII and differ in more than case:
on such a value lower-casing the keys loses no entry, whatever the order Go ranges in. -/
def regularValue : Value → Bool
  | .map m =>
    decide ((m.map (fun p => toLower p.1)).Nodup) && m.all (fun p => isASCII p.1) &&
      regularFields m
  | _ => true
/-- Whether every value of a map is regular. -/
def regularFields : List (String × Value) → Bool
  | [] => true
  | (_, v) :: rest => regularValue v && regularFields rest
end

/-! ## The type `viper.Viper` -/

/-- A `viper.Viper` as far as `Load` and the getter reach it: the maps `override` (values given
with `Set`), `env` (the variable bound to a key), `config` (the file read), `kvstore` (the remote
source read) and `defaults`. `Load` registers no alias and no flag, sets no environment prefix
and leaves `AutomaticEnv`, `AllowEmptyEnv` and the key delimiter as `viper.New` has them, so the
steps of `find` that read those are left out. -/
structure Viper where
  override : Settings
  env : List (String × String)
  config : Settings
  kvstore : Settings
  defaults : Settings

/-- The call `viper.New()`. -/
def Viper.New : Viper := ⟨[], [], [], [], []⟩

/-- The method `searchMap`: the value at the end of a path of keys through nested maps, nil
(`Value.null`) when a key is missing or a value on the way is not a map. -/
def searchMap : List String → Settings → Value
  | [], source => .map source
  | k :: rest, source =>
    match Assoc.get k source with
    | none => .null
    | some next =>
      if rest.isEmpty then next
      else
        match next with
        | .map m => searchMap rest m
        | _ => .null

/-- The loop of `searchMapWithPathPrefixes` over the prefix lengths `is`, longest first; `deeper`
is the search in a nested map. -/
def searchPrefixes (deeper : Settings → List String → Value) (source : Settings)
    (path : List String) : List Nat → Value
  | [] => .null
  | i :: is =>
    match Assoc.get (toLower (joinKey (path.take i))) source with
    | none => searchPrefixes deeper source path is
    | some next =>
      if i = path.length then next
      else
        match next with
        | .map m =>
          if (deeper m (path.drop i)).isNull then searchPrefixes deeper source path is
          else deeper m (path.drop i)
        | _ => searchPrefixes deeper source path is

/-- The method `searchMapWithPathPrefixes`, which lets a key of the file hold the delimiter.
Each nested search takes a shorter path; `fuel` counts the nestings left and is given as the
length of the path. -/
def searchMapWithPathPrefixes : Nat → Settings → List String → Value
  | 0, _, _ => .null
  | fuel + 1, source, path =>
    if path.isEmpty then .map source
    else
      searchPrefixes (searchMapWithPathPrefixes fuel) source path
        (List.range' 1 path.length).reverse

/-- The loop of `isPathShadowedInDeepMap` over the prefix lengths `is`. -/
def shadowedAt (path : List String) (m : Settings) : List Nat → String
  | [] => ""
  | i :: is =>
    match searchMap (path.take i) m with
    | .null => ""
    | .map _ => shadowedAt path m is
    | _ => joinKey (path.take i)

/-- The method `isPathShadowedInDeepMap`: the first proper prefix of the path that holds a value
which is not a map, or the empty string. -/
def isPathShadowedInDeepMap (path : List String) (m : Settings) : String :=
  shadowedAt path m (List.range' 1 (path.length - 1))

/-- The method `isPathShadowedInFlatMap`, on the map `v.env`: the first proper prefix of the path
that is a key of the map, or the empty string. -/
def isPathShadowedInFlatMap (path : List String) (m : List (String × String)) : String :=
  match (List.range' 1 (path.length - 1)).find?
      (fun i => (Assoc.get (joinKey (path.take i)) m).isSome) with
  | some i => joinKey (path.take i)
  | none => ""

/-- The method `getEnv`: the value of a variable that is set and, as `AllowEmptyEnv` is off, not
empty. -/
def getEnv (environ : List (String × String)) (key : String) : Option String :=
  match Assoc.get key environ with
  | some val => if val = "" then none else some val
  | none => none

/-- The method `find` for a lower-case key: `Set` values, then the bound environment variable,
then the file, then the remote source, then the defaults; nil (`Value.null`) when none holds a
value or a shorter path holds a value that is not a map. -/
def Viper.find (v : Viper) (environ : List (String × String)) (lcaseKey : String) : Value :=
  let path := splitKey lcaseKey
  let nested := decide (1 < path.length)
  if !(searchMap path v.override).isNull then searchMap path v.override
  else if nested && isPathShadowedInDeepMap path v.override != "" then .null
  else
    match (match Assoc.get lcaseKey v.env with
      | some envkey => getEnv environ envkey
      | none => none) with
    | some val => .str val
    | none =>
      if nested && isPathShadowedInFlatMap path v.env != "" then .null
      else if !(searchMapWithPathPrefixes path.length v.config path).isNull then
        searchMapWithPathPrefixes path.length v.config path
      else if nested && isPathShadowedInDeepMap path v.config != "" then .null
      else if !(searchMap path v.kvstore).isNull then searchMap path v.kvstore
      else if nested && isPathShadowedInDeepMap path v.kvstore != "" then .null
      else searchMap path v.defaults

/-- The method `Get`, also of the getter `Load` returns; `environ` is the process environment at
the time of the call. -/
def Viper.Get (v : Viper) (environ : List (String × String)) (key : String) : Value :=
  v.find environ (toLower key)

/-- The method `IsSet`. -/
def Viper.IsSet (v : Viper) (environ : List (String × String)) (key : String) : Bool :=
  !(v.find environ (toLower key)).isNull

/-- The method `BindEnv` with one argument: the key is bound to the variable of its upper-case
name (`mergeWithEnvPrefix` without a prefix, then `strings.ToUpper`). -/
def Viper.BindEnv (v : Viper) (key : String) : Viper :=
  { v with env := Assoc.set (toLower key) (toUpper (toUpper (toLower key))) v.env }

/-- The function `deepSearch` followed by the assignment `deepestMap[lastKey] = value`: the map
with `value` stored at the end of the path; a missing map on the way is made, and a value on the
way that is not a map is replaced by a new map. -/
def deepSet : List String → Value → Settings → Settings
  | [], _, m => m
  | k :: rest, value, m =>
    if rest.isEmpty then Assoc.set (toLower k) value m
    else
      match Assoc.get k m with
      | some (.map m3) => Assoc.set k (.map (deepSet rest value m3)) m
      | _ => Assoc.set k (.map (deepSet rest value [])) m

/-- The method `SetDefault`. -/
def Viper.SetDefault (v : Viper) (key : String) (value : Value) : Viper :=
  { v with defaults := deepSet (splitKey (toLower key)) (insensValue value) v.defaults }

/-- The method `Set`. -/
def Viper.Set (v : Viper) (key : String) (value : Value) : Viper :=
  { v with override := deepSet (splitKey (toLower key)) (insensValue value) v.override }

/-! ## The function `Load` -/

/-- The first loop of `Load`, over the entries of `def` in the order of the list: the variable
is bound in `econf`, the default is set in `config`, and a value `econf` has is set over it. -/
def bindDefaults (environ : List (String × String)) :
    List (String × Value) → Viper × Viper → Viper × Viper
  | [], vs => vs
  | (k, v) :: rest, (econf, config) =>
    let econf := econf.BindEnv k
    let config := config.SetDefault k v
    let config := if econf.IsSet environ k then config.Set k (econf.Get environ k) else config
    bindDefaults environ rest (econf, config)

/-- The second loop of `Load`, over the keys of `def`: the values the source has. -/
def applySource (environ : List (String × String)) (aconf : Viper) :
    List (String × Value) → Viper → Viper
  | [], config => config
  | (k, _) :: rest, config =>
    let config := if aconf.IsSet environ k then config.Set k (aconf.Get environ k) else config
    applySource environ aconf rest config

/-- The address `Load` works with: its argument, or the variable `CONFIG_URL` when the argument
is empty. -/
def configURL (world : World) (urlStr : String) : String :=
  if urlStr = "" then world.Getenv "CONFIG_URL" else urlStr

/-- The `switch u.Scheme` of `Load` up to the reading: the content `ReadInConfig` or
`ReadRemoteConfig` decodes, or the error with which `Load` returns. -/
def readSource (world : World) (urlStr : String) (u : URL) : Except Error Settings :=
  if u.Scheme = "file" then world.readInConfig (trimLeading "file://" urlStr)
  else if u.Scheme = "consul" then world.readRemoteConfig "consul" u.Host (trimLeading "/" u.Path)
  else if u.Scheme = "etcd" then world.readRemoteConfig "etcd" u.Host u.Path
  else .error (.external "Unsupported config scheme")

/-- The instance `aconf` once the source is read: `ReadInConfig` leaves the decoded content,
its keys in lower case, in `v.config`, and `ReadRemoteConfig` leaves it in `v.kvstore`. -/
def sourced (u : URL) (settings : Settings) : Viper :=
  if u.Scheme = "file" then { Viper.New with config := insensMap settings }
  else { Viper.New with kvstore := insensMap settings }

/-- The function `Load`; `defs` is its argument `def`. -/
def Load (world : World) (defs : List (String × Value)) (urlStr : String) :
    Except Error Viper :=
  let config := (bindDefaults world.environ defs (Viper.New, Viper.New)).2
  let urlStr := configURL world urlStr
  if urlStr = "" then .ok config
  else
    match world.parse urlStr with
    | .error err => .error err
    | .ok u =>
      match readSource world urlStr u with
      | .error err => .error err
      | .ok settings => .ok (applySource world.environ (sourced u settings) defs config)

end Config

/-!
# The cached collection (package `storage`)

`CachedCollection.Create` and `CachedCollection.Get` are embedded over explicit state: the
documents of the docstore collection and the entries of the cache. The documents are the
`Person` values of `cached_test.go`; the cache hands back the object it was given.
-/

namespace Storage

open Event

/-- The struct `Person` of `cached_test.go`, a `Document`. -/
structure Person where
  ID : String
  Name : String
  Age : Int
  CreatedAt : Time
deriving DecidableEq, Repr, Inhabited

/-- The method `Person.GenerateID`. `Hash58` stands for `util.Hash58`, a function outside the
sources at hand. -/
def Person.GenerateID (Hash58 : Person → String) (p : Person) : Person :=
  if p.ID ≠ "" then p else { p with ID := Hash58 p }

/-- The method `Person.GetID`. -/
def Person.GetID (p : Person) : String := p.ID

/-- The method `Person.SetCreatedTime`. -/
def Person.SetCreatedTime (ti : Time) (p : Person) : Person := { p with CreatedAt := ti }

/-- The method `Person.GetCreatedTime`. -/
def Person.GetCreatedTime (p : Person) : Time := p.CreatedAt

/-- What the outside world answers during one call: the clock, the key docstore generates for a
document created without one, and the errors the store (`Create`, `Get`) and the cache
(`GetObject`, `Set`) meet for outside reasons (`none`: the call works). -/
structure World where
  now : Time
  unique : String
  createErr : Option Error
  getErr : Option Error
  getObjectErr : Option Error
  setErr : Option Error

/-- The struct `CachedCollection`, as far as `Create` and `Get` use it: the documents of
`Collection` and the entries of `Cache`. -/
structure CachedCollection where
  CacheExpiration : Nat
  Collection : List Person
  Cache : List (String × Person)

/-- Where a call took the document from. -/
inductive Origin where
  | nowhere
  | store
  | cache
deriving DecidableEq, Repr, Inhabited

/-- What one call did: the collection afterwards, the document the caller passed by reference as
it stands after the call, the error returned, and where the document came from. -/
structure Result where
  state : CachedCollection
  doc : Person
  err : Option Error
  origin : Origin

/-- The call `c.Collection.Create(ctx, doc)` of docstore: a document without key gets a unique
one, and a document whose key is stored already makes the call fail. -/
def CachedCollection.storeCreate (c : CachedCollection) (world : World) (doc : Person) :
    Result :=
  match world.createErr with
  | some err => ⟨c, doc, some err, .nowhere⟩
  | none =>
    let doc := if doc.ID = "" then { doc with ID := world.unique } else doc
    if c.Collection.any (fun r => r.ID == doc.ID) then ⟨c, doc, some .alreadyExists, .nowhere⟩
    else ⟨{ c with Collection := c.Collection ++ [doc] }, doc, none, .nowhere⟩

/-- The call `c.Collection.Get(ctx, out)` of docstore: the stored document with the key of
`out`. -/
def CachedCollection.storeGet (c : CachedCollection) (world : World) (out : Person) :
    Except Error Person :=
  match world.getErr with
  | some err => .error err
  | none =>
    match c.Collection.find? (fun r => r.ID == out.ID) with
    | some r => .ok r
    | none => .error .notFound

/-- The method `CachedCollection.Create`. -/
def CachedCollection.Create (Hash58 : Person → String) (c : CachedCollection) (world : World)
    (doc : Person) : Result :=
  c.storeCreate world ((doc.SetCreatedTime world.now).GenerateID Hash58)

/-- The method `CachedCollection.Get`. -/
def CachedCollection.Get (c : CachedCollection) (world : World) (out : Person) : Result :=
  if out.GetID = "" then ⟨c, out, some (.external "[CachedCollection] missing id value"), .nowhere⟩
  else
    match (if (Assoc.get out.GetID c.Cache).isSome then
        (match world.getObjectErr with
          | none => Assoc.get out.GetID c.Cache
          | some _ => none)
      else none) with
    | some cached => ⟨c, cached, none, .cache⟩
    | none =>
      match c.storeGet world out with
      | .error err =>
        if err.isNotFound then ⟨c, out, none, .nowhere⟩ else ⟨c, out, some err, .nowhere⟩
      | .ok found =>
        match world.setErr with
        | some err => ⟨c, found, some err, .store⟩
        | none => ⟨{ c with Cache := Assoc.set found.GetID found c.Cache }, found, none, .store⟩

/-- The cache agrees with the store: every entry of the cache holds a stored document, under the
id of that document. -/
def CachedCollection.consistent (c : CachedCollection) : Bool :=
  c.Cache.all (fun e => c.Collection.contains e.2 && e.2.ID == e.1)

end Storage

namespace Event

/-! ## Facts about maps -/

namespace Assoc

variable {β : Type}

theorem get_set_self (k : String) (v : β) (m : List (String × β)) :
    get k (set k v m) = some v := by
  induction m with
  | nil => simp [set, get]
  | cons e m ih =>
    obtain ⟨k', v'⟩ := e
    by_cases h : k' = k
    · simp [set, get, h]
    · simp [set, get, h, ih]

theorem get_set_ne {k k' : String} (h : k' ≠ k) (v : β) (m : List (String × β)) :
    get k' (set k v m) = get k' m := by
  induction m with
  | nil => simp [set, get, Ne.symm h]
  | cons e m ih =>
    obtain ⟨k₀, v₀⟩ := e
    by_cases h₀ : k₀ = k
    · subst h₀
      simp [set, get, Ne.symm h]
    · by_cases h₁ : k₀ = k'
      · subst h₁
        simp [set, get, h₀]
      · simp [set, get, h₀, h₁, ih]

theorem set_of_get {k : String} {v : β} {m : List (String × β)} (h : get k m = some v) :
    set k v m = m := by
  induction m with
  | nil => simp [get] at h
  | cons e m ih =>
    obtain ⟨k', v'⟩ := e
    by_cases hk : k' = k
    · simp [get, hk] at h
      simp [set, hk, h]
    · simp [get, hk] at h
      simp [set, hk, ih h]

theorem set_set (k : String) (v w : β) (m : List (String × β)) :
    set k v (set k w m) = set k v m := by
  induction m with
  | nil => simp [set]
  | cons e m ih =>
    obtain ⟨k', v'⟩ := e
    by_cases hk : k' = k
    · simp [set, hk]
    · simp [set, hk, ih]

theorem set_ne_nil (k : String) (v : β) (m : List (String × β)) : set k v m ≠ [] := by
  cases m with
  | nil => simp [set]
  | cons e m =>
    obtain ⟨k', v'⟩ := e
    by_cases hk : k' = k <;> simp [set, hk]

theorem get_eq_none_of_not_mem {k : String} {m : List (String × β)}
    (h : k ∉ m.map Prod.fst) : get k m = none := by
  induction m with
  | nil => rfl
  | cons e m ih =>
    obtain ⟨k', v'⟩ := e
    simp only [List.map_cons, List.mem_cons, not_or] at h
    simp [get, Ne.symm h.1, ih h.2]

theorem get_of_mem_of_nodup {k : String} {v : β} {m : List (String × β)}
    (nd : (m.map Prod.fst).Nodup) (h : (k, v) ∈ m) : get k m = some v := by
  induction m with
  | nil => simp at h
  | cons e m ih =>
    obtain ⟨k', v'⟩ := e
    simp only [List.map_cons, List.nodup_cons] at nd
    rcases List.mem_cons.1 h with h | h
    · cases h
      simp [get]
    · have hk : k' ≠ k := by
        intro hk
        subst hk
        exact nd.1 (List.mem_map_of_mem Prod.fst h)
      simp [get, hk, ih nd.2 h]

end Assoc

/-! ## Each `send` as the composition of its steps -/

theorem outbox_send_eq (o : Outbox) (env : Env) (event key : String) (message : Value)
    (metadata : Option Metadata) :
    o.send env event key message metadata =
      match Event.hash message with
      | .error err =>
        ⟨{ o with Config := (sendConfig o.Config (o.Config.getTopic event)
            (mergeOpt (o.Config.getMetadata (o.Config.getTopic event)).2.md metadata)) },
          .returned (some err), none, none, none, none⟩
      | .ok mhash =>
        match (EventMessage.mk message
          (sendMetadata o.Config o.ec env (o.Config.getTopic event) key mhash metadata)).ToBytes with
        | .error err =>
          ⟨{ o with Config := (sendConfig o.Config (o.Config.getTopic event)
              (sendMetadata o.Config o.ec env (o.Config.getTopic event) key mhash metadata)) },
            .returned (some err),
            some ⟨message, sendMetadata o.Config o.ec env (o.Config.getTopic event) key mhash metadata⟩,
            none, none, none⟩
        | .ok b =>
          Outbox.persist
            { o with Config := (sendConfig o.Config (o.Config.getTopic event)
              (sendMetadata o.Config o.ec env (o.Config.getTopic event) key mhash metadata)) }
            env (o.Config.getTopic event) (if key = "" then mhash else key) mhash
            (decide (key ≠ ""))
            ⟨message, sendMetadata o.Config o.ec env (o.Config.getTopic event) key mhash metadata⟩
            b := by
  unfold Outbox.send
  cases Event.hash message with
  | error err => cases metadata <;> rfl
  | ok mhash =>
    by_cases hk : key = ""
    · subst hk
      cases metadata <;>
        (simp only [sendMetadata, mergeOpt, sendConfig, if_true]; split <;> rfl)
    · cases metadata <;>
        (simp only [sendMetadata, mergeOpt, sendConfig, hk, if_false]; split <;> rfl)

theorem hybrid_send_eq (h : Hybrid) (env : Env) (event key : String) (message : Value)
    (metadata : Option Metadata) :
    h.send env event key message metadata =
      match Event.hash message with
      | .error err =>
        ⟨{ h with Config := (sendConfig h.Config (h.Config.getTopic event)
            (mergeOpt (h.Config.getMetadata (h.Config.getTopic event)).2.md metadata)) },
          .returned (some err), none, none, none, none⟩
      | .ok mhash =>
        match (EventMessage.mk message
          (sendMetadata h.Config h.ec env (h.Config.getTopic event) key mhash metadata)).ToBytes with
        | .error err =>
          ⟨{ h with Config := (sendConfig h.Config (h.Config.getTopic event)
              (sendMetadata h.Config h.ec env (h.Config.getTopic event) key mhash metadata)) },
            .returned (some err),
            some ⟨message, sendMetadata h.Config h.ec env (h.Config.getTopic event) key mhash metadata⟩,
            none, none, none⟩
        | .ok b =>
          Hybrid.persist
            { h with Config := (sendConfig h.Config (h.Config.getTopic event)
              (sendMetadata h.Config h.ec env (h.Config.getTopic event) key mhash metadata)) }
            env (h.Config.getTopic event) (if key = "" then mhash else key) mhash
            (decide (key ≠ ""))
            ⟨message, sendMetadata h.Config h.ec env (h.Config.getTopic event) key mhash metadata⟩
            b := by
  unfold Hybrid.send
  cases Event.hash message with
  | error err => cases metadata <;> rfl
  | ok mhash =>
    by_cases hk : key = ""
    · subst hk
      cases metadata <;>
        (simp only [sendMetadata, mergeOpt, sendConfig, if_true]; split <;> rfl)
    · cases metadata <;>
        (simp only [sendMetadata, mergeOpt, sendConfig, hk, if_false]; split <;> rfl)

/-! ## Configuration lookups -/

/-- C6: `getMetadata` returns the template stored under the event name if there is one (the
returned map is the stored one, with `"event"` written into it), otherwise the template stored
under `"default"` in the same way, otherwise the new map `{version:1, event:<name>}`; in all
three cases the returned map holds the name under `"event"`. -/
theorem getMetadata_resolution (c : EventConfig) (event : String) :
    (∀ m, Assoc.get event c.Metadata = some m →
      (c.getMetadata event).2 = ⟨some event, Assoc.set "event" (.str event) m⟩ ∧
      Assoc.get event (c.getMetadata event).1.Metadata = some (c.getMetadata event).2.md) ∧
    (Assoc.get event c.Metadata = none → ∀ m, Assoc.get "default" c.Metadata = some m →
      (c.getMetadata event).2 = ⟨some "default", Assoc.set "event" (.str event) m⟩ ∧
      Assoc.get "default" (c.getMetadata event).1.Metadata = some (c.getMetadata event).2.md) ∧
    (Assoc.get event c.Metadata = none → Assoc.get "default" c.Metadata = none →
      c.getMetadata event = (c, ⟨none, [("version", .int 1), ("event", .str event)]⟩)) ∧
    Assoc.get "event" (c.getMetadata event).2.md = some (.str event) := by
  refine ⟨?_, ?_, ?_, ?_⟩
  · intro m hm
    simp [EventConfig.getMetadata, hm, EventConfig.put, Assoc.get_set_self]
  · intro hn m hm
    simp [EventConfig.getMetadata, EventConfig.getDefaultMetadata, hn, hm, EventConfig.put,
      Assoc.get_set_self]
  · intro hn hd
    simp [EventConfig.getMetadata, EventConfig.getDefaultMetadata, hn, hd]
  · unfold EventConfig.getMetadata EventConfig.getDefaultMetadata
    split
    · simp [Assoc.get_set_self]
    · split
      · simp [Assoc.get_set_self]
      · simp [Assoc.get]

/-! ## Record ids -/

set_option maxRecDepth 1000000 in
/-- C7, counterexample: the record `t k v` and the same record after `GenerateID` agree on
topic, key and value, yet `GenerateID` gives them different ids, because the printed form that is
hashed contains the id field. -/
theorem generateID_reads_id_field :
    (OutboxRecord.mk "" "" "t" "k" "v" 0).GenerateID.KafkaTopic
      = (OutboxRecord.mk "" "" "t" "k" "v" 0).KafkaTopic ∧
    (OutboxRecord.mk "" "" "t" "k" "v" 0).GenerateID.KafkaKey
      = (OutboxRecord.mk "" "" "t" "k" "v" 0).KafkaKey ∧
    (OutboxRecord.mk "" "" "t" "k" "v" 0).GenerateID.KafkaValue
      = (OutboxRecord.mk "" "" "t" "k" "v" 0).KafkaValue ∧
    (OutboxRecord.mk "" "" "t" "k" "v" 0).GenerateID.GenerateID.ID
      ≠ (OutboxRecord.mk "" "" "t" "k" "v" 0).GenerateID.ID := by
  decide

/-- C7, amended: the id `GenerateID` assigns is the digest text of the record's printed form,
which holds all six fields; two records that agree on id, group, topic, key, value and time get
the same id. -/
theorem generateID_function_of_all_fields (r1 r2 : OutboxRecord)
    (hi : r1.ID = r2.ID) (hg : r1.GroupID = r2.GroupID) (ht : r1.KafkaTopic = r2.KafkaTopic)
    (hk : r1.KafkaKey = r2.KafkaKey) (hv : r1.KafkaValue = r2.KafkaValue)
    (hc : r1.CreatedAt = r2.CreatedAt) :
    r1.GenerateID.ID = r2.GenerateID.ID ∧ r1.GenerateID.ID = digestText r1.Sprintf := by
  have h : r1 = r2 := by
    cases r1
    cases r2
    simp_all
  subst h
  exact ⟨rfl, rfl⟩

/-- C7, witness: two copies of a record that already carries an id, a group and a time. -/
theorem generateID_function_of_all_fields_witness :
    (OutboxRecord.mk "x" "g" "t" "k" "v" 5).GenerateID.ID
      = (OutboxRecord.mk "x" "g" "t" "k" "v" 5).GenerateID.ID ∧
    (OutboxRecord.mk "x" "g" "t" "k" "v" 5).GenerateID.ID
      = digestText (OutboxRecord.mk "x" "g" "t" "k" "v" 5).Sprintf :=
  generateID_function_of_all_fields (OutboxRecord.mk "x" "g" "t" "k" "v" 5)
    (OutboxRecord.mk "x" "g" "t" "k" "v" 5) rfl rfl rfl rfl rfl rfl

theorem split_at_space {a b x y : List Char} (ha : Char.ofNat 32 ∉ a) (hb : Char.ofNat 32 ∉ b)
    (h : a ++ Char.ofNat 32 :: x = b ++ Char.ofNat 32 :: y) : a = b ∧ x = y := by
  induction a generalizing b with
  | nil =>
    cases b with
    | nil => simpa using h
    | cons c b =>
      simp only [List.nil_append, List.cons_append, List.cons.injEq] at h
      exact absurd (by simp [← h.1]) hb
  | cons c a ih =>
    cases b with
    | nil =>
      simp only [List.nil_append, List.cons_append, List.cons.injEq] at h
      exact absurd (by simp [h.1]) ha
    | cons d b =>
      simp only [List.cons_append, List.cons.injEq] at h
      have ha' : Char.ofNat 32 ∉ a := fun hm => ha (List.mem_cons_of_mem _ hm)
      have hb' : Char.ofNat 32 ∉ b := fun hm => hb (List.mem_cons_of_mem _ hm)
      obtain ⟨h1, h2⟩ := ih ha' hb' h.2
      exact ⟨by rw [h.1, h1], h2⟩

theorem sprintf_unset (r : OutboxRecord) (hi : r.ID = "") (hg : r.GroupID = "")
    (hc : r.CreatedAt = 0) :
    r.Sprintf.data = "&\x7b  ".data ++ (r.KafkaTopic.data ++ Char.ofNat 32 :: (r.KafkaKey.data
      ++ Char.ofNat 32 :: (r.KafkaValue.data ++ (" " ++ Time.String 0 ++ "\x7d").data))) := by
  unfold OutboxRecord.Sprintf
  rw [hi, hg, hc]
  simp [String.data_append]

theorem sprintf_injective {r1 r2 : OutboxRecord}
    (hi1 : r1.ID = "") (hg1 : r1.GroupID = "") (hc1 : r1.CreatedAt = 0)
    (hi2 : r2.ID = "") (hg2 : r2.GroupID = "") (hc2 : r2.CreatedAt = 0)
    (ht1 : noSpace r1.KafkaTopic) (hk1 : noSpace r1.KafkaKey)
    (ht2 : noSpace r2.KafkaTopic) (hk2 : noSpace r2.KafkaKey)
    (h : r1.Sprintf = r2.Sprintf) :
    r1.KafkaTopic = r2.KafkaTopic ∧ r1.KafkaKey = r2.KafkaKey ∧ r1.KafkaValue = r2.KafkaValue := by
  have hd := congrArg String.data h
  rw [sprintf_unset r1 hi1 hg1 hc1, sprintf_unset r2 hi2 hg2 hc2] at hd
  have h1 := List.append_cancel_left hd
  obtain ⟨e1, h2⟩ := split_at_space ht1 ht2 h1
  obtain ⟨e2, h3⟩ := split_at_space hk1 hk2 h2
  have e3 := List.append_cancel_right h3
  exact ⟨String.ext e1, String.ext e2, String.ext e3⟩

set_option maxRecDepth 1000000 in
/-- C8, counterexample: topic `a b` with key `c` and topic `a` with key `b c` (same value, id,
group and time unset) print alike, so `GenerateID` gives both the same id although the topics
differ. -/
theorem generateID_same_id_for_different_topics :
    (OutboxRecord.mk "" "" "a b" "c" "v" 0).GenerateID.ID
      = (OutboxRecord.mk "" "" "a" "b c" "v" 0).GenerateID.ID ∧
    (OutboxRecord.mk "" "" "a b" "c" "v" 0).KafkaTopic
      ≠ (OutboxRecord.mk "" "" "a" "b c" "v" 0).KafkaTopic := by
  decide

/-- C8, amended: for records with unset id, group and time whose topics and keys contain no
space, equal ids come from equal topic, key and value, or else from two different printed forms
with the same SHA-256 digest text. -/
theorem generateID_same_id_without_spaces (r1 r2 : OutboxRecord)
    (hi1 : r1.ID = "") (hg1 : r1.GroupID = "") (hc1 : r1.CreatedAt = 0)
    (hi2 : r2.ID = "") (hg2 : r2.GroupID = "") (hc2 : r2.CreatedAt = 0)
    (ht1 : noSpace r1.KafkaTopic) (hk1 : noSpace r1.KafkaKey)
    (ht2 : noSpace r2.KafkaTopic) (hk2 : noSpace r2.KafkaKey)
    (h : r1.GenerateID.ID = r2.GenerateID.ID) :
    (r1.KafkaTopic = r2.KafkaTopic ∧ r1.KafkaKey = r2.KafkaKey ∧ r1.KafkaValue = r2.KafkaValue) ∨
    (r1.Sprintf ≠ r2.Sprintf ∧ digestText r1.Sprintf = digestText r2.Sprintf) := by
  by_cases hp : r1.Sprintf = r2.Sprintf
  · exact Or.inl (sprintf_injective hi1 hg1 hc1 hi2 hg2 hc2 ht1 hk1 ht2 hk2 hp)
  · exact Or.inr ⟨hp, h⟩

/-- C8, witness: two records for topic `orders`, key `k-1` and the same value. -/
theorem generateID_same_id_without_spaces_witness :
    ((OutboxRecord.mk "" "" "orders" "k-1" "v 1" 0).KafkaTopic
        = (OutboxRecord.mk "" "" "orders" "k-1" "v 1" 0).KafkaTopic ∧
      (OutboxRecord.mk "" "" "orders" "k-1" "v 1" 0).KafkaKey
        = (OutboxRecord.mk "" "" "orders" "k-1" "v 1" 0).KafkaKey ∧
      (OutboxRecord.mk "" "" "orders" "k-1" "v 1" 0).KafkaValue
        = (OutboxRecord.mk "" "" "orders" "k-1" "v 1" 0).KafkaValue) ∨
    ((OutboxRecord.mk "" "" "orders" "k-1" "v 1" 0).Sprintf
        ≠ (OutboxRecord.mk "" "" "orders" "k-1" "v 1" 0).Sprintf ∧
      digestText (OutboxRecord.mk "" "" "orders" "k-1" "v 1" 0).Sprintf
        = digestText (OutboxRecord.mk "" "" "orders" "k-1" "v 1" 0).Sprintf) :=
  generateID_same_id_without_spaces (OutboxRecord.mk "" "" "orders" "k-1" "v 1" 0)
    (OutboxRecord.mk "" "" "orders" "k-1" "v 1" 0) rfl rfl rfl rfl rfl rfl
    (by decide) (by decide) (by decide) (by decide) rfl

/-! ## The store, and the second half of send -/

theorem Collection.get_ok {col : Collection} {fault : Option Error} {ob r : OutboxRecord}
    (h : Collection.Get col fault ob = .ok r) : fault = none ∧ r ∈ col ∧ r.ID = ob.ID := by
  unfold Collection.Get at h
  cases fault with
  | some err => simp at h
  | none =>
    simp only at h
    split at h
    · rename_i r' hf
      cases h
      exact ⟨rfl, List.mem_of_find?_eq_some hf, by simpa using List.find?_some hf⟩
    · simp at h

theorem Collection.create_ok {col col' : Collection} {fault : Option Error} {ob : OutboxRecord}
    (h : Collection.Create col fault ob = .ok col') :
    fault = none ∧ col' = col ++ [ob] ∧ ∀ r ∈ col, r.ID ≠ ob.ID := by
  unfold Collection.Create at h
  cases fault with
  | some err => simp at h
  | none =>
    simp only at h
    split at h
    · simp at h
    · rename_i hn
      cases h
      refine ⟨rfl, rfl, ?_⟩
      intro r hr he
      exact hn (List.any_eq_true.2 ⟨r, hr, by simp [he]⟩)

theorem Collection.create_of_mem {col : Collection} (fault : Option Error) (ob : OutboxRecord)
    {r : OutboxRecord} (hr : r ∈ col) (he : r.ID = ob.ID) : ∃ err, Collection.Create col fault ob = .error err := by
  unfold Collection.Create
  cases fault with
  | some err => exact ⟨err, rfl⟩
  | none =>
    have : col.any (fun r => r.ID == ob.ID) = true := List.any_eq_true.2 ⟨r, hr, by simp [he]⟩
    simp [this]

theorem newRecord_fields (topic key b : String) :
    (newRecord topic key b).KafkaTopic = topic ∧ (newRecord topic key b).KafkaKey = key ∧
    (newRecord topic key b).KafkaValue = b ∧ (newRecord topic key b).CreatedAt = 0 ∧
    (newRecord topic key b).GroupID = "" := ⟨rfl, rfl, rfl, rfl, rfl⟩

theorem outbox_persist_cases (o : Outbox) (env : Env) (topic key mhash : String) (seq : Bool)
    (msg : EventMessage) (b : String) :
    (o.persist env topic key mhash seq msg b).envelope = some msg ∧
    (o.persist env topic key mhash seq msg b).published = none ∧
    (o.persist env topic key mhash seq msg b).handed = none ∧
    (o.persist env topic key mhash seq msg b).state.Config = o.Config ∧
    (((o.persist env topic key mhash seq msg b).state = o ∧
        (o.persist env topic key mhash seq msg b).inserted = none) ∨
      ((o.persist env topic key mhash seq msg b).inserted
          = some { newRecord topic key b with CreatedAt := env.now } ∧
        (o.persist env topic key mhash seq msg b).outcome = .returned none ∧
        o.collection.Create env.createErr { newRecord topic key b with CreatedAt := env.now }
          = .ok (o.persist env topic key mhash seq msg b).state.collection ∧
        (o.persist env topic key mhash seq msg b).state.ec
          = (if seq then (o.ec.setCurrent env.cacheSetErr (topic ++ key) mhash).1 else o.ec))) := by
  unfold Outbox.persist
  cases hg : o.collection.Get env.getErr (newRecord topic key b) with
  | error err =>
    by_cases hnf : err.isNotFound = true
    · simp only [hnf, if_true]
      have hz : (newRecord topic key b).CreatedAt.IsZero = true := rfl
      simp only [hz, Bool.not_true, Bool.false_eq_true, if_false]
      cases hc : o.collection.Create env.createErr { newRecord topic key b with CreatedAt := env.now } with
      | error e => simp
      | ok col => cases seq <;> simp
    · simp [hnf]
  | ok found =>
    simp only
    by_cases hz : found.CreatedAt.IsZero = true
    · simp only [hz, Bool.not_true, Bool.false_eq_true, if_false]
      obtain ⟨_, hm, he⟩ := Collection.get_ok hg
      obtain ⟨e, hc⟩ := Collection.create_of_mem env.createErr
        { found with CreatedAt := env.now } hm rfl
      simp [hc]
    · simp [hz]


theorem hybrid_persist_outbox (h : Hybrid) (env : Env) (topic key mhash : String) (seq : Bool)
    (msg : EventMessage) (b : String) :
    (h.persist env topic key mhash seq msg b).state.toOutbox
      = (h.toOutbox.persist env topic key mhash seq msg b).state ∧
    (h.persist env topic key mhash seq msg b).envelope
      = (h.toOutbox.persist env topic key mhash seq msg b).envelope ∧
    (h.persist env topic key mhash seq msg b).inserted
      = (h.toOutbox.persist env topic key mhash seq msg b).inserted ∧
    (h.persist env topic key mhash seq msg b).published = none ∧
    (h.persist env topic key mhash seq msg b).state.receiving = h.receiving ∧
    (h.persist env topic key mhash seq msg b).handed
      = (if seq then none else (h.toOutbox.persist env topic key mhash seq msg b).inserted) ∧
    (h.persist env topic key mhash seq msg b).state.channel
      = (if h.receiving then
          h.channel ++ (h.persist env topic key mhash seq msg b).handed.toList
        else h.channel) ∧
    (h.persist env topic key mhash seq msg b).outcome
      = (if h.receiving = false ∧ (h.persist env topic key mhash seq msg b).handed.isSome then
          Outcome.blocked
        else (h.toOutbox.persist env topic key mhash seq msg b).outcome) := by
  unfold Hybrid.persist Outbox.persist Hybrid.toOutbox
  simp only
  cases hg : Collection.Get h.collection env.getErr (newRecord topic key b) with
  | error err =>
    by_cases hnf : err.isNotFound = true
    · simp only [hnf, if_true]
      have hz : (newRecord topic key b).CreatedAt.IsZero = true := rfl
      simp only [hz, Bool.not_true, Bool.false_eq_true, if_false]
      cases hc : Collection.Create h.collection env.createErr
          { newRecord topic key b with CreatedAt := env.now } with
      | error e => simp
      | ok col => cases seq <;> cases hr : h.receiving <;> simp [hr]
    · simp [hnf]
  | ok found =>
    simp only
    by_cases hz : found.CreatedAt.IsZero = true
    · simp only [hz, Bool.not_true, Bool.false_eq_true, if_false]
      cases hc : Collection.Create h.collection env.createErr
          { found with CreatedAt := env.now } with
      | error e => simp
      | ok col => cases seq <;> cases hr : h.receiving <;> simp [hr]
    · simp [hz]

theorem hybrid_send_outbox (h : Hybrid) (env : Env) (event key : String) (message : Value)
    (metadata : Option Metadata) :
    (h.send env event key message metadata).state.toOutbox
      = (h.toOutbox.send env event key message metadata).state ∧
    (h.send env event key message metadata).envelope
      = (h.toOutbox.send env event key message metadata).envelope ∧
    (h.send env event key message metadata).inserted
      = (h.toOutbox.send env event key message metadata).inserted ∧
    (h.send env event key message metadata).published = none ∧
    (h.send env event key message metadata).state.receiving = h.receiving ∧
    (h.send env event key message metadata).handed
      = (if key = "" then (h.toOutbox.send env event key message metadata).inserted else none) ∧
    (h.send env event key message metadata).state.channel
      = (if h.receiving then
          h.channel ++ (h.send env event key message metadata).handed.toList
        else h.channel) ∧
    (h.send env event key message metadata).outcome
      = (if h.receiving = false ∧ (h.send env event key message metadata).handed.isSome then
          Outcome.blocked
        else (h.toOutbox.send env event key message metadata).outcome) := by
  rw [hybrid_send_eq, outbox_send_eq]
  have hcfg : h.toOutbox.Config = h.Config := rfl
  have hec : h.toOutbox.ec = h.ec := rfl
  simp only [hcfg, hec]
  cases Event.hash message with
  | error err => cases hr : h.receiving <;> simp [Hybrid.toOutbox, hr]
  | ok mhash =>
    simp only
    cases (EventMessage.mk message
        (sendMetadata h.Config h.ec env (h.Config.getTopic event) key mhash metadata)).ToBytes with
    | error err => cases hr : h.receiving <;> simp [Hybrid.toOutbox, hr]
    | ok b =>
      simp only
      have := hybrid_persist_outbox
        { h with Config := (sendConfig h.Config (h.Config.getTopic event)
            (sendMetadata h.Config h.ec env (h.Config.getTopic event) key mhash metadata)) }
        env (h.Config.getTopic event) (if key = "" then mhash else key) mhash (decide (key ≠ ""))
        ⟨message, sendMetadata h.Config h.ec env (h.Config.getTopic event) key mhash metadata⟩ b
      by_cases hk : key = ""
      · subst hk
        simpa [Hybrid.toOutbox] using this
      · simpa [Hybrid.toOutbox, hk] using this

/-! ## Hybrid against Outbox -/

set_option maxRecDepth 1000000 in
/-- C9, counterexample: a first `Publish("test", "y", nil)` on a new emitter is stored and handed
to the relay worker, which takes it and stops (it returns when it cannot open the topic). On
that emitter `Publish("test", "x", nil)` never returns from `Hybrid.send`, while `Outbox.send` on
the same configuration, store and cache returns success. -/
theorem hybrid_publish_never_returns_without_worker :
    (Hybrid.send
      { (Hybrid.send ⟨⟨[], []⟩, [], ⟨some [], "oc/"⟩, [], true⟩ (Env.working 5) "test" ""
          (.str "y") none).state with channel := [], receiving := false }
      (Env.working 6) "test" "" (.str "x") none).outcome = Outcome.blocked ∧
    (Outbox.send
      (Hybrid.toOutbox
        { (Hybrid.send ⟨⟨[], []⟩, [], ⟨some [], "oc/"⟩, [], true⟩ (Env.working 5) "test" ""
            (.str "y") none).state with channel := [], receiving := false })
      (Env.working 6) "test" "" (.str "x") none).outcome = Outcome.returned none := by
  decide

/-- C9, amended: while the relay worker is receiving, `Hybrid.send` ends as `Outbox.send` does on
the same configuration, store and cache (same success or error), leaves the same configuration,
records and cache entries, and differs only in the channel, which gains the newly inserted record
of an unkeyed call. -/
theorem hybrid_send_refines_outbox (h : Hybrid) (env : Env) (event key : String)
    (message : Value) (metadata : Option Metadata) (hr : h.receiving = true) :
    (h.send env event key message metadata).outcome
      = (h.toOutbox.send env event key message metadata).outcome ∧
    (h.send env event key message metadata).state.toOutbox
      = (h.toOutbox.send env event key message metadata).state ∧
    (h.send env event key message metadata).inserted
      = (h.toOutbox.send env event key message metadata).inserted ∧
    (h.send env event key message metadata).envelope
      = (h.toOutbox.send env event key message metadata).envelope ∧
    (h.send env event key message metadata).state.channel
      = h.channel ++ (if key = "" then
          (h.toOutbox.send env event key message metadata).inserted.toList else []) := by
  obtain ⟨h1, h2, h3, _, _, h6, h7, h8⟩ := hybrid_send_outbox h env event key message metadata
  refine ⟨?_, h1, h3, h2, ?_⟩
  · rw [h8]
    simp [hr]
  · rw [h7, h6]
    by_cases hk : key = "" <;> simp [hr, hk]

set_option maxRecDepth 1000000 in
/-- C9, witness: a first `Publish` on an emitter with a receiving worker and an empty store. -/
theorem hybrid_send_refines_outbox_witness :
    (Hybrid.mk ⟨[], []⟩ [] ⟨some [], "oc/"⟩ [] true).receiving = true ∧
    (Hybrid.send ⟨⟨[], []⟩, [], ⟨some [], "oc/"⟩, [], true⟩ (Env.working 5) "test" ""
      (.str "x") none).outcome = Outcome.returned none ∧
    (Hybrid.send ⟨⟨[], []⟩, [], ⟨some [], "oc/"⟩, [], true⟩ (Env.working 5) "test" ""
      (.str "x") none).state.channel.length = 1 := by
  have h := hybrid_send_refines_outbox ⟨⟨[], []⟩, [], ⟨some [], "oc/"⟩, [], true⟩
    (Env.working 5) "test" "" (.str "x") none rfl
  refine ⟨rfl, ?_, ?_⟩
  · rw [h.1]
    decide
  · rw [h.2.2.2.2]
    decide

theorem sendMetadata_unkeyed (c : EventConfig) (ec : EmitterCache) (env : Env)
    (topic mhash : String) (metadata : Option Metadata) :
    sendMetadata c ec env topic "" mhash metadata
      = Assoc.set "hash" (.str mhash) (mergeOpt (c.getMetadata topic).2.md metadata) := by
  simp [sendMetadata]

theorem hash_of_marshal {message : Value} {mb : String} (hm : jsonMarshal message = .ok mb) :
    Event.hash message = .ok (digestText mb) := by
  simp [Event.hash, hm]

theorem outbox_publish_facts (o : Outbox) (env : Env) (event : String) (message : Value)
    (metadata : Option Metadata) (mb : String) (hm : jsonMarshal message = .ok mb) :
    (∀ e, (o.Publish env event message metadata).envelope = some e →
      e = ⟨message, Assoc.set "hash" (.str (digestText mb))
        (mergeOpt (o.Config.getMetadata (o.Config.getTopic event)).2.md metadata)⟩) ∧
    (∀ ob, (o.Publish env event message metadata).inserted = some ob →
      ob.KafkaKey = digestText mb) ∧
    (o.Publish env event message metadata).state.ec = o.ec := by
  unfold Outbox.Publish
  rw [outbox_send_eq, hash_of_marshal hm]
  simp only [sendMetadata_unkeyed, if_true]
  cases (EventMessage.mk message (Assoc.set "hash" (.str (digestText mb))
      (mergeOpt (o.Config.getMetadata (o.Config.getTopic event)).2.md metadata))).ToBytes with
  | error err => simp
  | ok b =>
    simp only
    obtain ⟨h1, _, _, _, h5⟩ := outbox_persist_cases
      { o with Config := (sendConfig o.Config (o.Config.getTopic event)
        (Assoc.set "hash" (.str (digestText mb))
          (mergeOpt (o.Config.getMetadata (o.Config.getTopic event)).2.md metadata))) }
      env (o.Config.getTopic event) (digestText mb) (digestText mb) (decide (("" : String) ≠ ""))
      ⟨message, Assoc.set "hash" (.str (digestText mb))
        (mergeOpt (o.Config.getMetadata (o.Config.getTopic event)).2.md metadata)⟩ b
    refine ⟨?_, ?_, ?_⟩
    · intro e he
      rw [h1] at he
      exact (Option.some.inj he).symm
    · intro ob hob
      rcases h5 with ⟨_, hn⟩ | ⟨hi, _, _, _⟩
      · rw [hn] at hob
        cases hob
      · rw [hi] at hob
        cases hob
        rfl
    · rcases h5 with ⟨hs, _⟩ | ⟨_, _, _, hec⟩
      · rw [hs]
      · rw [hec]
        simp

theorem pubsub_publish_facts (p : PubSub) (env : Env) (event : String) (message : Value)
    (metadata : Option Metadata) (mb : String) (hm : jsonMarshal message = .ok mb) :
    (∀ e, (p.Publish env event message metadata).envelope = some e →
      e = ⟨message, Assoc.set "hash" (.str (digestText mb))
        (mergeOpt (p.Config.getMetadata (p.Config.getTopic event)).2.md metadata)⟩) ∧
    (∀ m, (p.Publish env event message metadata).published = some m →
      m.Metadata = [("key", digestText mb)]) ∧
    (p.Publish env event message metadata).state.ec = p.ec := by
  unfold PubSub.Publish PubSub.send
  simp only [hash_of_marshal hm]
  cases p.topics with
  | none => simp
  | some topics =>
    simp only
    split
    · simp
    · simp only [if_true]
      split
      · cases metadata <;> simp [mergeOpt]
      · split
        · cases metadata <;> simp [mergeOpt]
        · cases metadata <;> simp [mergeOpt]

/-! ## What the merge leaves under a key -/

theorem mergeKey_eq (d : Metadata) (k : String) (sv : Value) :
    mergeKey d k sv = match mergedValue (Assoc.get k d) sv with
      | some v => Assoc.set k v d
      | none => d := by
  cases hg : Assoc.get k d with
  | none => cases sv <;> simp [mergeKey, mergedValue, hg]
  | some dv =>
    cases sv <;> cases dv <;>
      simp [mergeKey, mergedValue, hg, Assoc.set_of_get hg] <;>
      split <;> simp_all [Assoc.set_of_get]

theorem get_mergeKey_self (d : Metadata) (k : String) (sv : Value) :
    Assoc.get k (mergeKey d k sv) = mergedValue (Assoc.get k d) sv := by
  rw [mergeKey_eq]
  cases hm : mergedValue (Assoc.get k d) sv with
  | some v => simp [Assoc.get_set_self]
  | none =>
    simp only
    cases hg : Assoc.get k d with
    | none => rfl
    | some dv =>
      rw [hg] at hm
      cases sv <;> cases dv <;> simp [mergedValue] at hm <;> split at hm <;> simp at hm

theorem get_mergeKey_ne {k k' : String} (h : k' ≠ k) (d : Metadata) (sv : Value) :
    Assoc.get k' (mergeKey d k sv) = Assoc.get k' d := by
  rw [mergeKey_eq]
  cases mergedValue (Assoc.get k d) sv with
  | some v => simp [Assoc.get_set_ne h]
  | none => rfl

theorem get_mergeMap_of_not_mem {k : String} (c : Metadata) :
    ∀ d : Metadata, k ∉ c.map Prod.fst → Assoc.get k (mergeMap d c) = Assoc.get k d := by
  induction c with
  | nil => intro d _; simp [mergeMap]
  | cons e c ih =>
    intro d hk
    obtain ⟨k', sv⟩ := e
    simp only [List.map_cons, List.mem_cons, not_or] at hk
    rw [mergeMap, ih _ hk.2, get_mergeKey_ne hk.1]

theorem get_mergeMap_of_mem {k : String} {sv : Value} (c : Metadata) :
    ∀ d : Metadata, (c.map Prod.fst).Nodup → (k, sv) ∈ c →
      Assoc.get k (mergeMap d c) = mergedValue (Assoc.get k d) sv := by
  induction c with
  | nil => intro d _ h; simp at h
  | cons e c ih =>
    intro d nd hm
    obtain ⟨k', sv'⟩ := e
    simp only [List.map_cons, List.nodup_cons] at nd
    rw [mergeMap]
    rcases List.mem_cons.1 hm with h | h
    · cases h
      rw [get_mergeMap_of_not_mem c _ nd.1, get_mergeKey_self]
    · have hk : k ≠ k' := by
        intro hk
        subst hk
        exact nd.1 (List.mem_map_of_mem Prod.fst h)
      rw [ih _ nd.2 h, get_mergeKey_ne hk]

/-! ## The envelope each send builds -/

theorem Assoc.mem_of_get {β : Type} {k : String} {v : β} {m : List (String × β)}
    (h : Assoc.get k m = some v) : (k, v) ∈ m := by
  induction m with
  | nil => simp [Assoc.get] at h
  | cons e m ih =>
    obtain ⟨k', v'⟩ := e
    by_cases hk : k' = k
    · simp [Assoc.get, hk] at h
      simp [hk, h]
    · simp [Assoc.get, hk] at h
      exact List.mem_cons_of_mem _ (ih h)

theorem Assoc.not_mem_of_get_none {β : Type} {k : String} {m : List (String × β)}
    (h : Assoc.get k m = none) : k ∉ m.map Prod.fst := by
  induction m with
  | nil => simp
  | cons e m ih =>
    obtain ⟨k', v'⟩ := e
    by_cases hk : k' = k
    · simp [Assoc.get, hk] at h
    · simp only [Assoc.get, hk, if_false] at h
      simp only [List.map_cons, List.mem_cons, not_or]
      exact ⟨Ne.symm hk, ih h⟩

theorem outbox_send_envelope {o : Outbox} {env : Env} {event key : String} {message : Value}
    {metadata : Option Metadata} {e : EventMessage}
    (h : (o.send env event key message metadata).envelope = some e) :
    ∃ mhash, Event.hash message = .ok mhash ∧
      e = ⟨message, sendMetadata o.Config o.ec env (o.Config.getTopic event) key mhash metadata⟩ := by
  rw [outbox_send_eq] at h
  cases hm : Event.hash message with
  | error err => simp [hm] at h
  | ok mhash =>
    refine ⟨mhash, rfl, ?_⟩
    simp only [hm] at h
    cases hb : (EventMessage.mk message
        (sendMetadata o.Config o.ec env (o.Config.getTopic event) key mhash metadata)).ToBytes with
    | error err =>
      simp only [hb] at h
      exact (Option.some.inj h).symm
    | ok b =>
      simp only [hb] at h
      rw [(outbox_persist_cases _ _ _ _ _ _ _ _).1] at h
      exact (Option.some.inj h).symm

theorem pubsub_send_envelope {p : PubSub} {env : Env} {event key : String} {message : Value}
    {metadata : Option Metadata} {e : EventMessage}
    (h : (p.send env event key message metadata).envelope = some e) :
    ∃ mhash, Event.hash message = .ok mhash ∧
      e = ⟨message, sendMetadata p.Config p.ec env (p.Config.getTopic event) key mhash metadata⟩ := by
  unfold PubSub.send at h
  cases ht : p.topics with
  | none => simp [ht] at h
  | some topics =>
    simp only [ht] at h
    split at h
    · simp at h
    · cases hm : Event.hash message with
      | error err => simp [hm] at h
      | ok mhash =>
        refine ⟨mhash, rfl, ?_⟩
        simp only [hm] at h
        have key_cases : key = "" ∨ key ≠ "" := em _
        rcases key_cases with hk | hk
        · subst hk
          simp only [if_true] at h
          split at h
          · cases metadata <;> simp [sendMetadata, mergeOpt] at h ⊢ <;> exact h.symm
          · split at h <;> cases metadata <;> simp [sendMetadata, mergeOpt] at h ⊢ <;> exact h.symm
        · simp only [hk, if_false] at h
          split at h
          · cases metadata <;> simp [sendMetadata, mergeOpt, hk] at h ⊢ <;> exact h.symm
          · split at h <;> cases metadata <;> simp [sendMetadata, mergeOpt, hk] at h ⊢ <;>
              exact h.symm

/-! ## Metadata precedence -/

theorem sendMetadata_get {k : String} (hk1 : k ≠ "hash") (hk2 : k ≠ "previous")
    (c : EventConfig) (ec : EmitterCache) (env : Env) (topic key mhash : String)
    (metadata : Option Metadata) :
    Assoc.get k (sendMetadata c ec env topic key mhash metadata)
      = Assoc.get k (mergeOpt (c.getMetadata topic).2.md metadata) := by
  unfold sendMetadata
  split
  · rw [Assoc.get_set_ne hk1]
  · rw [Assoc.get_set_ne hk2, Assoc.get_set_ne hk1]

theorem merge_precedence (t c : Metadata) (nd : (c.map Prod.fst).Nodup) (k : String) :
    Precedence k t c (mergeMap t c) := by
  refine ⟨?_, ?_, ?_⟩
  · intro v hv hne hmap
    cases hc : Assoc.get k c with
    | none => rw [get_mergeMap_of_not_mem c t (Assoc.not_mem_of_get_none hc), hv]
    | some sv =>
      rw [get_mergeMap_of_mem c t nd (Assoc.mem_of_get hc), hv]
      have hsv := fun h => hmap.resolve_left h sv hc
      cases sv <;> cases v <;> simp_all [mergedValue, Value.isEmpty, Value.isMap]
  · intro sv hc hnn ht
    rw [get_mergeMap_of_mem c t nd (Assoc.mem_of_get hc)]
    rcases ht with ht | ⟨v, ht, hemp, hmap⟩
    · rw [ht]
      cases sv <;> simp_all [mergedValue, Value.isNull]
    · rw [ht]
      cases sv <;> cases v <;> simp_all [mergedValue, Value.isEmpty, Value.isMap, Value.isNull]
  · intro hc
    exact get_mergeMap_of_not_mem c t (Assoc.not_mem_of_get_none hc)


set_option maxRecDepth 1000000 in
/-- C4, counterexample: the template of topic `t` holds nil under `a` and the caller passes
`{a:2}`; the key is present in both, yet the envelope holds the caller's `2`, because the merge
treats an empty template value as unset. -/
theorem caller_value_replaces_empty_template_value :
    Assoc.get "a" ((EventConfig.mk [("t", [("a", .null)])] []).getMetadata "t").2.md
      = some Value.null ∧
    (Outbox.send ⟨⟨[("t", [("a", .null)])], []⟩, [], ⟨some [], "oc/"⟩⟩ (Env.working 5) "t" ""
      (.str "x") (some [("a", .int 2)])).envelope.map (fun e => Assoc.get "a" e.Metadata)
      = some (some (Value.int 2)) :=
  ⟨rfl, by rfl⟩

/-- C4, amended: for every resolved template, every caller metadata map (distinct keys) and every
key other than `"hash"` and `"previous"`, the metadata in the envelope of `Outbox.send` and of
`PubSub.send` follows `Precedence`: a non-empty template value wins over the caller's (two maps
are merged instead), a non-nil caller value fills a missing or empty template entry, and a key
the caller does not pass keeps the template's entry. -/
theorem send_metadata_precedence (c : Metadata) (k : String)
    (nd : (c.map Prod.fst).Nodup) (hk1 : k ≠ "hash") (hk2 : k ≠ "previous") :
    (∀ (o : Outbox) (env : Env) (event key : String) (message : Value) (e : EventMessage),
      (o.send env event key message (some c)).envelope = some e →
      Precedence k (o.Config.getMetadata (o.Config.getTopic event)).2.md c e.Metadata) ∧
    (∀ (p : PubSub) (env : Env) (event key : String) (message : Value) (e : EventMessage),
      (p.send env event key message (some c)).envelope = some e →
      Precedence k (p.Config.getMetadata (p.Config.getTopic event)).2.md c e.Metadata) := by
  refine ⟨?_, ?_⟩
  · intro o env event key message e he
    obtain ⟨mhash, _, rfl⟩ := outbox_send_envelope he
    have := merge_precedence (o.Config.getMetadata (o.Config.getTopic event)).2.md c nd k
    simpa [Precedence, sendMetadata_get hk1 hk2, mergeOpt] using this
  · intro p env event key message e he
    obtain ⟨mhash, _, rfl⟩ := pubsub_send_envelope he
    have := merge_precedence (p.Config.getMetadata (p.Config.getTopic event)).2.md c nd k
    simpa [Precedence, sendMetadata_get hk1 hk2, mergeOpt] using this

set_option maxRecDepth 1000000 in
/-- C4, witness: template `{a:1}` and caller metadata `{a:2,b:3}` give `a = 1` and `b = 3` in the
envelope. -/
theorem send_metadata_precedence_witness :
    (Outbox.send ⟨⟨[("t", [("a", .int 1)])], []⟩, [], ⟨some [], "oc/"⟩⟩ (Env.working 5) "t" ""
      (.str "x") (some [("a", .int 2), ("b", .int 3)])).envelope.map
        (fun e => (Assoc.get "a" e.Metadata, Assoc.get "b" e.Metadata))
      = some (some (Value.int 1), some (Value.int 3)) := by
  cases he : (Outbox.send ⟨⟨[("t", [("a", .int 1)])], []⟩, [], ⟨some [], "oc/"⟩⟩ (Env.working 5)
      "t" "" (.str "x") (some [("a", .int 2), ("b", .int 3)])).envelope with
  | none =>
    have hs : (Outbox.send ⟨⟨[("t", [("a", .int 1)])], []⟩, [], ⟨some [], "oc/"⟩⟩ (Env.working 5)
      "t" "" (.str "x") (some [("a", .int 2), ("b", .int 3)])).envelope.isSome = true := by
      decide
    rw [he] at hs
    cases hs
  | some e =>
    have ha := ((send_metadata_precedence [("a", .int 2), ("b", .int 3)] "a" (by decide)
      (by decide) (by decide)).1 _ _ _ _ _ e he).1 (.int 1) rfl rfl (Or.inl rfl)
    have hb := ((send_metadata_precedence [("a", .int 2), ("b", .int 3)] "b" (by decide)
      (by decide) (by decide)).1 _ _ _ _ _ e he).2.1 (.int 3) rfl rfl (Or.inl rfl)
    simp [ha, hb]

/-! ## Publish: the payload hash as key -/

/-- C5: for a payload whose JSON text is `mb`, `hash` gives the base64 text of the SHA-256 digest
of `mb`; in a `Publish` of the Outbox and of the PubSub emitter the envelope holds that text
under `"hash"`, the stored record's key and the broker attribute `"key"` equal it, the
envelope's `"previous"` entry is whatever the merged template holds (the cache is not read), and
the cache is left as it was. -/
theorem publish_key_is_payload_hash (message : Value) (mb : String)
    (hm : jsonMarshal message = .ok mb) :
    Event.hash message = .ok (Base64.encodeToString (SHA256.sum256 (bytes mb))) ∧
    (∀ (o : Outbox) (env : Env) (event : String) (metadata : Option Metadata),
      (∀ e, (o.Publish env event message metadata).envelope = some e →
        Assoc.get "hash" e.Metadata = some (.str (digestText mb)) ∧
        Assoc.get "previous" e.Metadata = Assoc.get "previous"
          (mergeOpt (o.Config.getMetadata (o.Config.getTopic event)).2.md metadata)) ∧
      (∀ ob, (o.Publish env event message metadata).inserted = some ob →
        ob.KafkaKey = digestText mb) ∧
      (o.Publish env event message metadata).state.ec = o.ec) ∧
    (∀ (p : PubSub) (env : Env) (event : String) (metadata : Option Metadata),
      (∀ e, (p.Publish env event message metadata).envelope = some e →
        Assoc.get "hash" e.Metadata = some (.str (digestText mb)) ∧
        Assoc.get "previous" e.Metadata = Assoc.get "previous"
          (mergeOpt (p.Config.getMetadata (p.Config.getTopic event)).2.md metadata)) ∧
      (∀ m, (p.Publish env event message metadata).published = some m →
        Assoc.get "key" m.Metadata = some (digestText mb)) ∧
      (p.Publish env event message metadata).state.ec = p.ec) := by
  refine ⟨hash_of_marshal hm, ?_, ?_⟩
  · intro o env event metadata
    obtain ⟨h1, h2, h3⟩ := outbox_publish_facts o env event message metadata mb hm
    refine ⟨?_, h2, h3⟩
    intro e he
    rw [h1 e he]
    exact ⟨Assoc.get_set_self _ _ _, Assoc.get_set_ne (by decide) _ _⟩
  · intro p env event metadata
    obtain ⟨h1, h2, h3⟩ := pubsub_publish_facts p env event message metadata mb hm
    refine ⟨?_, ?_, h3⟩
    · intro e he
      rw [h1 e he]
      exact ⟨Assoc.get_set_self _ _ _, Assoc.get_set_ne (by decide) _ _⟩
    · intro m hmm
      rw [h2 m hmm]
      rfl

/-- C5, witness: the payload `{id:1}`, whose JSON text is `{"id":1}`. -/
theorem publish_key_is_payload_hash_witness :
    jsonMarshal (.map [("id", .int 1)]) = .ok "\x7b\"id\":1\x7d" ∧
    Event.hash (.map [("id", .int 1)])
      = .ok (Base64.encodeToString (SHA256.sum256 (bytes "\x7b\"id\":1\x7d"))) :=
  ⟨rfl, (publish_key_is_payload_hash (.map [("id", .int 1)]) "\x7b\"id\":1\x7d" rfl).1⟩

/-! ## Merging the same map twice -/

theorem mergeMap_absorbed (c : Metadata) :
    ∀ d : Metadata, (∀ e ∈ c, mergedValue (Assoc.get e.1 d) e.2 = Assoc.get e.1 d) →
      mergeMap d c = d := by
  induction c with
  | nil => intro d _; simp [mergeMap]
  | cons e c ih =>
    intro d h
    obtain ⟨k, sv⟩ := e
    have hk : mergeKey d k sv = d := by
      rw [mergeKey_eq]
      have := h (k, sv) (List.mem_cons_self _ _)
      simp only at this
      cases hg : Assoc.get k d with
      | none => rw [hg] at this; rw [this]
      | some v => rw [hg] at this; rw [this]; exact Assoc.set_of_get hg
    rw [mergeMap, hk]
    exact ih d (fun e he => h e (List.mem_cons_of_mem _ he))

theorem mergeMap_self_of_stable (m : Metadata) (nd : (m.map Prod.fst).Nodup)
    (hs : ∀ e ∈ m, Stable e.2) : mergeMap m m = m := by
  apply mergeMap_absorbed
  intro e he
  obtain ⟨k, sv⟩ := e
  simp only
  rw [Assoc.get_of_mem_of_nodup nd he]
  exact (hs _ he).2

theorem mergeMap_idem_of_stable (c : Metadata) (nd : (c.map Prod.fst).Nodup)
    (hs : ∀ e ∈ c, Stable e.2) (d : Metadata) : mergeMap (mergeMap d c) c = mergeMap d c := by
  apply mergeMap_absorbed
  intro e he
  obtain ⟨k, sv⟩ := e
  simp only
  rw [get_mergeMap_of_mem c d nd he]
  exact (hs _ he).1 _

theorem mergedValue_plain (sv : Value) (hn : sv.isNull = false) (hm : sv.isMap = false)
    (dv : Option Value) :
    mergedValue dv sv = match dv with
      | none => some sv
      | some d => if d.isEmpty then some sv else some d := by
  cases dv with
  | none => cases sv <;> simp_all [mergedValue, Value.isNull]
  | some d => cases sv <;> cases d <;> simp_all [mergedValue, Value.isNull, Value.isMap]

theorem stable_plain (sv : Value) (hn : sv.isNull = false) (hm : sv.isMap = false) :
    Stable sv := by
  have hS : mergedValue (some sv) sv = some sv := by
    rw [mergedValue_plain sv hn hm]
    simp
  refine ⟨fun dv => ?_, hS⟩
  cases dv with
  | none =>
    rw [mergedValue_plain sv hn hm none]
    exact hS
  | some d =>
    rw [mergedValue_plain sv hn hm (some d)]
    by_cases hd : d.isEmpty = true
    · simp only [hd, if_true]
      exact hS
    · have hd' : d.isEmpty = false := by simpa using hd
      simp only [hd', Bool.false_eq_true, if_false]
      rw [mergedValue_plain sv hn hm (some d)]
      simp [hd']

mutual
theorem stable_of_wf : (sv : Value) → sv.wf = true → Stable sv
  | .null, _ => ⟨fun dv => by cases dv <;> simp [mergedValue], by simp [mergedValue]⟩
  | .bool _, _ => stable_plain _ rfl rfl
  | .int _, _ => stable_plain _ rfl rfl
  | .str _, _ => stable_plain _ rfl rfl
  | .list _, _ => stable_plain _ rfl rfl
  | .chan, _ => stable_plain _ rfl rfl
  | .map sm, h => by
    have hw : (sm.map Prod.fst).Nodup ∧ wfFields sm = true := by
      simpa [Value.wf] using h
    have hall := fields_stable_of_wf sm hw.2
    have hself := mergeMap_self_of_stable sm hw.1 hall
    have hidem := mergeMap_idem_of_stable sm hw.1 hall
    have hS : mergedValue (some (.map sm)) (.map sm) = some (.map sm) := by
      simp [mergedValue, hself]
    refine ⟨fun dv => ?_, hS⟩
    cases dv with
    | none => simpa [mergedValue] using hS
    | some dv =>
      cases dv with
      | map dm =>
        by_cases he : (mergeMap dm sm).isEmpty = true
        · simp only [mergedValue, he, if_true]
          simpa [mergedValue] using hS
        · simp only [mergedValue, he]
          simp [mergedValue, hidem dm, he]
      | null => simpa [mergedValue, Value.isEmpty] using hS
      | bool b => cases b <;> simp [mergedValue, Value.isEmpty, hself]
      | int n =>
        by_cases hn : n = 0 <;> simp [mergedValue, Value.isEmpty, hself, hn]
      | str s =>
        by_cases hn : s.data.isEmpty = true <;> simp [mergedValue, Value.isEmpty, hself, hn]
      | list xs =>
        by_cases hn : xs.isEmpty = true <;> simp [mergedValue, Value.isEmpty, hself, hn]
      | chan => simp [mergedValue, Value.isEmpty]
theorem fields_stable_of_wf : (m : List (String × Value)) → wfFields m = true →
    ∀ e ∈ m, Stable e.2
  | [], _ => fun e he => by simp at he
  | (k, v) :: rest, h => by
    have hw : v.wf = true ∧ wfFields rest = true := by
      simpa [wfFields] using h
    intro e he
    rcases List.mem_cons.1 he with he | he
    · rw [he]
      exact stable_of_wf v hw.1
    · exact fields_stable_of_wf rest hw.2 e he
end

theorem mergedValue_some (v sv : Value) : ∃ v', mergedValue (some v) sv = some v' := by
  cases sv <;> cases v <;> simp [mergedValue] <;> split <;> simp

theorem mergeMap_over_set (k0 : String) (Y : Metadata) (c : Metadata) :
    (c.map Prod.fst).Nodup →
    (∀ e ∈ c, e.1 ≠ k0 → mergedValue (Assoc.get e.1 Y) e.2 = Assoc.get e.1 Y) →
    ∀ v0, mergeMap (Assoc.set k0 v0 Y) c = Assoc.set k0 (mergedOver k0 v0 c) Y := by
  induction c with
  | nil => intro _ _ v0; simp [mergeMap, mergedOver, Assoc.get]
  | cons e c ih =>
    intro nd habs v0
    obtain ⟨k, sv⟩ := e
    simp only [List.map_cons, List.nodup_cons] at nd
    have habs' : ∀ e ∈ c, e.1 ≠ k0 → mergedValue (Assoc.get e.1 Y) e.2 = Assoc.get e.1 Y :=
      fun e he => habs e (List.mem_cons_of_mem _ he)
    rw [mergeMap]
    by_cases hk : k = k0
    · subst hk
      obtain ⟨v1, hv1⟩ := mergedValue_some v0 sv
      have h1 : mergeKey (Assoc.set k v0 Y) k sv = Assoc.set k v1 Y := by
        rw [mergeKey_eq, Assoc.get_set_self, hv1]
        exact Assoc.set_set _ _ _ _
      rw [h1, ih nd.2 habs' v1]
      have hn : Assoc.get k c = none := Assoc.get_eq_none_of_not_mem nd.1
      simp [mergedOver, Assoc.get, hn, hv1]
    · have h1 : mergeKey (Assoc.set k0 v0 Y) k sv = Assoc.set k0 v0 Y := by
        rw [mergeKey_eq, Assoc.get_set_ne hk]
        have := habs (k, sv) (List.mem_cons_self _ _) hk
        simp only at this
        rw [this]
        cases hg : Assoc.get k Y with
        | none => rfl
        | some v =>
          simp only
          apply Assoc.set_of_get
          rw [Assoc.get_set_ne hk, hg]
      rw [h1, ih nd.2 habs' v0]
      simp [mergedOver, Assoc.get, hk]

theorem digestText_nonempty (s : String) : (digestText s).data.isEmpty = false := by
  simp [digestText, Base64.encodeToString, SHA256.sum256, SHA256.wordBytes, Base64.chars]

theorem hash_nonempty {message : Value} {mhash : String} (h : Event.hash message = .ok mhash) :
    mhash.data.isEmpty = false := by
  unfold Event.hash at h
  split at h
  · simp at h
  · cases h
    exact digestText_nonempty _

/-- The second pass over a template the first pass wrote to: setting `"event"`, merging the same
caller map and setting the same `"hash"` gives the same map again. -/
theorem resend_metadata (t mhash : String) (hne : mhash.data.isEmpty = false) (m : Metadata)
    (metadata : Option Metadata) (hw : ∀ c, metadata = some c → (Value.map c).wf = true) :
    Assoc.set "hash" (.str mhash) (mergeOpt (Assoc.set "event" (.str t)
      (Assoc.set "hash" (.str mhash) (mergeOpt (Assoc.set "event" (.str t) m) metadata)))
      metadata)
    = Assoc.set "hash" (.str mhash) (mergeOpt (Assoc.set "event" (.str t) m) metadata) := by
  cases metadata with
  | none =>
    simp only [mergeOpt]
    have h1 : Assoc.get "event" (Assoc.set "hash" (Value.str mhash)
        (Assoc.set "event" (Value.str t) m)) = some (Value.str t) := by
      rw [Assoc.get_set_ne (by decide), Assoc.get_set_self]
    rw [Assoc.set_of_get h1, Assoc.set_set]
  | some c =>
    simp only [mergeOpt]
    have hwf : (c.map Prod.fst).Nodup ∧ wfFields c = true := by
      simpa [Value.wf] using hw c rfl
    have hst := fields_stable_of_wf c hwf.2
    have hhash : Assoc.get "hash" (Assoc.set "hash" (Value.str mhash)
        (mergeMap (Assoc.set "event" (Value.str t) m) c)) = some (Value.str mhash) :=
      Assoc.get_set_self _ _ _
    have habs : ∀ e ∈ c, e.1 ≠ "event" →
        mergedValue (Assoc.get e.1 (Assoc.set "hash" (Value.str mhash)
          (mergeMap (Assoc.set "event" (Value.str t) m) c))) e.2
        = Assoc.get e.1 (Assoc.set "hash" (Value.str mhash)
          (mergeMap (Assoc.set "event" (Value.str t) m) c)) := by
      intro e he _
      obtain ⟨k, sv⟩ := e
      simp only
      by_cases hk : k = "hash"
      · subst hk
        rw [hhash]
        cases sv <;> simp [mergedValue, Value.isEmpty, hne]
      · rw [Assoc.get_set_ne hk, get_mergeMap_of_mem c _ hwf.1 he]
        exact (hst _ he).1 _
    rw [mergeMap_over_set "event" _ c hwf.1 habs]
    have hev : Assoc.get "event" (Assoc.set "hash" (Value.str mhash)
        (mergeMap (Assoc.set "event" (Value.str t) m) c))
        = some (mergedOver "event" (Value.str t) c) := by
      rw [Assoc.get_set_ne (by decide)]
      unfold mergedOver
      cases hg : Assoc.get "event" c with
      | none =>
        rw [get_mergeMap_of_not_mem c _ (Assoc.not_mem_of_get_none hg), Assoc.get_set_self]
      | some sv =>
        rw [get_mergeMap_of_mem c _ hwf.1 (Assoc.mem_of_get hg), Assoc.get_set_self]
        obtain ⟨v', hv'⟩ := mergedValue_some (Value.str t) sv
        simp [hv']
    rw [Assoc.set_of_get hev, Assoc.set_of_get hhash]

/-! ## Sending the same unkeyed message again -/

theorem sendConfig_eventMap (c : EventConfig) (topic : String) (md : Metadata) :
    (sendConfig c topic md).EventMap = c.EventMap := by
  unfold sendConfig EventConfig.getMetadata EventConfig.getDefaultMetadata
  split
  · rfl
  · split <;> rfl

theorem sendConfig_getTopic (c : EventConfig) (topic event : String) (md : Metadata) :
    (sendConfig c topic md).getTopic event = c.getTopic event := by
  unfold EventConfig.getTopic
  rw [sendConfig_eventMap]

theorem resend_config (c : EventConfig) (topic mhash : String)
    (hne : mhash.data.isEmpty = false) (metadata : Option Metadata)
    (hw : ∀ m, metadata = some m → (Value.map m).wf = true) :
    Assoc.set "hash" (.str mhash) (mergeOpt ((sendConfig c topic (Assoc.set "hash" (.str mhash)
      (mergeOpt (c.getMetadata topic).2.md metadata))).getMetadata topic).2.md metadata)
      = Assoc.set "hash" (.str mhash) (mergeOpt (c.getMetadata topic).2.md metadata) ∧
    sendConfig (sendConfig c topic (Assoc.set "hash" (.str mhash)
        (mergeOpt (c.getMetadata topic).2.md metadata))) topic
      (Assoc.set "hash" (.str mhash) (mergeOpt (c.getMetadata topic).2.md metadata))
      = sendConfig c topic (Assoc.set "hash" (.str mhash)
        (mergeOpt (c.getMetadata topic).2.md metadata)) := by
  cases ht : Assoc.get topic c.Metadata with
  | some m =>
    have h1 : c.getMetadata topic
        = (c.put (some topic) (Assoc.set "event" (.str topic) m),
          ⟨some topic, Assoc.set "event" (.str topic) m⟩) := by
      simp [EventConfig.getMetadata, ht]
    have h2 : ∀ md, sendConfig c topic md = { c with Metadata := Assoc.set topic md c.Metadata } := by
      intro md
      simp [sendConfig, h1, EventConfig.put, Assoc.set_set]
    have h3 : ∀ md, ({ c with Metadata := Assoc.set topic md c.Metadata } : EventConfig).getMetadata
        topic = (({ c with Metadata := Assoc.set topic md c.Metadata } : EventConfig).put
          (some topic) (Assoc.set "event" (.str topic) md),
          ⟨some topic, Assoc.set "event" (.str topic) md⟩) := by
      intro md
      simp [EventConfig.getMetadata, Assoc.get_set_self]
    have h4 := resend_metadata topic mhash hne m metadata hw
    rw [h2, h1]
    simp only [sendConfig, h3, EventConfig.put, Assoc.set_set]
    exact ⟨h4, trivial⟩
  | none =>
    cases hd : Assoc.get "default" c.Metadata with
    | some m =>
      have hne' : topic ≠ "default" := by
        intro h
        rw [h, hd] at ht
        cases ht
      have h1 : c.getMetadata topic
          = (c.put (some "default") (Assoc.set "event" (.str topic) m),
            ⟨some "default", Assoc.set "event" (.str topic) m⟩) := by
        simp [EventConfig.getMetadata, EventConfig.getDefaultMetadata, ht, hd]
      have h2 : ∀ md, sendConfig c topic md
          = { c with Metadata := Assoc.set "default" md c.Metadata } := by
        intro md
        simp [sendConfig, h1, EventConfig.put, Assoc.set_set]
      have h3 : ∀ md,
          ({ c with Metadata := Assoc.set "default" md c.Metadata } : EventConfig).getMetadata topic
          = (({ c with Metadata := Assoc.set "default" md c.Metadata } : EventConfig).put
            (some "default") (Assoc.set "event" (.str topic) md),
            ⟨some "default", Assoc.set "event" (.str topic) md⟩) := by
        intro md
        simp [EventConfig.getMetadata, EventConfig.getDefaultMetadata, Assoc.get_set_self,
          Assoc.get_set_ne hne', ht]
      have h4 := resend_metadata topic mhash hne m metadata hw
      rw [h2, h1]
      simp only [sendConfig, h3, EventConfig.put, Assoc.set_set]
      exact ⟨h4, trivial⟩
    | none =>
      have h1 : c.getMetadata topic
          = (c, ⟨none, [("version", .int 1), ("event", .str topic)]⟩) := by
        simp [EventConfig.getMetadata, EventConfig.getDefaultMetadata, ht, hd]
      simp [sendConfig, h1, EventConfig.put]

theorem outbox_persist_stored {o : Outbox} {env : Env} {topic key mhash : String} {seq : Bool}
    {msg : EventMessage} {b : String}
    (h : (o.persist env topic key mhash seq msg b).outcome = .returned none)
    (hnow : env.now ≠ 0) :
    ∃ rec, (o.persist env topic key mhash seq msg b).state.collection.find?
        (fun r => r.ID == (newRecord topic key b).ID) = some rec ∧
      rec.CreatedAt.IsZero = false := by
  have hz : ∀ ob : OutboxRecord, ({ ob with CreatedAt := env.now } : OutboxRecord).CreatedAt.IsZero
      = false := by
    intro ob
    simp [Time.IsZero, hnow]
  unfold Outbox.persist at h ⊢
  cases hg : o.collection.Get env.getErr (newRecord topic key b) with
  | error err =>
    by_cases hnf : err.isNotFound = true
    · simp only [hg, hnf, if_true] at h ⊢
      have hz0 : (newRecord topic key b).CreatedAt.IsZero = true := rfl
      simp only [hz0, Bool.not_true, Bool.false_eq_true, if_false] at h ⊢
      cases hc : o.collection.Create env.createErr
          { newRecord topic key b with CreatedAt := env.now } with
      | error e => simp [hc] at h
      | ok col =>
        obtain ⟨_, hcol, hfree⟩ := Collection.create_ok hc
        refine ⟨{ newRecord topic key b with CreatedAt := env.now }, ?_, hz _⟩
        have hnone : o.collection.find? (fun r => r.ID == (newRecord topic key b).ID) = none := by
          rw [List.find?_eq_none]
          intro r hr
          simpa using hfree r hr
        cases seq <;> simp [hcol, List.find?_append, hnone]
    · simp [hg, hnf] at h
  | ok found =>
    simp only [hg] at h ⊢
    by_cases hzf : found.CreatedAt.IsZero = true
    · simp only [hzf, Bool.not_true, Bool.false_eq_true, if_false] at h ⊢
      obtain ⟨_, hm, he⟩ := Collection.get_ok hg
      obtain ⟨e, hc⟩ := Collection.create_of_mem env.createErr
        { found with CreatedAt := env.now } hm rfl
      simp [hc] at h
    · simp only [hzf, Bool.not_false, if_true]
      refine ⟨found, ?_, by simpa using hzf⟩
      unfold Collection.Get at hg
      cases hf : env.getErr with
      | some err => simp [hf] at hg
      | none =>
        simp only [hf] at hg
        split at hg
        · rename_i r hr
          cases hg
          exact hr
        · simp at hg

theorem outbox_persist_found {o : Outbox} {env : Env} {rec : OutboxRecord}
    (topic key mhash : String) (seq : Bool) (msg : EventMessage) {b : String}
    (hget : env.getErr = none)
    (hf : o.collection.find? (fun r => r.ID == (newRecord topic key b).ID) = some rec)
    (hz : rec.CreatedAt.IsZero = false) :
    o.persist env topic key mhash seq msg b = ⟨o, .returned none, some msg, none, none, none⟩ := by
  unfold Outbox.persist Collection.Get
  simp [hget, hf, hz]

theorem outbox_resend (o : Outbox) (env1 env2 : Env) (event : String) (message : Value)
    (metadata : Option Metadata) (hw : ∀ m, metadata = some m → (Value.map m).wf = true)
    (hnow : env1.now ≠ 0) (hget : env2.getErr = none)
    (h1 : (o.send env1 event "" message metadata).outcome = .returned none) :
    (o.send env1 event "" message metadata).state.send env2 event "" message metadata
      = ⟨(o.send env1 event "" message metadata).state, .returned none,
          (o.send env1 event "" message metadata).envelope, none, none, none⟩ ∧
    (o.send env1 event "" message metadata).state.ec = o.ec ∧
    (o.send env1 event "" message metadata).state.collection.length ≤ o.collection.length + 1 := by
  rw [outbox_send_eq o] at h1 ⊢
  cases hm : Event.hash message with
  | error err => simp [hm] at h1
  | ok mhash =>
    have hne := hash_nonempty hm
    simp only [hm, sendMetadata_unkeyed, if_true] at h1 ⊢
    cases hb : (EventMessage.mk message (Assoc.set "hash" (.str mhash)
        (mergeOpt (o.Config.getMetadata (o.Config.getTopic event)).2.md metadata))).ToBytes with
    | error err => simp [hb] at h1
    | ok b =>
      simp only [hb] at h1 ⊢
      obtain ⟨rec, hf, hz⟩ := outbox_persist_stored h1 hnow
      obtain ⟨henv, _, _, hcfg, hcases⟩ := outbox_persist_cases
        { o with Config := (sendConfig o.Config (o.Config.getTopic event)
          (Assoc.set "hash" (.str mhash)
            (mergeOpt (o.Config.getMetadata (o.Config.getTopic event)).2.md metadata))) }
        env1 (o.Config.getTopic event) mhash mhash (decide (("" : String) ≠ ""))
        ⟨message, Assoc.set "hash" (.str mhash)
          (mergeOpt (o.Config.getMetadata (o.Config.getTopic event)).2.md metadata)⟩ b
      obtain ⟨hr1, hr2⟩ := resend_config o.Config (o.Config.getTopic event) mhash hne metadata hw
      refine ⟨?_, ?_, ?_⟩
      · rw [outbox_send_eq]
        simp only [hm, sendMetadata_unkeyed, if_true, hcfg, sendConfig_getTopic, hr1, hb, hr2]
        rw [henv]
        have hst : ∀ s : Outbox, s.Config = sendConfig o.Config (o.Config.getTopic event)
            (Assoc.set "hash" (.str mhash)
              (mergeOpt (o.Config.getMetadata (o.Config.getTopic event)).2.md metadata)) →
            ({ s with Config := (sendConfig o.Config (o.Config.getTopic event)
              (Assoc.set "hash" (.str mhash)
                (mergeOpt (o.Config.getMetadata (o.Config.getTopic event)).2.md metadata))) }
              : Outbox) = s := by
          intro s hs
          cases s
          simp_all
        rw [hst _ hcfg]
        exact outbox_persist_found _ _ _ _ _ hget hf hz
      · rcases hcases with ⟨hs, _⟩ | ⟨_, _, _, hec⟩
        · rw [hs]
        · rw [hec]
          simp
      · rcases hcases with ⟨hs, _⟩ | ⟨_, _, hc, _⟩
        · rw [hs]
          simp
        · obtain ⟨_, hcol, _⟩ := Collection.create_ok hc
          rw [hcol]
          simp

theorem outbox_persist_fresh (o : Outbox) (env : Env) (topic key mhash : String)
    (msg : EventMessage) (b : String) (hstore : o.collection = []) (hg : env.getErr = none)
    (hc : env.createErr = none) :
    o.persist env topic key mhash false msg b
      = ⟨{ o with collection := [{ newRecord topic key b with CreatedAt := env.now }] },
          .returned none, some msg, some { newRecord topic key b with CreatedAt := env.now },
          none, none⟩ := by
  have hz0 : (newRecord topic key b).CreatedAt.IsZero = true := rfl
  unfold Outbox.persist Collection.Get Collection.Create
  simp [hstore, hg, hc, Error.isNotFound, hz0]

/-! ## Publish twice on a fresh Outbox -/

set_option maxRecDepth 1000000 in
/-- C2, counterexample: the payload is a channel, which `json.Marshal` refuses; on the emitter of
the scenario both `Publish` calls return the serialization error and the store stays empty. -/
theorem publish_of_unserializable_payload_fails :
    (Outbox.Publish ⟨⟨[("default", [("version", .int 1)])], [("order.created", "orders")]⟩, [],
      ⟨some [], "oc/"⟩⟩ (Env.working 5) "order.created" Value.chan none).outcome
      = Outcome.returned (some Error.unsupportedType) ∧
    ((Outbox.Publish ⟨⟨[("default", [("version", .int 1)])], [("order.created", "orders")]⟩, [],
      ⟨some [], "oc/"⟩⟩ (Env.working 5) "order.created" Value.chan none).state.Publish
      (Env.working 6) "order.created" Value.chan none).outcome
      = Outcome.returned (some Error.unsupportedType) ∧
    ((Outbox.Publish ⟨⟨[("default", [("version", .int 1)])], [("order.created", "orders")]⟩, [],
      ⟨some [], "oc/"⟩⟩ (Env.working 5) "order.created" Value.chan none).state.Publish
      (Env.working 6) "order.created" Value.chan none).state.collection = [] := by
  decide

/-- C2, amended: on an Outbox emitter with an empty store, for every event name, every payload
that serializes (hash `mhash`) and every well-formed caller metadata whose envelope serializes
(text `b`), with store calls that do not fail, two consecutive `Publish` calls with the same
arguments both return success: the first inserts one record, whose topic is the mapped topic,
whose key is the payload hash and whose value is the envelope text; the second finds it with a
non-zero `createdAt` and inserts nothing, so the store still holds exactly that record. -/
theorem publish_twice_stores_once (o : Outbox) (env1 env2 : Env) (event : String)
    (message : Value) (metadata : Option Metadata) (mhash b : String)
    (hstore : o.collection = []) (hg1 : env1.getErr = none) (hc1 : env1.createErr = none)
    (hnow : env1.now ≠ 0) (hg2 : env2.getErr = none)
    (hw : ∀ m, metadata = some m → (Value.map m).wf = true)
    (hm : Event.hash message = .ok mhash)
    (hb : (EventMessage.mk message (sendMetadata o.Config o.ec env1 (o.Config.getTopic event) ""
      mhash metadata)).ToBytes = .ok b) :
    (o.Publish env1 event message metadata).outcome = .returned none ∧
    (o.Publish env1 event message metadata).inserted
      = some ⟨(newRecord (o.Config.getTopic event) mhash b).ID, "", o.Config.getTopic event,
          mhash, b, env1.now⟩ ∧
    (o.Publish env1 event message metadata).state.collection
      = [⟨(newRecord (o.Config.getTopic event) mhash b).ID, "", o.Config.getTopic event,
          mhash, b, env1.now⟩] ∧
    ((o.Publish env1 event message metadata).state.Publish env2 event message metadata).outcome
      = .returned none ∧
    ((o.Publish env1 event message metadata).state.Publish env2 event message metadata).inserted
      = none ∧
    ((o.Publish env1 event message metadata).state.Publish env2 event message
        metadata).state.collection
      = [⟨(newRecord (o.Config.getTopic event) mhash b).ID, "", o.Config.getTopic event,
          mhash, b, env1.now⟩] := by
  unfold Outbox.Publish
  have hfirst : o.send env1 event "" message metadata
      = ⟨{ o with
            Config := (sendConfig o.Config (o.Config.getTopic event)
              (sendMetadata o.Config o.ec env1 (o.Config.getTopic event) "" mhash metadata)),
            collection := [{ newRecord (o.Config.getTopic event) mhash b with
              CreatedAt := env1.now }] },
          .returned none,
          some ⟨message, sendMetadata o.Config o.ec env1 (o.Config.getTopic event) "" mhash
            metadata⟩,
          some { newRecord (o.Config.getTopic event) mhash b with CreatedAt := env1.now },
          none, none⟩ := by
    rw [outbox_send_eq]
    simp only [hm, hb, if_true]
    have hd : decide (("" : String) ≠ "") = false := by decide
    rw [hd]
    exact outbox_persist_fresh _ _ _ _ _ _ _ hstore hg1 hc1
  have h1 : (o.send env1 event "" message metadata).outcome = .returned none := by
    rw [hfirst]
  obtain ⟨h2, _, _⟩ := outbox_resend o env1 env2 event message metadata hw hnow hg2 h1
  rw [h2]
  rw [hfirst]
  exact ⟨rfl, rfl, rfl, rfl, rfl, rfl⟩

set_option maxRecDepth 1000000 in
/-- C2, witness: the scenario of the specification, event map `order.created -> orders`, default
template `{version:1}`, payload `{id:1}` published twice. -/
theorem publish_twice_stores_once_witness :
    (Outbox.Publish ⟨⟨[("default", [("version", .int 1)])], [("order.created", "orders")]⟩, [],
      ⟨some [], "oc/"⟩⟩ (Env.working 5) "order.created" (.map [("id", .int 1)]) none).outcome
      = Outcome.returned none ∧
    ((Outbox.Publish ⟨⟨[("default", [("version", .int 1)])], [("order.created", "orders")]⟩, [],
      ⟨some [], "oc/"⟩⟩ (Env.working 5) "order.created" (.map [("id", .int 1)])
      none).state.Publish (Env.working 6) "order.created" (.map [("id", .int 1)]) none).outcome
      = Outcome.returned none ∧
    ((Outbox.Publish ⟨⟨[("default", [("version", .int 1)])], [("order.created", "orders")]⟩, [],
      ⟨some [], "oc/"⟩⟩ (Env.working 5) "order.created" (.map [("id", .int 1)])
      none).state.Publish (Env.working 6) "order.created" (.map [("id", .int 1)])
      none).state.collection.map (fun r => (r.KafkaTopic, r.KafkaKey, r.CreatedAt))
      = [("orders", "A3ySFO73TMOIfzpPCFtOF9digNr9JzsO4WDAnEuhz9Q=", 5)] := by
  have h := publish_twice_stores_once
    ⟨⟨[("default", [("version", .int 1)])], [("order.created", "orders")]⟩, [],
      ⟨some [], "oc/"⟩⟩ (Env.working 5) (Env.working 6) "order.created" (.map [("id", .int 1)])
    none "A3ySFO73TMOIfzpPCFtOF9digNr9JzsO4WDAnEuhz9Q="
    "\x7b\"data\":\x7b\"id\":1\x7d,\"metadata\":\x7b\"event\":\"orders\",\"hash\":\"A3ySFO73TMOIfzpPCFtOF9digNr9JzsO4WDAnEuhz9Q=\",\"version\":1\x7d\x7d"
    rfl rfl rfl (by decide) rfl (by intro m hm; cases hm) (by rfl) (by rfl)
  refine ⟨h.1, h.2.2.2.1, ?_⟩
  rw [h.2.2.2.2.2]
  rfl

/-! ## The chain of a keyed stream -/

theorem getPrevious_setCurrent (ec : EmitterCache) (entries : List (String × String))
    (hc : ec.cache = some entries) (ev val : String) :
    (ec.setCurrent none ev val).1.getPrevious none ev = val ∧
    (ec.setCurrent none ev val).1.keyName = ec.keyName ∧
    ∃ entries', (ec.setCurrent none ev val).1.cache = some entries' := by
  simp [EmitterCache.setCurrent, EmitterCache.getPrevious, hc, Assoc.get_set_self]

theorem sendMetadata_keyed {key : String} (hk : key ≠ "") (c : EventConfig) (ec : EmitterCache)
    (env : Env) (topic mhash : String) (metadata : Option Metadata) :
    Assoc.get "previous" (sendMetadata c ec env topic key mhash metadata)
      = some (.str (ec.getPrevious env.cacheGetErr (topic ++ key))) ∧
    Assoc.get "hash" (sendMetadata c ec env topic key mhash metadata) = some (.str mhash) := by
  simp only [sendMetadata, hk, if_false]
  exact ⟨Assoc.get_set_self _ _ _,
    by rw [Assoc.get_set_ne (by decide), Assoc.get_set_self]⟩

theorem outbox_send_cases (o : Outbox) (env : Env) (event key : String) (message : Value)
    (metadata : Option Metadata) :
    (∃ err md, o.send env event key message metadata
      = ⟨{ o with Config := (sendConfig o.Config (o.Config.getTopic event) md) },
          .returned (some err), none, none, none, none⟩) ∨
    (∃ mhash err, o.send env event key message metadata
      = ⟨{ o with Config := (sendConfig o.Config (o.Config.getTopic event)
            (sendMetadata o.Config o.ec env (o.Config.getTopic event) key mhash metadata)) },
          .returned (some err),
          some ⟨message, sendMetadata o.Config o.ec env (o.Config.getTopic event) key mhash
            metadata⟩, none, none, none⟩) ∨
    (∃ mhash b, o.send env event key message metadata
      = Outbox.persist
          { o with Config := (sendConfig o.Config (o.Config.getTopic event)
            (sendMetadata o.Config o.ec env (o.Config.getTopic event) key mhash metadata)) }
          env (o.Config.getTopic event) (if key = "" then mhash else key) mhash
          (decide (key ≠ ""))
          ⟨message, sendMetadata o.Config o.ec env (o.Config.getTopic event) key mhash metadata⟩
          b) := by
  rw [outbox_send_eq]
  cases hm : Event.hash message with
  | error err => exact Or.inl ⟨err, _, rfl⟩
  | ok mhash =>
    cases hb : (EventMessage.mk message
        (sendMetadata o.Config o.ec env (o.Config.getTopic event) key mhash metadata)).ToBytes with
    | error err =>
      refine Or.inr (Or.inl ⟨mhash, err, ?_⟩)
      simp only [hb]
    | ok b =>
      refine Or.inr (Or.inr ⟨mhash, b, ?_⟩)
      simp only [hb]

theorem outbox_push_step (o : Outbox) (env : Env) (event key : String) (message : Value)
    (metadata : Option Metadata) (entries : List (String × String)) (hk : key ≠ "")
    (hc : o.ec.cache = some entries) (hg : env.cacheGetErr = none)
    (hs : env.cacheSetErr = none) :
    (∃ entries', (o.send env event key message metadata).state.ec.cache = some entries') ∧
    (o.send env event key message metadata).state.ec.keyName = o.ec.keyName ∧
    (∀ ev, (o.send env event key message metadata).state.Config.getTopic ev
      = o.Config.getTopic ev) ∧
    (∀ e, (o.send env event key message metadata).envelope = some e →
      Assoc.get "previous" e.Metadata
        = some (.str (o.ec.getPrevious none (o.Config.getTopic event ++ key))) ∧
      ∃ mhash, Assoc.get "hash" e.Metadata = some (.str mhash) ∧
        (o.send env event key message metadata).state.ec.getPrevious none
            (o.Config.getTopic event ++ key)
          = if (o.send env event key message metadata).inserted.isSome then mhash
            else o.ec.getPrevious none (o.Config.getTopic event ++ key)) := by
  rcases outbox_send_cases o env event key message metadata with
    ⟨err, md, h⟩ | ⟨mhash, err, h⟩ | ⟨mhash, b, h⟩
  · rw [h]
    simp [hc, sendConfig_getTopic]
  · rw [h]
    obtain ⟨hp, hh⟩ := sendMetadata_keyed hk o.Config o.ec env (o.Config.getTopic event) mhash
      metadata
    rw [hg] at hp
    refine ⟨⟨entries, hc⟩, rfl, fun ev => sendConfig_getTopic _ _ _ _, ?_⟩
    intro e he
    cases he
    exact ⟨hp, mhash, hh, by simp⟩
  · rw [h]
    obtain ⟨hp, hh⟩ := sendMetadata_keyed hk o.Config o.ec env (o.Config.getTopic event) mhash
      metadata
    rw [hg] at hp
    simp only [hk, if_false]
    obtain ⟨henv, _, _, hcfg, hcases⟩ := outbox_persist_cases
      { o with Config := (sendConfig o.Config (o.Config.getTopic event)
        (sendMetadata o.Config o.ec env (o.Config.getTopic event) key mhash metadata)) }
      env (o.Config.getTopic event) key mhash (decide (key ≠ ""))
      ⟨message, sendMetadata o.Config o.ec env (o.Config.getTopic event) key mhash metadata⟩ b
    have hseq : decide (key ≠ "") = true := by simpa using hk
    rw [hseq] at henv hcfg hcases ⊢
    obtain ⟨q1, q2, q3⟩ := getPrevious_setCurrent o.ec entries hc
      (o.Config.getTopic event ++ key) mhash
    rcases hcases with ⟨hst, hin⟩ | ⟨hin, _, _, hec⟩
    · refine ⟨?_, ?_, ?_, ?_⟩
      · rw [hst]
        exact ⟨entries, hc⟩
      · rw [hst]
      · intro ev
        rw [hcfg]
        exact sendConfig_getTopic _ _ _ _
      · intro e he
        rw [henv] at he
        cases he
        refine ⟨hp, mhash, hh, ?_⟩
        rw [hin, hst]
        simp
    · simp only [if_true, hs] at hec
      refine ⟨?_, ?_, ?_, ?_⟩
      · rw [hec]
        exact q3
      · rw [hec]
        exact q2
      · intro ev
        rw [hcfg]
        exact sendConfig_getTopic _ _ _ _
      · intro e he
        rw [henv] at he
        cases he
        refine ⟨hp, mhash, hh, ?_⟩
        rw [hin, hec]
        simpa using q1

theorem outbox_chain (event key : String) (hk : key ≠ "")
    (steps : List (Env × Value × Option Metadata)) :
    ∀ (o : Outbox) (entries : List (String × String)), o.ec.cache = some entries →
      (∀ s ∈ steps, s.1.cacheGetErr = none ∧ s.1.cacheSetErr = none) →
      (∀ r ∈ (o.pushAll event key steps).head?, ∀ e, r.envelope = some e →
        Assoc.get "previous" e.Metadata
          = some (.str (o.ec.getPrevious none (o.Config.getTopic event ++ key)))) ∧
      List.Chain' (Linked (fun r => r.inserted.isSome)) (o.pushAll event key steps) := by
  induction steps with
  | nil => intro o entries _ _; simp [Outbox.pushAll]
  | cons s rest ih =>
    intro o entries hc henv
    obtain ⟨henv1, henv2⟩ := henv s (List.mem_cons_self _ _)
    obtain ⟨⟨entries', hc'⟩, hkn, htop, hstep⟩ :=
      outbox_push_step o s.1 event key s.2.1 s.2.2 entries hk hc henv1 henv2
    obtain ⟨ih1, ih2⟩ := ih (o.send s.1 event key s.2.1 s.2.2).state entries' hc'
      (fun s' hs' => henv s' (List.mem_cons_of_mem _ hs'))
    simp only [Outbox.pushAll, Outbox.Push, List.head?_cons, Option.mem_def, Option.some.injEq,
      forall_eq']
    refine ⟨fun e he => (hstep e he).1, ?_⟩
    rw [List.chain'_cons']
    refine ⟨?_, ih2⟩
    intro r' hr' e1 e2 he1 he2
    have h2 := ih1 r' hr' e2 he2
    obtain ⟨hp, mhash, hh, hnext⟩ := hstep e1 he1
    rw [h2, htop, hnext, hh, hp]
    split <;> rfl

theorem pubsub_send_cases (p : PubSub) (env : Env) (event key : String) (message : Value)
    (metadata : Option Metadata) :
    (∀ ev, (p.send env event key message metadata).state.Config.getTopic ev
      = p.Config.getTopic ev) ∧
    (((p.send env event key message metadata).envelope = none ∧
        (p.send env event key message metadata).state.ec = p.ec) ∨
      ∃ mhash, (p.send env event key message metadata).envelope
          = some ⟨message, sendMetadata p.Config p.ec env (p.Config.getTopic event) key mhash
              metadata⟩ ∧
        (((p.send env event key message metadata).published = none ∧
            (p.send env event key message metadata).state.ec = p.ec) ∨
          ((p.send env event key message metadata).published.isSome = true ∧
            (p.send env event key message metadata).state.ec
              = if key = "" then p.ec
                else (p.ec.setCurrent env.cacheSetErr (p.Config.getTopic event ++ key)
                  mhash).1))) := by
  unfold PubSub.send
  cases ht : p.topics with
  | none => simp
  | some topics =>
    simp only
    split
    · simp
    · cases hm : Event.hash message with
      | error err =>
        simp only
        refine ⟨?_, Or.inl (by simp)⟩
        intro ev
        exact sendConfig_getTopic _ _ _ _
      | ok mhash =>
        simp only
        have hmd : (if key = "" then Assoc.set "hash" (Value.str mhash)
              (match metadata with
              | some m => mergeMap (p.Config.getMetadata (p.Config.getTopic event)).2.md m
              | none => (p.Config.getMetadata (p.Config.getTopic event)).2.md)
            else Assoc.set "previous"
              (Value.str (p.ec.getPrevious env.cacheGetErr (p.Config.getTopic event ++ key)))
              (Assoc.set "hash" (Value.str mhash)
                (match metadata with
                | some m => mergeMap (p.Config.getMetadata (p.Config.getTopic event)).2.md m
                | none => (p.Config.getMetadata (p.Config.getTopic event)).2.md)))
            = sendMetadata p.Config p.ec env (p.Config.getTopic event) key mhash metadata := by
          cases metadata <;> simp [sendMetadata, mergeOpt]
        rw [hmd]
        split
        · refine ⟨fun ev => sendConfig_getTopic _ _ _ _, Or.inr ⟨mhash, rfl, Or.inl ⟨rfl, rfl⟩⟩⟩
        · split
          · refine ⟨fun ev => sendConfig_getTopic _ _ _ _,
              Or.inr ⟨mhash, rfl, Or.inl ⟨rfl, rfl⟩⟩⟩
          · by_cases hk : key = ""
            · simp only [hk, ne_eq, not_true_eq_false, decide_False, Bool.false_eq_true,
                if_false, if_true]
              refine ⟨fun ev => sendConfig_getTopic _ _ _ _, Or.inr ⟨mhash, ?_, Or.inr (by simp)⟩⟩
              simp [hk]
            · simp only [hk, ne_eq, not_false_eq_true, decide_True, if_true, if_false]
              refine ⟨fun ev => sendConfig_getTopic _ _ _ _,
                Or.inr ⟨mhash, rfl, Or.inr ⟨rfl, rfl⟩⟩⟩


theorem pubsub_push_step (p : PubSub) (env : Env) (event key : String) (message : Value)
    (metadata : Option Metadata) (entries : List (String × String)) (hk : key ≠ "")
    (hc : p.ec.cache = some entries) (hg : env.cacheGetErr = none)
    (hs : env.cacheSetErr = none) :
    (∃ entries', (p.send env event key message metadata).state.ec.cache = some entries') ∧
    (p.send env event key message metadata).state.ec.keyName = p.ec.keyName ∧
    (∀ ev, (p.send env event key message metadata).state.Config.getTopic ev
      = p.Config.getTopic ev) ∧
    (∀ e, (p.send env event key message metadata).envelope = some e →
      Assoc.get "previous" e.Metadata
        = some (.str (p.ec.getPrevious none (p.Config.getTopic event ++ key))) ∧
      ∃ mhash, Assoc.get "hash" e.Metadata = some (.str mhash) ∧
        (p.send env event key message metadata).state.ec.getPrevious none
            (p.Config.getTopic event ++ key)
          = if (p.send env event key message metadata).published.isSome then mhash
            else p.ec.getPrevious none (p.Config.getTopic event ++ key)) := by
  obtain ⟨htop, hcases⟩ := pubsub_send_cases p env event key message metadata
  rcases hcases with ⟨hn, hec⟩ | ⟨mhash, he, hrest⟩
  · refine ⟨⟨entries, by rw [hec, hc]⟩, by rw [hec], htop, ?_⟩
    intro e h
    rw [hn] at h
    cases h
  · obtain ⟨hp, hh⟩ := sendMetadata_keyed hk p.Config p.ec env (p.Config.getTopic event) mhash
      metadata
    rw [hg] at hp
    obtain ⟨q1, q2, q3⟩ := getPrevious_setCurrent p.ec entries hc
      (p.Config.getTopic event ++ key) mhash
    rcases hrest with ⟨hpub, hec⟩ | ⟨hpub, hec⟩
    · refine ⟨⟨entries, by rw [hec, hc]⟩, by rw [hec], htop, ?_⟩
      intro e h
      rw [he] at h
      cases h
      refine ⟨hp, mhash, hh, ?_⟩
      rw [hpub, hec]
      simp
    · simp only [hk, if_false, hs] at hec
      refine ⟨by rw [hec]; exact q3, by rw [hec]; exact q2, htop, ?_⟩
      intro e h
      rw [he] at h
      cases h
      refine ⟨hp, mhash, hh, ?_⟩
      rw [hpub, hec]
      simpa using q1

theorem pubsub_chain (event key : String) (hk : key ≠ "")
    (steps : List (Env × Value × Option Metadata)) :
    ∀ (p : PubSub) (entries : List (String × String)), p.ec.cache = some entries →
      (∀ s ∈ steps, s.1.cacheGetErr = none ∧ s.1.cacheSetErr = none) →
      (∀ r ∈ (p.pushAll event key steps).head?, ∀ e, r.envelope = some e →
        Assoc.get "previous" e.Metadata
          = some (.str (p.ec.getPrevious none (p.Config.getTopic event ++ key)))) ∧
      List.Chain' (Linked (fun r => r.published.isSome)) (p.pushAll event key steps) := by
  induction steps with
  | nil => intro p entries _ _; simp [PubSub.pushAll]
  | cons s rest ih =>
    intro p entries hc henv
    obtain ⟨henv1, henv2⟩ := henv s (List.mem_cons_self _ _)
    obtain ⟨⟨entries', hc'⟩, hkn, htop, hstep⟩ :=
      pubsub_push_step p s.1 event key s.2.1 s.2.2 entries hk hc henv1 henv2
    obtain ⟨ih1, ih2⟩ := ih (p.send s.1 event key s.2.1 s.2.2).state entries' hc'
      (fun s' hs' => henv s' (List.mem_cons_of_mem _ hs'))
    simp only [PubSub.pushAll, PubSub.Push, List.head?_cons, Option.mem_def, Option.some.injEq,
      forall_eq']
    refine ⟨fun e he => (hstep e he).1, ?_⟩
    rw [List.chain'_cons']
    refine ⟨?_, ih2⟩
    intro r' hr' e1 e2 he1 he2
    have h2 := ih1 r' hr' e2 he2
    obtain ⟨hp, mhash, hh, hnext⟩ := hstep e1 he1
    rw [h2, htop, hnext, hh, hp]
    split <;> rfl

set_option maxRecDepth 1000000 in
/-- C3, counterexample: five `Push` calls on one Outbox emitter (empty store, working cache, no
entry for the stream), event `evt`, key `k`, payloads 1, 2, 1, 2, 3. All five return success.
The fourth builds the same envelope as the second, finds that record stored and returns without
touching the cache, so the fifth envelope's `"previous"` is the hash of payload 1, not the
`"hash"` of the fourth envelope (the hash of payload 2). Listed per call: outcome, whether a
record was inserted, `"previous"`, `"hash"`. -/
theorem chain_breaks_after_stored_record_is_found :
    (Outbox.pushAll ⟨⟨[], []⟩, [], ⟨some [], "oc/"⟩⟩ "evt" "k"
      [(Env.working 1, .int 1, none), (Env.working 2, .int 2, none),
        (Env.working 3, .int 1, none), (Env.working 4, .int 2, none),
        (Env.working 5, .int 3, none)]).map
      (fun r => (r.outcome, r.inserted.isSome, r.envelope.bind (EventMessage.text "previous"),
        r.envelope.bind (EventMessage.text "hash")))
    = [(Outcome.returned none, true, some "",
          some "a4ayc/80/OGda4BO/1o/V0etpOqiLx1JwB5S3beHW0s="),
       (Outcome.returned none, true, some "a4ayc/80/OGda4BO/1o/V0etpOqiLx1JwB5S3beHW0s=",
          some "1HNeOiZeFu7gP1lxi5tdAwGcB9i2xR+Q2jpmbuwTqzU="),
       (Outcome.returned none, true, some "1HNeOiZeFu7gP1lxi5tdAwGcB9i2xR+Q2jpmbuwTqzU=",
          some "a4ayc/80/OGda4BO/1o/V0etpOqiLx1JwB5S3beHW0s="),
       (Outcome.returned none, false, some "a4ayc/80/OGda4BO/1o/V0etpOqiLx1JwB5S3beHW0s=",
          some "1HNeOiZeFu7gP1lxi5tdAwGcB9i2xR+Q2jpmbuwTqzU="),
       (Outcome.returned none, true, some "a4ayc/80/OGda4BO/1o/V0etpOqiLx1JwB5S3beHW0s=",
          some "TgdAhWK+24tgzgXB3s/jrRa3IjCWfeAfZAt+Rym0n84=")] := by
  decide

/-- C3, amended: for every sequence of `Push` calls on one Outbox or one PubSub emitter that all
use the same event and the same non-empty key, with cache reads and writes succeeding and no
cache entry for the stream at the start: the first envelope's `"previous"` is the empty string,
and each later envelope's `"previous"` equals the `"hash"` of the envelope of the call before it
when that call advanced the stream (inserted its record, or had its message accepted by the
broker), and equals the `"previous"` of that envelope when it did not. -/
theorem push_chain (event key : String) (steps : List (Env × Value × Option Metadata))
    (hk : key ≠ "")
    (henv : ∀ s ∈ steps, s.1.cacheGetErr = none ∧ s.1.cacheSetErr = none) :
    (∀ (o : Outbox) (entries : List (String × String)), o.ec.cache = some entries →
      Assoc.get (o.ec.keyName ++ (o.Config.getTopic event ++ key)) entries = none →
      (∀ r ∈ (o.pushAll event key steps).head?, ∀ e, r.envelope = some e →
        Assoc.get "previous" e.Metadata = some (.str "")) ∧
      List.Chain' (Linked (fun r => r.inserted.isSome)) (o.pushAll event key steps)) ∧
    (∀ (p : PubSub) (entries : List (String × String)), p.ec.cache = some entries →
      Assoc.get (p.ec.keyName ++ (p.Config.getTopic event ++ key)) entries = none →
      (∀ r ∈ (p.pushAll event key steps).head?, ∀ e, r.envelope = some e →
        Assoc.get "previous" e.Metadata = some (.str "")) ∧
      List.Chain' (Linked (fun r => r.published.isSome)) (p.pushAll event key steps)) := by
  refine ⟨?_, ?_⟩
  · intro o entries hc hfresh
    obtain ⟨h1, h2⟩ := outbox_chain event key hk steps o entries hc henv
    refine ⟨?_, h2⟩
    intro r hr e he
    rw [h1 r hr e he]
    simp [EmitterCache.getPrevious, hc, hfresh]
  · intro p entries hc hfresh
    obtain ⟨h1, h2⟩ := pubsub_chain event key hk steps p entries hc henv
    refine ⟨?_, h2⟩
    intro r hr e he
    rw [h1 r hr e he]
    simp [EmitterCache.getPrevious, hc, hfresh]

/-- C3, witness: payloads 1 and 2 pushed on event `evt`, key `k`, on an Outbox with an empty
store and an empty cache. -/
theorem push_chain_witness :
    List.Chain' (Linked (fun r => r.inserted.isSome))
      (Outbox.pushAll ⟨⟨[], []⟩, [], ⟨some [], "oc/"⟩⟩ "evt" "k"
        [(Env.working 1, .int 1, none), (Env.working 2, .int 2, none)]) :=
  ((push_chain "evt" "k" [(Env.working 1, .int 1, none), (Env.working 2, .int 2, none)]
    (by decide)
    (by
      intro s hs
      simp only [List.mem_cons, List.mem_singleton, List.not_mem_nil, or_false] at hs
      rcases hs with rfl | rfl <;> exact ⟨rfl, rfl⟩)).1
    ⟨⟨[], []⟩, [], ⟨some [], "oc/"⟩⟩ [] rfl rfl).2

/-! ## Sending the same message twice -/

theorem outbox_send_inserted (o : Outbox) (env : Env) (event key : String) (message : Value)
    (metadata : Option Metadata) :
    ((o.send env event key message metadata).inserted = none →
      (o.send env event key message metadata).state.collection = o.collection) ∧
    (∀ ob, (o.send env event key message metadata).inserted = some ob →
      (o.send env event key message metadata).state.collection = o.collection ++ [ob] ∧
      ∀ x ∈ o.collection, x.ID ≠ ob.ID) := by
  rcases outbox_send_cases o env event key message metadata with
    ⟨err, md, h⟩ | ⟨mhash, err, h⟩ | ⟨mhash, b, h⟩
  · rw [h]
    simp
  · rw [h]
    simp
  · rw [h]
    obtain ⟨_, _, _, _, hcases⟩ := outbox_persist_cases
      { o with Config := (sendConfig o.Config (o.Config.getTopic event)
        (sendMetadata o.Config o.ec env (o.Config.getTopic event) key mhash metadata)) }
      env (o.Config.getTopic event) (if key = "" then mhash else key) mhash (decide (key ≠ ""))
      ⟨message, sendMetadata o.Config o.ec env (o.Config.getTopic event) key mhash metadata⟩ b
    rcases hcases with ⟨hst, hin⟩ | ⟨hin, _, hc, _⟩
    · rw [hin, hst]
      simp
    · obtain ⟨_, hcol, hfree⟩ := Collection.create_ok hc
      rw [hin]
      refine ⟨fun hn => (by cases hn), ?_⟩
      intro ob hob
      cases hob
      exact ⟨hcol, hfree⟩

set_option maxRecDepth 1000000 in
/-- C1, counterexample: two `Push` calls in a row with the same event, key `k` and payload `x` on
an Outbox with an empty store and a working cache both return success, and the store then holds
two records: the second call read the first call's hash as `"previous"`, so its envelope, and
with it the record id, differ. -/
theorem keyed_resend_stores_second_record :
    (Outbox.send ⟨⟨[], []⟩, [], ⟨some [], "oc/"⟩⟩ (Env.working 5) "test" "k" (.str "x")
      none).outcome = Outcome.returned none ∧
    ((Outbox.send ⟨⟨[], []⟩, [], ⟨some [], "oc/"⟩⟩ (Env.working 5) "test" "k" (.str "x")
      none).state.send (Env.working 6) "test" "k" (.str "x") none).outcome
      = Outcome.returned none ∧
    (Outbox.send ⟨⟨[], []⟩, [], ⟨some [], "oc/"⟩⟩ (Env.working 5) "test" "k" (.str "x")
      none).state.collection.length = 1 ∧
    ((Outbox.send ⟨⟨[], []⟩, [], ⟨some [], "oc/"⟩⟩ (Env.working 5) "test" "k" (.str "x")
      none).state.send (Env.working 6) "test" "k" (.str "x") none).state.collection.length
      = 2 := by
  decide

/-! ## PubSub send as the composition of its steps -/

theorem pubsub_send_eq (p : PubSub) (env : Env) (event key : String) (message : Value)
    (metadata : Option Metadata) :
    p.send env event key message metadata =
      match p.topics with
      | none => ⟨p, .returned (some .notConfigured), none, none, none, none⟩
      | some topics =>
        match p.openTopic topics env (p.Config.getTopic event) with
        | .error err => ⟨p, .returned (some err), none, none, none, none⟩
        | .ok topics =>
          match Event.hash message with
          | .error err =>
            ⟨{ p with topics := some topics,
                      Config := (sendConfig p.Config (p.Config.getTopic event)
                        (mergeOpt (p.Config.getMetadata (p.Config.getTopic event)).2.md metadata)) },
              .returned (some err), none, none, none, none⟩
          | .ok mhash =>
            match (EventMessage.mk message
              (sendMetadata p.Config p.ec env (p.Config.getTopic event) key mhash metadata)).ToBytes with
            | .error err =>
              ⟨{ p with topics := some topics,
                        Config := (sendConfig p.Config (p.Config.getTopic event)
                          (sendMetadata p.Config p.ec env (p.Config.getTopic event) key mhash metadata)) },
                .returned (some err),
                some ⟨message, sendMetadata p.Config p.ec env (p.Config.getTopic event) key mhash metadata⟩,
                none, none, none⟩
            | .ok b =>
              match env.sendErr with
              | some err =>
                ⟨{ p with topics := some topics,
                          Config := (sendConfig p.Config (p.Config.getTopic event)
                            (sendMetadata p.Config p.ec env (p.Config.getTopic event) key mhash metadata)) },
                  .returned (some err),
                  some ⟨message, sendMetadata p.Config p.ec env (p.Config.getTopic event) key mhash metadata⟩,
                  none, none, none⟩
              | none =>
                ⟨{ p with topics := some topics,
                          Config := (sendConfig p.Config (p.Config.getTopic event)
                            (sendMetadata p.Config p.ec env (p.Config.getTopic event) key mhash metadata)),
                          broker := p.broker ++ [PubSub.message (p.Config.getTopic event) key mhash b],
                          ec := (if key = "" then p.ec
                            else (p.ec.setCurrent env.cacheSetErr
                              (p.Config.getTopic event ++ key) mhash).1) },
                  .returned none,
                  some ⟨message, sendMetadata p.Config p.ec env (p.Config.getTopic event) key mhash metadata⟩,
                  none, some (PubSub.message (p.Config.getTopic event) key mhash b), none⟩ := by
  unfold PubSub.send
  cases p.topics with
  | none => rfl
  | some topics =>
    simp only []
    change (match p.openTopic topics env (p.Config.getTopic event) with
      | .error err => _
      | .ok topics => _) = _
    cases p.openTopic topics env (p.Config.getTopic event) with
    | error err => rfl
    | ok topics' =>
      simp only []
      cases Event.hash message with
      | error err => cases metadata <;> rfl
      | ok mhash =>
        by_cases hk : key = ""
        · subst hk
          cases metadata <;>
            (simp only [sendMetadata, mergeOpt, sendConfig, PubSub.message, if_true]
             split <;> rfl)
        · cases metadata <;>
            (simp only [sendMetadata, mergeOpt, sendConfig, PubSub.message, hk, if_false]
             split
             · rfl
             · cases env.sendErr <;> simp [hk])

/-! ## A failing cache update -/

theorem setCurrent_of_error {e : EmitterCache} {fault : Option Error} {ev val : String}
    (h : (e.setCurrent fault ev val).2 ≠ none) : (e.setCurrent fault ev val).1 = e := by
  unfold EmitterCache.setCurrent at h ⊢
  cases hc : e.cache with
  | none => rfl
  | some entries =>
    cases fault with
    | some err => rfl
    | none => simp [hc] at h

theorem setCurrent_of_ok {e : EmitterCache} {fault : Option Error} {ev val : String}
    (h : (e.setCurrent fault ev val).2 = none) :
    (e.setCurrent fault ev val).1.getPrevious none ev = val := by
  unfold EmitterCache.setCurrent at h ⊢
  cases hc : e.cache with
  | none => simp [hc] at h
  | some entries =>
    cases fault with
    | some err => simp [hc] at h
    | none => simp [EmitterCache.getPrevious, Assoc.get_set_self]

theorem sendMetadata_cacheSet (c : EventConfig) (ec : EmitterCache) (env : Env)
    (f : Option Error) (topic key mhash : String) (metadata : Option Metadata) :
    sendMetadata c ec { env with cacheSetErr := f } topic key mhash metadata
      = sendMetadata c ec env topic key mhash metadata := rfl

theorem outbox_persist_cacheSet (o : Outbox) (env : Env) (f : Option Error)
    (topic key mhash : String) (seq : Bool) (msg : EventMessage) (b : String) :
    (o.persist { env with cacheSetErr := f } topic key mhash seq msg b).outcome
      = (o.persist env topic key mhash seq msg b).outcome ∧
    (o.persist { env with cacheSetErr := f } topic key mhash seq msg b).inserted
      = (o.persist env topic key mhash seq msg b).inserted := by
  unfold Outbox.persist
  simp only []
  split
  · exact ⟨rfl, rfl⟩
  · split
    · exact ⟨rfl, rfl⟩
    · split
      · exact ⟨rfl, rfl⟩
      · cases seq <;> exact ⟨rfl, rfl⟩

theorem outbox_send_cacheSet (o : Outbox) (env : Env) (f : Option Error) (event key : String)
    (message : Value) (metadata : Option Metadata) :
    (o.send { env with cacheSetErr := f } event key message metadata).outcome
      = (o.send env event key message metadata).outcome ∧
    (o.send { env with cacheSetErr := f } event key message metadata).inserted
      = (o.send env event key message metadata).inserted := by
  rw [outbox_send_eq, outbox_send_eq]
  simp only [sendMetadata_cacheSet]
  cases Event.hash message with
  | error err => exact ⟨rfl, rfl⟩
  | ok mhash =>
    simp only []
    cases (EventMessage.mk message
        (sendMetadata o.Config o.ec env (o.Config.getTopic event) key mhash metadata)).ToBytes with
    | error err => exact ⟨rfl, rfl⟩
    | ok b => exact outbox_persist_cacheSet _ _ _ _ _ _ _ _ _

theorem pubsub_send_cacheSet (p : PubSub) (env : Env) (f : Option Error) (event key : String)
    (message : Value) (metadata : Option Metadata) :
    (p.send { env with cacheSetErr := f } event key message metadata).outcome
      = (p.send env event key message metadata).outcome ∧
    (p.send { env with cacheSetErr := f } event key message metadata).published
      = (p.send env event key message metadata).published := by
  rw [pubsub_send_eq, pubsub_send_eq]
  simp only [sendMetadata_cacheSet]
  have ho : ∀ topics, p.openTopic topics { env with cacheSetErr := f } (p.Config.getTopic event)
      = p.openTopic topics env (p.Config.getTopic event) := fun _ => rfl
  cases p.topics with
  | none => exact ⟨rfl, rfl⟩
  | some topics =>
    simp only [ho]
    cases p.openTopic topics env (p.Config.getTopic event) with
    | error err => exact ⟨rfl, rfl⟩
    | ok topics' =>
      simp only []
      cases Event.hash message with
      | error err => exact ⟨rfl, rfl⟩
      | ok mhash =>
        simp only []
        cases (EventMessage.mk message
            (sendMetadata p.Config p.ec env (p.Config.getTopic event) key mhash metadata)).ToBytes with
        | error err => exact ⟨rfl, rfl⟩
        | ok b =>
          simp only []
          cases env.sendErr with
          | some err => exact ⟨rfl, rfl⟩
          | none => exact ⟨rfl, rfl⟩

theorem outbox_send_cache (o : Outbox) (env : Env) (event key : String)
    (message : Value) (metadata : Option Metadata) :
    ((o.send env event key message metadata).inserted ≠ none →
      (o.send env event key message metadata).outcome = .returned none) ∧
    ((o.send env event key message metadata).state.ec = o.ec ∨
      ∃ mhash, Event.hash message = .ok mhash ∧ key ≠ "" ∧
        (o.send env event key message metadata).inserted ≠ none ∧
        (o.send env event key message metadata).state.ec
          = (o.ec.setCurrent env.cacheSetErr (o.Config.getTopic event ++ key) mhash).1) := by
  rw [outbox_send_eq]
  cases hm : Event.hash message with
  | error err => simp
  | ok mhash =>
    simp only []
    cases (EventMessage.mk message
        (sendMetadata o.Config o.ec env (o.Config.getTopic event) key mhash metadata)).ToBytes with
    | error err => simp
    | ok b =>
      simp only []
      obtain ⟨-, -, -, -, hc⟩ := outbox_persist_cases
        { o with Config := (sendConfig o.Config (o.Config.getTopic event)
            (sendMetadata o.Config o.ec env (o.Config.getTopic event) key mhash metadata)) }
        env (o.Config.getTopic event) (if key = "" then mhash else key) mhash (decide (key ≠ ""))
        ⟨message, sendMetadata o.Config o.ec env (o.Config.getTopic event) key mhash metadata⟩ b
      rcases hc with ⟨hs, hi⟩ | ⟨hi, ho, -, he⟩
      · rw [hs, hi]; simp
      · refine ⟨fun _ => ho, ?_⟩
        by_cases hk : key = ""
        · left
          rw [he]; simp [hk]
        · right
          refine ⟨mhash, rfl, hk, by rw [hi]; simp, ?_⟩
          rw [he]; simp [hk]

theorem pubsub_send_cache (p : PubSub) (env : Env) (event key : String)
    (message : Value) (metadata : Option Metadata) :
    ((p.send env event key message metadata).published ≠ none →
      (p.send env event key message metadata).outcome = .returned none) ∧
    ((p.send env event key message metadata).state.ec = p.ec ∨
      ∃ mhash, Event.hash message = .ok mhash ∧ key ≠ "" ∧
        (p.send env event key message metadata).published ≠ none ∧
        (p.send env event key message metadata).state.ec
          = (p.ec.setCurrent env.cacheSetErr (p.Config.getTopic event ++ key) mhash).1) := by
  rw [pubsub_send_eq]
  cases p.topics with
  | none => simp
  | some topics =>
    simp only []
    cases p.openTopic topics env (p.Config.getTopic event) with
    | error err => simp
    | ok topics' =>
      simp only []
      cases hm : Event.hash message with
      | error err => simp
      | ok mhash =>
        simp only []
        cases (EventMessage.mk message
            (sendMetadata p.Config p.ec env (p.Config.getTopic event) key mhash metadata)).ToBytes with
        | error err => simp
        | ok b =>
          simp only []
          cases env.sendErr with
          | some err => simp
          | none =>
            by_cases hk : key = ""
            · simp [hk]
            · simp [hk]

set_option maxRecDepth 1000000 in
/-- C13, counterexample: on an Outbox and on a PubSub emitter whose cache is missing, a keyed
`Push` of the payload `"x"` stores the record (sends the message) and returns no error, although
`setCurrent` returns the error "empty cache" for that stream. -/
theorem push_succeeds_though_cache_update_fails :
    ∃ mhash, Event.hash (.str "x") = .ok mhash ∧
      ((EmitterCache.mk none "oc/").setCurrent none ("test" ++ "k") mhash).2
        = some Error.emptyCache ∧
      ((Outbox.mk ⟨[], []⟩ [] ⟨none, "oc/"⟩).Push (Env.working 5) "test" "k" (.str "x")
        none).outcome = .returned none ∧
      ((Outbox.mk ⟨[], []⟩ [] ⟨none, "oc/"⟩).Push (Env.working 5) "test" "k" (.str "x")
        none).inserted.isSome = true ∧
      ((PubSub.mk ⟨[], []⟩ "" (some []) ⟨none, "oc/"⟩ []).Push (Env.working 5) "test" "k"
        (.str "x") none).outcome = .returned none ∧
      ((PubSub.mk ⟨[], []⟩ "" (some []) ⟨none, "oc/"⟩ []).Push (Env.working 5) "test" "k"
        (.str "x") none).published.isSome = true := by
  refine ⟨_, rfl, ?_, ?_, ?_, ?_, ?_⟩ <;> decide

/-- C13, amended: in the Outbox and PubSub emitters a failure of the Sequencing Cache update does
not make the call fail. Whether the cache write works has no bearing on what `send` returns, nor
on the record it stores or the message it sends; and in every send in which `setCurrent` returns
an error for the stream (for example because the cache is missing), a call that has stored its
record (sent its message) returns no error and leaves the cache as it was. -/
theorem cache_update_failure_is_dropped (o : Outbox) (p : PubSub) (env : Env)
    (event key : String) (message : Value) (metadata : Option Metadata) :
    (∀ f, (o.send { env with cacheSetErr := f } event key message metadata).outcome
        = (o.send env event key message metadata).outcome ∧
      (o.send { env with cacheSetErr := f } event key message metadata).inserted
        = (o.send env event key message metadata).inserted ∧
      (p.send { env with cacheSetErr := f } event key message metadata).outcome
        = (p.send env event key message metadata).outcome ∧
      (p.send { env with cacheSetErr := f } event key message metadata).published
        = (p.send env event key message metadata).published) ∧
    ((∀ val, (o.ec.setCurrent env.cacheSetErr (o.Config.getTopic event ++ key) val).2 ≠ none) →
      ((o.send env event key message metadata).inserted ≠ none →
        (o.send env event key message metadata).outcome = .returned none) ∧
      (o.send env event key message metadata).state.ec = o.ec) ∧
    ((∀ val, (p.ec.setCurrent env.cacheSetErr (p.Config.getTopic event ++ key) val).2 ≠ none) →
      ((p.send env event key message metadata).published ≠ none →
        (p.send env event key message metadata).outcome = .returned none) ∧
      (p.send env event key message metadata).state.ec = p.ec) := by
  refine ⟨fun f => ?_, fun ho => ?_, fun hp => ?_⟩
  · obtain ⟨h1, h2⟩ := outbox_send_cacheSet o env f event key message metadata
    obtain ⟨h3, h4⟩ := pubsub_send_cacheSet p env f event key message metadata
    exact ⟨h1, h2, h3, h4⟩
  · obtain ⟨h1, h2⟩ := outbox_send_cache o env event key message metadata
    refine ⟨h1, ?_⟩
    rcases h2 with h | ⟨mhash, -, -, -, h⟩
    · exact h
    · rw [h]; exact setCurrent_of_error (ho mhash)
  · obtain ⟨h1, h2⟩ := pubsub_send_cache p env event key message metadata
    refine ⟨h1, ?_⟩
    rcases h2 with h | ⟨mhash, -, -, -, h⟩
    · exact h
    · rw [h]; exact setCurrent_of_error (hp mhash)

set_option maxRecDepth 1000000 in
/-- C13, witness: the amended claim at an Outbox and a PubSub emitter without a cache: the keyed
`Push` returns no error and the (missing) cache is as before. -/
theorem cache_update_failure_is_dropped_witness :
    ((Outbox.mk ⟨[], []⟩ [] ⟨none, "oc/"⟩).send (Env.working 5) "test" "k" (.str "x")
        none).outcome = .returned none ∧
    ((PubSub.mk ⟨[], []⟩ "" (some []) ⟨none, "oc/"⟩ []).send (Env.working 5) "test" "k"
        (.str "x") none).state.ec = ⟨none, "oc/"⟩ :=
  ⟨((cache_update_failure_is_dropped (Outbox.mk ⟨[], []⟩ [] ⟨none, "oc/"⟩)
      (PubSub.mk ⟨[], []⟩ "" (some []) ⟨none, "oc/"⟩ []) (Env.working 5) "test" "k" (.str "x")
      none).2.1 (fun _ => by simp [EmitterCache.setCurrent])).1 (by decide),
   ((cache_update_failure_is_dropped (Outbox.mk ⟨[], []⟩ [] ⟨none, "oc/"⟩)
      (PubSub.mk ⟨[], []⟩ "" (some []) ⟨none, "oc/"⟩ []) (Env.working 5) "test" "k" (.str "x")
      none).2.2 (fun _ => by simp [EmitterCache.setCurrent])).2⟩

/-! ## The contract of PubSub send -/

theorem pubsub_send_broker (p : PubSub) (env : Env) (event key : String) (message : Value)
    (metadata : Option Metadata) :
    (p.send env event key message metadata).state.broker
      = p.broker ++ (p.send env event key message metadata).published.toList ∧
    ((p.send env event key message metadata).published = none →
      (p.send env event key message metadata).state.ec = p.ec) ∧
    ∀ held, (({ p with broker := held } : PubSub).send env event key message metadata).published
        = (p.send env event key message metadata).published ∧
      (({ p with broker := held } : PubSub).send env event key message metadata).outcome
        = (p.send env event key message metadata).outcome := by
  rw [pubsub_send_eq]
  refine ⟨?_, ?_, fun held => ?_⟩
  · cases p.topics with
    | none => simp
    | some topics =>
      simp only []
      cases p.openTopic topics env (p.Config.getTopic event) with
      | error err => simp
      | ok topics' =>
        simp only []
        cases Event.hash message with
        | error err => simp
        | ok mhash =>
          simp only []
          cases (EventMessage.mk message
            (sendMetadata p.Config p.ec env (p.Config.getTopic event) key mhash metadata)).ToBytes with
          | error err => simp
          | ok b => cases env.sendErr <;> simp
  · cases p.topics with
    | none => simp
    | some topics =>
      simp only []
      cases p.openTopic topics env (p.Config.getTopic event) with
      | error err => simp
      | ok topics' =>
        simp only []
        cases Event.hash message with
        | error err => simp
        | ok mhash =>
          simp only []
          cases (EventMessage.mk message
            (sendMetadata p.Config p.ec env (p.Config.getTopic event) key mhash metadata)).ToBytes with
          | error err => simp
          | ok b => cases env.sendErr <;> simp
  · rw [pubsub_send_eq]
    have ho : ∀ topics, ({ p with broker := held } : PubSub).openTopic topics env
        (p.Config.getTopic event) = p.openTopic topics env (p.Config.getTopic event) :=
      fun _ => rfl
    simp only [ho]
    cases p.topics with
    | none => simp
    | some topics =>
      simp only []
      cases p.openTopic topics env (p.Config.getTopic event) with
      | error err => simp
      | ok topics' =>
        simp only []
        cases Event.hash message with
        | error err => simp
        | ok mhash =>
          simp only []
          cases (EventMessage.mk message
            (sendMetadata p.Config p.ec env (p.Config.getTopic event) key mhash metadata)).ToBytes with
          | error err => simp
          | ok b => cases env.sendErr <;> simp

theorem pubsub_send_reached (p : PubSub) (env : Env) (event key : String) (message : Value)
    (metadata : Option Metadata) (e : EventMessage) (b mhash : String)
    (he : (p.send env event key message metadata).envelope = some e)
    (hb : e.ToBytes = .ok b) (hm : Event.hash message = .ok mhash) :
    (∀ err, env.sendErr = some err →
      (p.send env event key message metadata).outcome = .returned (some err) ∧
      (p.send env event key message metadata).published = none ∧
      (p.send env event key message metadata).state.ec = p.ec) ∧
    (env.sendErr = none →
      (p.send env event key message metadata).outcome = .returned none ∧
      (p.send env event key message metadata).published
        = some ⟨p.Config.getTopic event, b, [("key", if key = "" then mhash else key)]⟩ ∧
      (p.send env event key message metadata).state.ec
        = if key = "" then p.ec
          else (p.ec.setCurrent env.cacheSetErr (p.Config.getTopic event ++ key) mhash).1) := by
  rw [pubsub_send_eq] at he ⊢
  cases ht : p.topics with
  | none => simp [ht] at he
  | some topics =>
    simp only [ht] at he ⊢
    cases ho : p.openTopic topics env (p.Config.getTopic event) with
    | error err => simp [ho] at he
    | ok topics' =>
      simp only [ho, hm] at he ⊢
      cases hb' : (EventMessage.mk message
            (sendMetadata p.Config p.ec env (p.Config.getTopic event) key mhash metadata)).ToBytes with
      | error err =>
        simp only [hb'] at he
        simp only [Option.some.injEq] at he
        rw [← he, hb'] at hb
        cases hb
      | ok b' =>
        have hbb : b' = b := by
          cases hs : env.sendErr with
          | some err =>
            simp only [hb', hs, Option.some.injEq] at he
            rw [← he, hb'] at hb
            cases hb; rfl
          | none =>
            simp only [hb', hs, Option.some.injEq] at he
            rw [← he, hb'] at hb
            cases hb; rfl
        subst hbb
        simp only []
        refine ⟨fun err hs => ?_, fun hs => ?_⟩
        · simp [hs]
        · simp [hs, PubSub.message]

set_option maxRecDepth 1000000 in
/-- C14, counterexample: on a PubSub emitter whose cache is missing, a keyed `Push` of the payload
`"x"` is accepted by the broker and returns no error, and the cache entry of the stream is not the
payload's content hash: reading it still yields the empty string. -/
theorem pubsub_push_without_cache_sets_no_entry :
    ∃ mhash, Event.hash (.str "x") = .ok mhash ∧ mhash ≠ "" ∧
      ((PubSub.mk ⟨[], []⟩ "" (some []) ⟨none, "pc/"⟩ []).Push (Env.working 5) "test" "k"
        (.str "x") none).published.isSome = true ∧
      ((PubSub.mk ⟨[], []⟩ "" (some []) ⟨none, "pc/"⟩ []).Push (Env.working 5) "test" "k"
        (.str "x") none).outcome = .returned none ∧
      ((PubSub.mk ⟨[], []⟩ "" (some []) ⟨none, "pc/"⟩ []).Push (Env.working 5) "test" "k"
        (.str "x") none).state.ec.getPrevious none ("test" ++ "k") = "" := by
  refine ⟨_, rfl, ?_, ?_, ?_, ?_⟩ <;> decide

/-- C14, amended: every PubSub send adds to the broker exactly the message it reports, at most
one, and consults nothing the broker holds (no deduplication between calls); a call that sends no
message leaves the Sequencing Cache unchanged. When the call gets as far as the broker send, with
envelope `e` serialized to `b` and payload hash `mhash`: if the broker send fails, `send` returns
exactly the broker's error, no message is sent and the cache is unchanged; if it succeeds, `send`
returns no error and the message has body `b` and the message key as attribute `"key"`; with an
empty key the cache is unchanged; with a non-empty key the cache update is attempted, so that the
entry for topic+key is the payload's content hash when the cache takes the write, and the cache is
unchanged when the write fails. -/
theorem pubsub_send_contract (p : PubSub) (env : Env) (event key : String) (message : Value)
    (metadata : Option Metadata) :
    (p.send env event key message metadata).state.broker
      = p.broker ++ (p.send env event key message metadata).published.toList ∧
    (∀ held, (({ p with broker := held } : PubSub).send env event key message metadata).published
        = (p.send env event key message metadata).published ∧
      (({ p with broker := held } : PubSub).send env event key message metadata).outcome
        = (p.send env event key message metadata).outcome) ∧
    ((p.send env event key message metadata).published = none →
      (p.send env event key message metadata).state.ec = p.ec) ∧
    (∀ e b mhash, (p.send env event key message metadata).envelope = some e →
      e.ToBytes = .ok b → Event.hash message = .ok mhash →
      (∀ err, env.sendErr = some err →
        (p.send env event key message metadata).outcome = .returned (some err) ∧
        (p.send env event key message metadata).published = none ∧
        (p.send env event key message metadata).state.ec = p.ec) ∧
      (env.sendErr = none →
        (p.send env event key message metadata).outcome = .returned none ∧
        (p.send env event key message metadata).published
          = some ⟨p.Config.getTopic event, b, [("key", if key = "" then mhash else key)]⟩ ∧
        (key = "" → (p.send env event key message metadata).state.ec = p.ec) ∧
        (key ≠ "" →
          ((p.ec.setCurrent env.cacheSetErr (p.Config.getTopic event ++ key) mhash).2 = none →
            (p.send env event key message metadata).state.ec.getPrevious none
              (p.Config.getTopic event ++ key) = mhash) ∧
          ((p.ec.setCurrent env.cacheSetErr (p.Config.getTopic event ++ key) mhash).2 ≠ none →
            (p.send env event key message metadata).state.ec = p.ec)))) := by
  obtain ⟨h1, h2, h3⟩ := pubsub_send_broker p env event key message metadata
  refine ⟨h1, h3, h2, fun e b mhash he hb hm => ?_⟩
  obtain ⟨h4, h5⟩ := pubsub_send_reached p env event key message metadata e b mhash he hb hm
  refine ⟨h4, fun hs => ?_⟩
  obtain ⟨h6, h7, h8⟩ := h5 hs
  refine ⟨h6, h7, fun hk => by rw [h8]; simp [hk], fun hk => ⟨fun hok => ?_, fun herr => ?_⟩⟩
  · rw [h8]
    simp only [hk, if_false]
    exact setCurrent_of_ok hok
  · rw [h8]
    simp only [hk, if_false]
    exact setCurrent_of_error herr

set_option maxRecDepth 1000000 in
/-- C14, witness: the amended claim at a PubSub emitter with an empty cache, for a keyed `Push` of
`"x"`: the broker takes the message and the cache entry of the stream becomes the hash of `"x"`.
-/
theorem pubsub_send_contract_witness :
    ((PubSub.mk ⟨[], []⟩ "" (some []) ⟨some [], "pc/"⟩ []).send (Env.working 5) "test" "k"
        (.str "x") none).state.ec.getPrevious none ("test" ++ "k")
      = digestText "\"x\"" :=
  ((((pubsub_send_contract (PubSub.mk ⟨[], []⟩ "" (some []) ⟨some [], "pc/"⟩ [])
      (Env.working 5) "test" "k" (.str "x") none).2.2.2 _ _ _ rfl rfl rfl).2 rfl).2.2.2
      (by decide)).1 rfl

/-! ## A send that returns an error -/

theorem getMetadata_fresh (c : EventConfig) (topic : String)
    (hs : (c.getMetadata topic).2.slot = none) :
    (c.getMetadata topic).1 = c ∧
    (c.getMetadata topic).2.md = [("version", .int 1), ("event", .str topic)] ∧
    Assoc.get topic c.Metadata = none ∧ Assoc.get "default" c.Metadata = none := by
  unfold EventConfig.getMetadata EventConfig.getDefaultMetadata at hs ⊢
  cases h1 : Assoc.get topic c.Metadata with
  | some m => simp [h1] at hs
  | none =>
    cases h2 : Assoc.get "default" c.Metadata with
    | some m => simp [h1, h2] at hs
    | none => simp

theorem sendConfig_fresh (c : EventConfig) (topic : String) (md : Metadata)
    (hs : (c.getMetadata topic).2.slot = none) : sendConfig c topic md = c := by
  unfold sendConfig
  rw [hs, (getMetadata_fresh c topic hs).1]
  rfl

theorem outbox_send_failure (o : Outbox) (env : Env) (event key : String) (message : Value)
    (metadata : Option Metadata) (err : Error)
    (hr : (o.send env event key message metadata).outcome = .returned (some err)) :
    (o.send env event key message metadata).inserted = none ∧
    (o.send env event key message metadata).state.collection = o.collection ∧
    (o.send env event key message metadata).state.ec = o.ec ∧
    (o.send env event key message metadata).state.Config.EventMap = o.Config.EventMap ∧
    ((o.Config.getMetadata (o.Config.getTopic event)).2.slot = none →
      (o.send env event key message metadata).state = o) := by
  rw [outbox_send_eq] at hr ⊢
  cases hm : Event.hash message with
  | error e =>
    simp only []
    refine ⟨by first | rfl | trivial, by first | rfl | trivial, by first | rfl | trivial,
      sendConfig_eventMap _ _ _, fun hs => ?_⟩
    simp only [sendConfig_fresh _ _ _ hs]
  | ok mhash =>
    simp only [hm] at hr ⊢
    cases hb : (EventMessage.mk message
        (sendMetadata o.Config o.ec env (o.Config.getTopic event) key mhash metadata)).ToBytes with
    | error e =>
      simp only []
      refine ⟨by first | rfl | trivial, by first | rfl | trivial, by first | rfl | trivial,
      sendConfig_eventMap _ _ _, fun hs => ?_⟩
      simp only [sendConfig_fresh _ _ _ hs]
    | ok b =>
      simp only [hb] at hr ⊢
      obtain ⟨-, -, -, hcfg, hc⟩ := outbox_persist_cases
        { o with Config := (sendConfig o.Config (o.Config.getTopic event)
            (sendMetadata o.Config o.ec env (o.Config.getTopic event) key mhash metadata)) }
        env (o.Config.getTopic event) (if key = "" then mhash else key) mhash (decide (key ≠ ""))
        ⟨message, sendMetadata o.Config o.ec env (o.Config.getTopic event) key mhash metadata⟩ b
      rcases hc with ⟨hs, hi⟩ | ⟨-, ho, -, -⟩
      · rw [hs]
        refine ⟨hi, rfl, rfl, sendConfig_eventMap _ _ _, fun hs' => ?_⟩
        simp only [sendConfig_fresh _ _ _ hs']
      · rw [ho] at hr
        cases hr

theorem hybrid_send_failure (h : Hybrid) (env : Env) (event key : String) (message : Value)
    (metadata : Option Metadata) (err : Error)
    (hr : (h.send env event key message metadata).outcome = .returned (some err)) :
    (h.send env event key message metadata).inserted = none ∧
    (h.send env event key message metadata).handed = none ∧
    (h.send env event key message metadata).state.collection = h.collection ∧
    (h.send env event key message metadata).state.ec = h.ec ∧
    (h.send env event key message metadata).state.channel = h.channel ∧
    (h.send env event key message metadata).state.Config.EventMap = h.Config.EventMap ∧
    ((h.Config.getMetadata (h.Config.getTopic event)).2.slot = none →
      (h.send env event key message metadata).state = h) := by
  obtain ⟨hst, -, hins, -, hrec, hhand, hchan, hout⟩ :=
    hybrid_send_outbox h env event key message metadata
  have hob : (h.toOutbox.send env event key message metadata).outcome = .returned (some err) := by
    rw [hout] at hr
    split at hr
    · cases hr
    · exact hr
  obtain ⟨h1, h2, h3, h4, h5⟩ := outbox_send_failure h.toOutbox env event key message metadata
    err hob
  have hh : (h.send env event key message metadata).handed = none := by
    rw [hhand, h1]; simp
  have hc : (h.send env event key message metadata).state.channel = h.channel := by
    rw [hchan, hh]; simp
  rw [← hst] at h2 h3 h4 h5
  refine ⟨by rw [hins, h1], hh, h2, h3, hc, h4, fun hs => ?_⟩
  have h6 := h5 hs
  generalize (h.send env event key message metadata).state = s at h6 hc hrec
  cases s
  cases h
  simp only [Hybrid.toOutbox, Outbox.mk.injEq] at h6
  simp only at hc hrec
  obtain ⟨ha, hb, hd⟩ := h6
  subst ha hb hd hc hrec
  rfl

set_option maxRecDepth 1000000 in
/-- C15, counterexample (to the last part of the claim): on an Outbox whose configuration holds a
`"default"` template, a `Publish` of a payload that cannot be serialized, with caller metadata
`a`, returns the serialization error and has a side effect all the same: the stored template now
holds the keys `"event"` and `"a"`, and a later `Publish` without metadata emits `"a"`. -/
theorem failed_publish_changes_stored_template :
    ((Outbox.mk ⟨[("default", [("version", .int 1)])], []⟩ [] ⟨some [], "oc/"⟩).Publish
        (Env.working 5) "test" .chan (some [("a", .int 7)])).outcome
      = .returned (some .unsupportedType) ∧
    (Assoc.get "default"
        ((Outbox.mk ⟨[("default", [("version", .int 1)])], []⟩ [] ⟨some [], "oc/"⟩).Publish
          (Env.working 5) "test" .chan (some [("a", .int 7)])).state.Config.Metadata).map
        (fun m => m.map Prod.fst)
      = some ["version", "event", "a"] ∧
    ((((Outbox.mk ⟨[("default", [("version", .int 1)])], []⟩ [] ⟨some [], "oc/"⟩).Publish
          (Env.working 5) "test" .chan (some [("a", .int 7)])).state.Publish
        (Env.working 6) "test" (.str "x") none).envelope.map
        (fun e => e.Metadata.map Prod.fst))
      = some ["version", "event", "a", "hash"] := by
  refine ⟨?_, ?_, ?_⟩ <;> decide

/-- C15, amended: Outbox and Hybrid send are atomic on failure as far as the store and the
Sequencing Cache go: for every call that returns an error, no record was inserted by that call
(and, for Hybrid, none handed to the relay worker), the store holds the same records, the cache
holds the same entries and the event map is as before. A failing call, such as one whose payload
cannot be serialized, has no side effect at all when the configuration holds neither a template
for the topic nor a `"default"` template; the stored template, where there is one, is not covered.
-/
theorem send_failure_leaves_store_and_cache (o : Outbox) (h : Hybrid) (env : Env)
    (event key : String) (message : Value) (metadata : Option Metadata) (err : Error) :
    ((o.send env event key message metadata).outcome = .returned (some err) →
      (o.send env event key message metadata).inserted = none ∧
      (o.send env event key message metadata).state.collection = o.collection ∧
      (o.send env event key message metadata).state.ec = o.ec ∧
      (o.send env event key message metadata).state.Config.EventMap = o.Config.EventMap ∧
      ((o.Config.getMetadata (o.Config.getTopic event)).2.slot = none →
        (o.send env event key message metadata).state = o)) ∧
    ((h.send env event key message metadata).outcome = .returned (some err) →
      (h.send env event key message metadata).inserted = none ∧
      (h.send env event key message metadata).handed = none ∧
      (h.send env event key message metadata).state.collection = h.collection ∧
      (h.send env event key message metadata).state.ec = h.ec ∧
      (h.send env event key message metadata).state.channel = h.channel ∧
      (h.send env event key message metadata).state.Config.EventMap = h.Config.EventMap ∧
      ((h.Config.getMetadata (h.Config.getTopic event)).2.slot = none →
        (h.send env event key message metadata).state = h)) :=
  ⟨outbox_send_failure o env event key message metadata err,
    hybrid_send_failure h env event key message metadata err⟩

set_option maxRecDepth 1000000 in
/-- C15, witness: the amended claim at an Outbox and a Hybrid emitter without templates, for a
`Publish` of a payload that cannot be serialized: the emitters are exactly as before. -/
theorem send_failure_leaves_store_and_cache_witness :
    ((Outbox.mk ⟨[], []⟩ [] ⟨some [], "oc/"⟩).send (Env.working 5) "test" "" .chan
        (some [("a", .int 7)])).state.collection = [] ∧
    ((Hybrid.mk ⟨[], []⟩ [] ⟨some [], "oc/"⟩ [] true).send (Env.working 5) "test" "" .chan
        (some [("a", .int 7)])).state.channel = [] :=
  ⟨((send_failure_leaves_store_and_cache (Outbox.mk ⟨[], []⟩ [] ⟨some [], "oc/"⟩)
      (Hybrid.mk ⟨[], []⟩ [] ⟨some [], "oc/"⟩ [] true) (Env.working 5) "test" "" .chan
      (some [("a", .int 7)]) .unsupportedType).1 (by decide)).2.1,
   ((send_failure_leaves_store_and_cache (Outbox.mk ⟨[], []⟩ [] ⟨some [], "oc/"⟩)
      (Hybrid.mk ⟨[], []⟩ [] ⟨some [], "oc/"⟩ [] true) (Env.working 5) "test" "" .chan
      (some [("a", .int 7)]) .unsupportedType).2 (by decide)).2.2.2.2.1⟩

/-! ## The stored template after a send -/

theorem mergedValue_of_not_null (dv : Option Value) {sv : Value} (h : sv.isNull = false) :
    mergedValue dv sv ≠ none := by
  cases dv with
  | none => cases sv <;> simp_all [mergedValue, Value.isNull]
  | some v =>
    obtain ⟨v', hv⟩ := mergedValue_some v sv
    rw [hv]; simp

theorem mergeKey_keeps {k : String} {d : Metadata} (k' : String) (sv : Value)
    (h : Assoc.get k d ≠ none) : Assoc.get k (mergeKey d k' sv) ≠ none := by
  by_cases hk : k = k'
  · subst hk
    rw [get_mergeKey_self]
    cases hd : Assoc.get k d with
    | none => exact absurd hd h
    | some v =>
      obtain ⟨v', hv⟩ := mergedValue_some v sv
      rw [hv]; simp
  · rw [get_mergeKey_ne hk]
    exact h

theorem mergeMap_keeps {k : String} (c : Metadata) :
    ∀ d : Metadata, Assoc.get k d ≠ none → Assoc.get k (mergeMap d c) ≠ none := by
  induction c with
  | nil => intro d h; simpa [mergeMap] using h
  | cons e c ih =>
    intro d h
    obtain ⟨k', sv⟩ := e
    rw [mergeMap]
    exact ih _ (mergeKey_keeps k' sv h)

theorem mergeMap_has {k : String} {v : Value} (c : Metadata) :
    ∀ d : Metadata, (k, v) ∈ c → v.isNull = false → Assoc.get k (mergeMap d c) ≠ none := by
  induction c with
  | nil => intro d h; simp at h
  | cons e c ih =>
    intro d hm hv
    obtain ⟨k', sv⟩ := e
    rw [mergeMap]
    rcases List.mem_cons.1 hm with h | h
    · cases h
      apply mergeMap_keeps
      rw [get_mergeKey_self]
      exact mergedValue_of_not_null _ hv
    · exact ih _ h hv

theorem set_keeps {k : String} {m : Metadata} (k' : String) (v : Value)
    (h : Assoc.get k m ≠ none) : Assoc.get k (Assoc.set k' v m) ≠ none := by
  by_cases hk : k = k'
  · subst hk
    rw [Assoc.get_set_self]; simp
  · rw [Assoc.get_set_ne hk]
    exact h

theorem sendMetadata_has (c : EventConfig) (ec : EmitterCache) (env : Env)
    (topic key mhash : String) (m : Metadata) {k : String} {v : Value}
    (hm : (k, v) ∈ m) (hv : v.isNull = false) :
    Assoc.get k (sendMetadata c ec env topic key mhash (some m)) ≠ none := by
  unfold sendMetadata mergeOpt
  have h := mergeMap_has m (c.getMetadata topic).2.md hm hv
  split
  · exact set_keeps _ _ h
  · exact set_keeps _ _ (set_keeps _ _ h)

theorem sendMetadata_hash (c : EventConfig) (ec : EmitterCache) (env : Env)
    (topic key mhash : String) (metadata : Option Metadata) :
    Assoc.get "hash" (sendMetadata c ec env topic key mhash metadata) = some (.str mhash) := by
  unfold sendMetadata
  split
  · exact Assoc.get_set_self _ _ _
  · rw [Assoc.get_set_ne (by decide), Assoc.get_set_self]

theorem sendConfig_stored (c : EventConfig) (topic : String) (md : Metadata) (name : String)
    (hs : (c.getMetadata topic).2.slot = some name) :
    Assoc.get name (sendConfig c topic md).Metadata = some md := by
  unfold sendConfig
  rw [hs]
  simp only [EventConfig.put]
  exact Assoc.get_set_self _ _ _

theorem outbox_send_config (o : Outbox) (env : Env) (event key : String) (message : Value)
    (metadata : Option Metadata) :
    (∀ e, (o.send env event key message metadata).envelope = some e →
      (o.send env event key message metadata).state.Config
        = sendConfig o.Config (o.Config.getTopic event) e.Metadata) ∧
    ((o.Config.getMetadata (o.Config.getTopic event)).2.slot = none →
      (o.send env event key message metadata).state.Config = o.Config) := by
  rw [outbox_send_eq]
  cases Event.hash message with
  | error err =>
    refine ⟨fun e he => by simp at he, fun hs => ?_⟩
    simp only [sendConfig_fresh _ _ _ hs]
  | ok mhash =>
    simp only []
    cases (EventMessage.mk message
        (sendMetadata o.Config o.ec env (o.Config.getTopic event) key mhash metadata)).ToBytes with
    | error err =>
      refine ⟨fun e he => ?_, fun hs => ?_⟩
      · simp only [Option.some.injEq] at he
        rw [← he]
      · simp only [sendConfig_fresh _ _ _ hs]
    | ok b =>
      simp only []
      obtain ⟨henv, -, -, hcfg, -⟩ := outbox_persist_cases
        { o with Config := (sendConfig o.Config (o.Config.getTopic event)
            (sendMetadata o.Config o.ec env (o.Config.getTopic event) key mhash metadata)) }
        env (o.Config.getTopic event) (if key = "" then mhash else key) mhash (decide (key ≠ ""))
        ⟨message, sendMetadata o.Config o.ec env (o.Config.getTopic event) key mhash metadata⟩ b
      rw [hcfg, henv]
      refine ⟨fun e he => ?_, fun hs => ?_⟩
      · simp only [Option.some.injEq] at he
        rw [← he]
      · simp only [sendConfig_fresh _ _ _ hs]

theorem pubsub_send_config (p : PubSub) (env : Env) (event key : String) (message : Value)
    (metadata : Option Metadata) :
    (∀ e, (p.send env event key message metadata).envelope = some e →
      (p.send env event key message metadata).state.Config
        = sendConfig p.Config (p.Config.getTopic event) e.Metadata) ∧
    ((p.Config.getMetadata (p.Config.getTopic event)).2.slot = none →
      (p.send env event key message metadata).state.Config = p.Config) := by
  rw [pubsub_send_eq]
  cases p.topics with
  | none => exact ⟨fun e he => by simp at he, fun _ => rfl⟩
  | some topics =>
    simp only []
    cases p.openTopic topics env (p.Config.getTopic event) with
    | error err => exact ⟨fun e he => by simp at he, fun _ => rfl⟩
    | ok topics' =>
      simp only []
      cases Event.hash message with
      | error err =>
        refine ⟨fun e he => by simp at he, fun hs => ?_⟩
        simp only [sendConfig_fresh _ _ _ hs]
      | ok mhash =>
        simp only []
        cases (EventMessage.mk message
            (sendMetadata p.Config p.ec env (p.Config.getTopic event) key mhash metadata)).ToBytes with
        | error err =>
          refine ⟨fun e he => ?_, fun hs => ?_⟩
          · simp only [Option.some.injEq] at he
            rw [← he]
          · simp only [sendConfig_fresh _ _ _ hs]
        | ok b =>
          simp only []
          cases env.sendErr with
          | some err =>
            refine ⟨fun e he => ?_, fun hs => ?_⟩
            · simp only [Option.some.injEq] at he
              rw [← he]
            · simp only [sendConfig_fresh _ _ _ hs]
          | none =>
            refine ⟨fun e he => ?_, fun hs => ?_⟩
            · simp only [Option.some.injEq] at he
              rw [← he]
            · simp only [sendConfig_fresh _ _ _ hs]

theorem slot_of_template (c : EventConfig) (topic : String) :
    (∀ t, Assoc.get topic c.Metadata = some t → (c.getMetadata topic).2.slot = some topic) ∧
    (Assoc.get topic c.Metadata = none → ∀ t, Assoc.get "default" c.Metadata = some t →
      (c.getMetadata topic).2.slot = some "default") ∧
    (Assoc.get topic c.Metadata = none → Assoc.get "default" c.Metadata = none →
      (c.getMetadata topic).2.slot = none) := by
  unfold EventConfig.getMetadata EventConfig.getDefaultMetadata
  refine ⟨fun t h => by simp [h], fun h t h' => by simp [h, h'], fun h h' => by simp [h, h']⟩

theorem sendMetadata_accumulates (c : EventConfig) (ec : EmitterCache) (env : Env)
    (topic key mhash : String) (metadata : Option Metadata) :
    (∀ m k v, metadata = some m → (k, v) ∈ m → v.isNull = false →
      Assoc.get k (sendMetadata c ec env topic key mhash metadata) ≠ none) ∧
    Assoc.get "hash" (sendMetadata c ec env topic key mhash metadata) = some (.str mhash) ∧
    (key ≠ "" → Assoc.get "previous" (sendMetadata c ec env topic key mhash metadata)
      = some (.str (ec.getPrevious env.cacheGetErr (topic ++ key)))) := by
  refine ⟨fun m k v hm hk hv => ?_, sendMetadata_hash _ _ _ _ _ _ _, fun hk => ?_⟩
  · subst hm
    exact sendMetadata_has _ _ _ _ _ _ _ hk hv
  · exact (sendMetadata_keyed hk c ec env topic mhash metadata).1

set_option maxRecDepth 1000000 in
theorem template_carries_over :
    (((Outbox.mk ⟨[("default", [("version", .int 1)])], []⟩ [] ⟨some [], "oc/"⟩).Publish
        (Env.working 5) "test" (.str "x") (some [("a", .int 7)])).state.Publish
      (Env.working 6) "test" (.str "y") none).envelope.map
        (fun e => e.Metadata.map Prod.fst) = some ["version", "event", "a", "hash"] ∧
    (((Outbox.mk ⟨[("default", [("version", .int 1)])], []⟩ [] ⟨some [], "oc/"⟩).Push
        (Env.working 5) "test" "k" (.str "x") none).state.Publish
      (Env.working 6) "test" (.str "y") none).envelope.map
        (fun e => e.Metadata.map Prod.fst) = some ["version", "event", "hash", "previous"] ∧
    (((PubSub.mk ⟨[("test", [])], []⟩ "" (some []) ⟨some [], "pc/"⟩ []).Push
        (Env.working 5) "test" "k" (.str "x") (some [("a", .int 7)])).state.Publish
      (Env.working 6) "test" (.str "y") none).envelope.map
        (fun e => e.Metadata.map Prod.fst) = some ["event", "a", "hash", "previous"] ∧
    (((Outbox.mk ⟨[], []⟩ [] ⟨some [], "oc/"⟩).Push
        (Env.working 5) "test" "k" (.str "x") (some [("a", .int 7)])).state.Publish
      (Env.working 6) "test" (.str "y") none).envelope.map
        (fun e => e.Metadata.map Prod.fst) = some ["version", "event", "hash"] := by
  refine ⟨?_, ?_, ?_, ?_⟩ <;> decide

set_option maxRecDepth 1000000 in
/-- C19, counterexample (to the first part of the claim): a caller-metadata key whose value is nil
is skipped by the merge. On an Outbox with a `"default"` template, a `Publish` with caller
metadata `a = nil` stores its record and returns no error, and the stored template holds the keys
`"version"`, `"event"` and `"hash"` afterwards, not `"a"`. -/
theorem nil_valued_metadata_key_is_not_stored :
    ((Outbox.mk ⟨[("default", [("version", .int 1)])], []⟩ [] ⟨some [], "oc/"⟩).Publish
        (Env.working 5) "test" (.str "x") (some [("a", .null)])).outcome = .returned none ∧
    ((Outbox.mk ⟨[("default", [("version", .int 1)])], []⟩ [] ⟨some [], "oc/"⟩).Publish
        (Env.working 5) "test" (.str "x") (some [("a", .null)])).inserted.isSome = true ∧
    (Assoc.get "default"
        ((Outbox.mk ⟨[("default", [("version", .int 1)])], []⟩ [] ⟨some [], "oc/"⟩).Publish
          (Env.working 5) "test" (.str "x") (some [("a", .null)])).state.Config.Metadata).map
        (fun m => m.map Prod.fst)
      = some ["version", "event", "hash"] := by
  refine ⟨?_, ?_, ?_⟩ <;> decide

/-- C19, amended: when the configuration holds a template for the topic (or, failing that, a
`"default"` template), send works on that stored map itself: after an Outbox or PubSub send that
has built its envelope, the stored template is the envelope's metadata map, which contains every
caller-metadata key that carries a non-nil value, the call's `"hash"` and, for a keyed call, its
`"previous"`. Consequently, for some pair of calls, a later send that passes no metadata still
emits a key supplied only by the earlier call, and an unkeyed `Publish` that follows a keyed
`Push` on the same template still carries a `"previous"` entry. When neither template exists, the
call works on a fresh map (`"version"` and `"event"`), the configuration is left as it was, and
nothing carries over. -/
theorem stored_template_accumulates (o : Outbox) (p : PubSub) (env : Env) (event key : String)
    (message : Value) (metadata : Option Metadata) :
    (∀ e, (o.send env event key message metadata).envelope = some e →
      (∀ t, Assoc.get (o.Config.getTopic event) o.Config.Metadata = some t →
        Assoc.get (o.Config.getTopic event)
          (o.send env event key message metadata).state.Config.Metadata = some e.Metadata) ∧
      (Assoc.get (o.Config.getTopic event) o.Config.Metadata = none →
        ∀ t, Assoc.get "default" o.Config.Metadata = some t →
        Assoc.get "default"
          (o.send env event key message metadata).state.Config.Metadata = some e.Metadata) ∧
      (∀ m k v, metadata = some m → (k, v) ∈ m → v.isNull = false →
        Assoc.get k e.Metadata ≠ none) ∧
      (∃ mhash, Event.hash message = .ok mhash ∧
        Assoc.get "hash" e.Metadata = some (.str mhash)) ∧
      (key ≠ "" → Assoc.get "previous" e.Metadata
        = some (.str (o.ec.getPrevious env.cacheGetErr (o.Config.getTopic event ++ key))))) ∧
    (∀ e, (p.send env event key message metadata).envelope = some e →
      (∀ t, Assoc.get (p.Config.getTopic event) p.Config.Metadata = some t →
        Assoc.get (p.Config.getTopic event)
          (p.send env event key message metadata).state.Config.Metadata = some e.Metadata) ∧
      (Assoc.get (p.Config.getTopic event) p.Config.Metadata = none →
        ∀ t, Assoc.get "default" p.Config.Metadata = some t →
        Assoc.get "default"
          (p.send env event key message metadata).state.Config.Metadata = some e.Metadata) ∧
      (∀ m k v, metadata = some m → (k, v) ∈ m → v.isNull = false →
        Assoc.get k e.Metadata ≠ none) ∧
      (∃ mhash, Event.hash message = .ok mhash ∧
        Assoc.get "hash" e.Metadata = some (.str mhash)) ∧
      (key ≠ "" → Assoc.get "previous" e.Metadata
        = some (.str (p.ec.getPrevious env.cacheGetErr (p.Config.getTopic event ++ key))))) ∧
    ((((Outbox.mk ⟨[("default", [("version", .int 1)])], []⟩ [] ⟨some [], "oc/"⟩).Publish
        (Env.working 5) "test" (.str "x") (some [("a", .int 7)])).state.Publish
      (Env.working 6) "test" (.str "y") none).envelope.map
        (fun e => e.Metadata.map Prod.fst) = some ["version", "event", "a", "hash"] ∧
    (((Outbox.mk ⟨[("default", [("version", .int 1)])], []⟩ [] ⟨some [], "oc/"⟩).Push
        (Env.working 5) "test" "k" (.str "x") none).state.Publish
      (Env.working 6) "test" (.str "y") none).envelope.map
        (fun e => e.Metadata.map Prod.fst) = some ["version", "event", "hash", "previous"] ∧
    (((PubSub.mk ⟨[("test", [])], []⟩ "" (some []) ⟨some [], "pc/"⟩ []).Push
        (Env.working 5) "test" "k" (.str "x") (some [("a", .int 7)])).state.Publish
      (Env.working 6) "test" (.str "y") none).envelope.map
        (fun e => e.Metadata.map Prod.fst) = some ["event", "a", "hash", "previous"]) ∧
    (Assoc.get (o.Config.getTopic event) o.Config.Metadata = none →
      Assoc.get "default" o.Config.Metadata = none →
      (o.send env event key message metadata).state.Config = o.Config ∧
      (o.Config.getMetadata (o.Config.getTopic event)).2.md
        = [("version", .int 1), ("event", .str (o.Config.getTopic event))]) ∧
    (Assoc.get (p.Config.getTopic event) p.Config.Metadata = none →
      Assoc.get "default" p.Config.Metadata = none →
      (p.send env event key message metadata).state.Config = p.Config ∧
      (p.Config.getMetadata (p.Config.getTopic event)).2.md
        = [("version", .int 1), ("event", .str (p.Config.getTopic event))]) := by
  obtain ⟨so1, so2, so3⟩ := slot_of_template o.Config (o.Config.getTopic event)
  obtain ⟨sp1, sp2, sp3⟩ := slot_of_template p.Config (p.Config.getTopic event)
  obtain ⟨co1, co2⟩ := outbox_send_config o env event key message metadata
  obtain ⟨cp1, cp2⟩ := pubsub_send_config p env event key message metadata
  refine ⟨fun e he => ?_, fun e he => ?_,
    ⟨template_carries_over.1, template_carries_over.2.1, template_carries_over.2.2.1⟩,
    fun h1 h2 => ⟨co2 (so3 h1 h2), (getMetadata_fresh _ _ (so3 h1 h2)).2.1⟩,
    fun h1 h2 => ⟨cp2 (sp3 h1 h2), (getMetadata_fresh _ _ (sp3 h1 h2)).2.1⟩⟩
  · obtain ⟨mhash, hm, rfl⟩ := outbox_send_envelope he
    obtain ⟨a1, a2, a3⟩ := sendMetadata_accumulates o.Config o.ec env (o.Config.getTopic event)
      key mhash metadata
    refine ⟨fun t ht => ?_, fun hn t ht => ?_, a1, ⟨mhash, hm, a2⟩, a3⟩
    · rw [co1 _ he]
      exact sendConfig_stored _ _ _ _ (so1 t ht)
    · rw [co1 _ he]
      exact sendConfig_stored _ _ _ _ (so2 hn t ht)
  · obtain ⟨mhash, hm, rfl⟩ := pubsub_send_envelope he
    obtain ⟨a1, a2, a3⟩ := sendMetadata_accumulates p.Config p.ec env (p.Config.getTopic event)
      key mhash metadata
    refine ⟨fun t ht => ?_, fun hn t ht => ?_, a1, ⟨mhash, hm, a2⟩, a3⟩
    · rw [cp1 _ he]
      exact sendConfig_stored _ _ _ _ (sp1 t ht)
    · rw [cp1 _ he]
      exact sendConfig_stored _ _ _ _ (sp2 hn t ht)

set_option maxRecDepth 1000000 in
/-- C19, witness: the amended claim at an Outbox with a `"default"` template, for a keyed `Push`
with caller metadata `a = 7`: the stored template holds `"a"` afterwards. -/
theorem stored_template_accumulates_witness :
    ∃ e, ((Outbox.mk ⟨[("default", [("version", .int 1)])], []⟩ [] ⟨some [], "oc/"⟩).send
        (Env.working 5) "test" "k" (.str "x") (some [("a", .int 7)])).envelope = some e ∧
      Assoc.get "a" e.Metadata ≠ none ∧
      Assoc.get "default"
        ((Outbox.mk ⟨[("default", [("version", .int 1)])], []⟩ [] ⟨some [], "oc/"⟩).send
          (Env.working 5) "test" "k" (.str "x") (some [("a", .int 7)])).state.Config.Metadata
        = some e.Metadata :=
  ⟨_, rfl,
    ((stored_template_accumulates
      (Outbox.mk ⟨[("default", [("version", .int 1)])], []⟩ [] ⟨some [], "oc/"⟩)
      (PubSub.mk ⟨[], []⟩ "" (some []) ⟨some [], "pc/"⟩ []) (Env.working 5) "test" "k"
      (.str "x") (some [("a", .int 7)])).1 _ rfl).2.2.1 _ "a" (.int 7) rfl (by simp) rfl,
    ((stored_template_accumulates
      (Outbox.mk ⟨[("default", [("version", .int 1)])], []⟩ [] ⟨some [], "oc/"⟩)
      (PubSub.mk ⟨[], []⟩ "" (some []) ⟨some [], "pc/"⟩ []) (Env.working 5) "test" "k"
      (.str "x") (some [("a", .int 7)])).1 _ rfl).2.1 rfl _ rfl⟩

/-! ## The cache entry of a stream -/

theorem append_left_cancel {a b c : String} (h : a ++ b = a ++ c) : b = c := by
  have h' : (a ++ b).data = (a ++ c).data := by rw [h]
  simp only [String.data_append] at h'
  exact String.ext (List.append_cancel_left h')

theorem getPrevious_setCurrent_ne (e : EmitterCache) (fault f : Option Error)
    {ev ev' : String} (val : String) (h : ev ≠ ev') :
    (e.setCurrent fault ev val).1.getPrevious f ev' = e.getPrevious f ev' := by
  unfold EmitterCache.setCurrent
  cases hc : e.cache with
  | none => rfl
  | some entries =>
    cases fault with
    | some err => rfl
    | none =>
      simp only [EmitterCache.getPrevious, hc]
      cases f with
      | some err => rfl
      | none =>
        simp only []
        rw [Assoc.get_set_ne]
        intro hk
        exact h (append_left_cancel hk).symm

theorem getPrevious_setCurrent_eq (e : EmitterCache) (entries : List (String × String))
    (hc : e.cache = some entries) {ev ev' : String} (val : String) (h : ev = ev') :
    (e.setCurrent none ev val).1.getPrevious none ev' = val := by
  subst h
  exact (getPrevious_setCurrent e entries hc ev val).1

theorem outbox_send_ec (o : Outbox) (env : Env) (event key : String)
    (message : Value) (metadata : Option Metadata) :
    ((o.send env event key message metadata).inserted = none →
      (o.send env event key message metadata).state.ec = o.ec) ∧
    (key = "" → (o.send env event key message metadata).state.ec = o.ec) ∧
    (∀ mhash, Event.hash message = .ok mhash → key ≠ "" →
      (o.send env event key message metadata).inserted ≠ none →
      (o.send env event key message metadata).state.ec
        = (o.ec.setCurrent env.cacheSetErr (o.Config.getTopic event ++ key) mhash).1) ∧
    (o.send env event key message metadata).state.Config.EventMap = o.Config.EventMap := by
  rw [outbox_send_eq]
  cases hm : Event.hash message with
  | error err =>
    refine ⟨fun _ => rfl, fun _ => rfl, fun mhash h => (by cases h), sendConfig_eventMap _ _ _⟩
  | ok mhash =>
    simp only []
    cases (EventMessage.mk message
        (sendMetadata o.Config o.ec env (o.Config.getTopic event) key mhash metadata)).ToBytes with
    | error err =>
      refine ⟨fun _ => rfl, fun _ => rfl, fun mhash' _ _ hi => absurd rfl hi,
        sendConfig_eventMap _ _ _⟩
    | ok b =>
      simp only []
      obtain ⟨-, -, -, hcfg, hc⟩ := outbox_persist_cases
        { o with Config := (sendConfig o.Config (o.Config.getTopic event)
            (sendMetadata o.Config o.ec env (o.Config.getTopic event) key mhash metadata)) }
        env (o.Config.getTopic event) (if key = "" then mhash else key) mhash (decide (key ≠ ""))
        ⟨message, sendMetadata o.Config o.ec env (o.Config.getTopic event) key mhash metadata⟩ b
      rw [hcfg]
      refine ⟨?_, ?_, ?_, sendConfig_eventMap _ _ _⟩
      · rcases hc with ⟨hs, -⟩ | ⟨hi, -, -, -⟩
        · intro _; rw [hs]
        · intro h; rw [hi] at h; cases h
      · intro hk
        rcases hc with ⟨hs, -⟩ | ⟨-, -, -, he⟩
        · rw [hs]
        · rw [he]; simp [hk]
      · intro mhash' hm' hk hi
        cases hm'
        rcases hc with ⟨-, hn⟩ | ⟨-, -, -, he⟩
        · exact absurd hn hi
        · rw [he]; simp [hk]

set_option maxRecDepth 1000000 in
theorem streams_collide :
    (("ab", "c") : String × String) ≠ ("a", "bc") ∧
    ((Outbox.mk ⟨[], []⟩ [] ⟨some [], "oc/"⟩).Push (Env.working 5) "ab" "c" (.str "x")
      none).outcome = .returned none ∧
    ((Outbox.mk ⟨[], []⟩ [] ⟨some [], "oc/"⟩).Push (Env.working 6) "a" "bc" (.str "y")
      none).envelope.bind (EventMessage.text "previous") = some "" ∧
    (((Outbox.mk ⟨[], []⟩ [] ⟨some [], "oc/"⟩).Push (Env.working 5) "ab" "c" (.str "x")
      none).state.Push (Env.working 6) "a" "bc" (.str "y")
      none).envelope.bind (EventMessage.text "previous") = some (digestText "\"x\"") ∧
    digestText "\"x\"" ≠ "" := by
  refine ⟨?_, ?_, ?_, ?_, ?_⟩ <;> decide

/-- C20: the Sequencing Cache entry of a stream is addressed by the plain concatenation namespace
+ topic + key, so streams are not isolated. A `Push` on `(event, key)` leaves what a `Push` on
`(topic2, key2)` reads as `"previous"` unchanged whenever the concatenations of topic and key
differ; a keyed `Push` that stores its record with a working cache sets what every pair with the
same concatenation reads to the payload hash. For the different pairs topic `"ab"` with key `"c"`
and topic `"a"` with key `"bc"`, a successful `Push` on the first changes the `"previous"` value
of the next `Push` on the second from the empty string to the first payload's hash. -/
theorem cache_entry_addressed_by_concatenation (o : Outbox) (env : Env) (event key : String)
    (message : Value) (metadata : Option Metadata) (topic2 key2 : String) :
    (o.Config.getTopic event ++ key ≠ topic2 ++ key2 →
      ∀ f, (o.Push env event key message metadata).state.ec.getPrevious f (topic2 ++ key2)
        = o.ec.getPrevious f (topic2 ++ key2)) ∧
    (o.Config.getTopic event ++ key = topic2 ++ key2 → key ≠ "" →
      (o.Push env event key message metadata).inserted ≠ none →
      o.ec.cache ≠ none → env.cacheSetErr = none →
      ∀ mhash, Event.hash message = .ok mhash →
        (o.Push env event key message metadata).state.ec.getPrevious none (topic2 ++ key2)
          = mhash) ∧
    (∀ env2 event2 message2 metadata2 e2, key2 ≠ "" →
      ((o.Push env event key message metadata).state.Push env2 event2 key2 message2
        metadata2).envelope = some e2 →
      Assoc.get "previous" e2.Metadata
        = some (.str ((o.Push env event key message metadata).state.ec.getPrevious
            env2.cacheGetErr (o.Config.getTopic event2 ++ key2)))) ∧
    ((("ab", "c") : String × String) ≠ ("a", "bc") ∧
      ((Outbox.mk ⟨[], []⟩ [] ⟨some [], "oc/"⟩).Push (Env.working 5) "ab" "c" (.str "x")
        none).outcome = .returned none ∧
      ((Outbox.mk ⟨[], []⟩ [] ⟨some [], "oc/"⟩).Push (Env.working 6) "a" "bc" (.str "y")
        none).envelope.bind (EventMessage.text "previous") = some "" ∧
      (((Outbox.mk ⟨[], []⟩ [] ⟨some [], "oc/"⟩).Push (Env.working 5) "ab" "c" (.str "x")
        none).state.Push (Env.working 6) "a" "bc" (.str "y")
        none).envelope.bind (EventMessage.text "previous") = some (digestText "\"x\"") ∧
      digestText "\"x\"" ≠ "") := by
  obtain ⟨h1, h2, h3, h4⟩ := outbox_send_ec o env event key message metadata
  refine ⟨fun hne f => ?_, fun heq hk hins hcache hset mhash hm => ?_,
    fun env2 event2 message2 metadata2 e2 hk2 he2 => ?_, streams_collide⟩
  · unfold Outbox.Push
    by_cases hk : key = ""
    · rw [h2 hk]
    · by_cases hi : (o.send env event key message metadata).inserted = none
      · rw [h1 hi]
      · cases hm : Event.hash message with
        | error err =>
          rw [outbox_send_eq] at hi
          simp [hm] at hi
        | ok mhash =>
          rw [h3 mhash hm hk hi]
          exact getPrevious_setCurrent_ne _ _ _ _ hne
  · unfold Outbox.Push at hins ⊢
    rw [h3 mhash hm hk hins, hset]
    cases hcc : o.ec.cache with
    | none => exact absurd hcc hcache
    | some entries => exact getPrevious_setCurrent_eq _ entries hcc _ heq
  · unfold Outbox.Push at he2 ⊢
    obtain ⟨mhash, -, rfl⟩ := outbox_send_envelope he2
    have hcfg : (o.send env event key message metadata).state.Config.getTopic event2
        = o.Config.getTopic event2 := by
      unfold EventConfig.getTopic
      rw [h4]
    rw [(sendMetadata_keyed hk2 _ _ _ _ _ _).1, hcfg]

set_option maxRecDepth 1000000 in
/-- C20, witness: the claim at an Outbox with an empty cache: a `Push` of `"x"` on topic `"ab"`
with key `"c"` leaves what a `Push` on topic `"ab"` with key `"d"` reads unchanged, and sets what
a `Push` on topic `"a"` with key `"bc"` reads to the hash of `"x"`. -/
theorem cache_entry_addressed_by_concatenation_witness :
    ((Outbox.mk ⟨[], []⟩ [] ⟨some [], "oc/"⟩).Push (Env.working 5) "ab" "c" (.str "x")
        none).state.ec.getPrevious none ("ab" ++ "d") = "" ∧
    ((Outbox.mk ⟨[], []⟩ [] ⟨some [], "oc/"⟩).Push (Env.working 5) "ab" "c" (.str "x")
        none).state.ec.getPrevious none ("a" ++ "bc") = digestText "\"x\"" :=
  ⟨(cache_entry_addressed_by_concatenation (Outbox.mk ⟨[], []⟩ [] ⟨some [], "oc/"⟩)
      (Env.working 5) "ab" "c" (.str "x") none "ab" "d").1 (by decide) none,
   (cache_entry_addressed_by_concatenation (Outbox.mk ⟨[], []⟩ [] ⟨some [], "oc/"⟩)
      (Env.working 5) "ab" "c" (.str "x") none "a" "bc").2.1 (by decide) (by decide)
      (by decide) (by decide) rfl _ rfl⟩

/-! ## The relay worker -/

theorem openTopic_of_opens (w : Relay) (env : RelayEnv) (topic : String)
    (h : env.opens w = true) : ∃ topics, w.openTopic env topic = .ok topics := by
  unfold RelayEnv.opens at h
  unfold Relay.openTopic
  split
  · exact ⟨_, rfl⟩
  · cases hp : env.parsed with
    | error err => simp [hp] at h
    | ok u =>
      simp only [hp, Bool.and_eq_true, Bool.not_eq_true', Option.isNone_iff_eq_none] at h
      obtain ⟨ho, hb⟩ := h
      simp only [ho]
      by_cases hs : u.Scheme = "kafka"
      · simp only [hs, if_true]
        simp only [hs, decide_True, Bool.true_and, decide_eq_false_iff_not] at hb
        simp only [hb, if_false]
        exact ⟨_, rfl⟩
      · simp only [hs, if_false]
        exact ⟨_, rfl⟩

theorem senderPass_of_open (h : Hybrid) (w : Relay) (env : RelayEnv) (o : OutboxRecord)
    (topics : List String) (ho : w.openTopic env o.KafkaTopic = .ok topics) :
    (h.senderPass w env o).2.2 = none ∧
    (h.senderPass w env o).2.1.topics = some topics ∧
    (h.senderPass w env o).2.1.KafkaBroker = w.KafkaBroker ∧
    (h.senderPass w env o).1.channel = h.channel ∧
    (h.senderPass w env o).1.receiving = h.receiving ∧
    (h.senderPass w env o).1.Config = h.Config ∧
    (h.senderPass w env o).1.ec = h.ec ∧
    (env.sendErr ≠ none →
      (h.senderPass w env o).1.collection = h.collection ∧
      (h.senderPass w env o).2.1.broker = w.broker) ∧
    (env.sendErr = none →
      (h.senderPass w env o).2.1.broker
        = w.broker ++ [⟨o.KafkaTopic, o.KafkaValue, [("key", o.KafkaKey)]⟩] ∧
      (env.deleteErr = none →
        (h.senderPass w env o).1.collection = h.collection.filter (fun r => r.ID != o.ID)) ∧
      (env.deleteErr ≠ none → (h.senderPass w env o).1.collection = h.collection)) := by
  unfold Hybrid.senderPass
  simp only [ho]
  cases hs : env.sendErr with
  | some err => simp
  | none =>
    cases hd : env.deleteErr with
    | some err => simp [Collection.Delete]
    | none => simp [Collection.Delete]

theorem senderPass_of_error (h : Hybrid) (w : Relay) (env : RelayEnv) (o : OutboxRecord)
    (err : Error) (ho : w.openTopic env o.KafkaTopic = .error err) :
    h.senderPass w env o = (h, w, some err) := by
  unfold Hybrid.senderPass
  simp only [ho]

theorem sender_cons (h : Hybrid) (w : Relay) (env : RelayEnv) (envs : List RelayEnv)
    (closed : Bool) (o : OutboxRecord) (rest : List OutboxRecord) (topics : List String)
    (hw : w.topics ≠ none) (hc : h.channel = o :: rest)
    (ho : w.openTopic env o.KafkaTopic = .ok topics) :
    h.sender w (env :: envs) closed
      = (Hybrid.senderPass { h with channel := rest } w env o).1.sender
          (Hybrid.senderPass { h with channel := rest } w env o).2.1 envs closed := by
  obtain ⟨h1, h2, -⟩ := senderPass_of_open { h with channel := rest } w env o topics ho
  unfold Hybrid.sender
  rw [h2]
  cases hwt : w.topics with
  | none => exact absurd hwt hw
  | some t =>
    simp only []
    rw [Hybrid.range, hc]
    simp only []
    generalize Hybrid.senderPass { h with channel := rest } w env o = p at h1
    obtain ⟨h', w', e⟩ := p
    simp only at h1
    subst h1
    rfl

set_option maxRecDepth 1000000 in
/-- C11, counterexample (to the first part of the claim): the worker takes a record that `Publish`
stored, the broker accepts the message, and the deletion fails; after the pass the record is still
in durable storage, and the worker is still in its loop. -/
theorem relayed_record_stays_when_delete_fails :
    (((Hybrid.mk ⟨[], []⟩ [] ⟨some [], "oc/"⟩ [] true).Publish (Env.working 5) "test"
        (.str "x") none).state.sender ⟨"", some [], []⟩
      [⟨.ok ⟨"mem", ""⟩, none, none, some (.external "store down")⟩] false).relay.broker.length
      = 1 ∧
    (((Hybrid.mk ⟨[], []⟩ [] ⟨some [], "oc/"⟩ [] true).Publish (Env.working 5) "test"
        (.str "x") none).state.sender ⟨"", some [], []⟩
      [⟨.ok ⟨"mem", ""⟩, none, none, some (.external "store down")⟩] false).state.collection
      = ((Hybrid.mk ⟨[], []⟩ [] ⟨some [], "oc/"⟩ [] true).Publish (Env.working 5) "test"
        (.str "x") none).inserted.toList ∧
    ((Hybrid.mk ⟨[], []⟩ [] ⟨some [], "oc/"⟩ [] true).Publish (Env.working 5) "test"
        (.str "x") none).inserted.isSome = true ∧
    (((Hybrid.mk ⟨[], []⟩ [] ⟨some [], "oc/"⟩ [] true).Publish (Env.working 5) "test"
        (.str "x") none).state.sender ⟨"", some [], []⟩
      [⟨.ok ⟨"mem", ""⟩, none, none, some (.external "store down")⟩] false).result = none := by
  refine ⟨?_, ?_, ?_, ?_⟩ <;> decide

/-- C11, amended: for every record `o` the Hybrid Relay Worker dequeues and whose topic is open or
opens: the worker goes on with the records behind `o`, and `o` is not taken up again. If the
broker send succeeds, the broker has the record's value with the record's key; if the deletion
succeeds as well, the record is absent from durable storage after the pass; if the deletion fails,
the store is as before. If the broker send fails, the store is as before, so the record is still
present, and nothing is sent for it, neither then nor by a retry. -/
theorem relay_worker_pass (h : Hybrid) (w : Relay) (env : RelayEnv) (envs : List RelayEnv)
    (closed : Bool) (o : OutboxRecord) (rest : List OutboxRecord) (topics : List String)
    (hw : w.topics ≠ none) (hc : h.channel = o :: rest)
    (ho : w.openTopic env o.KafkaTopic = .ok topics) :
    h.sender w (env :: envs) closed
      = (Hybrid.senderPass { h with channel := rest } w env o).1.sender
          (Hybrid.senderPass { h with channel := rest } w env o).2.1 envs closed ∧
    (Hybrid.senderPass { h with channel := rest } w env o).1.channel = rest ∧
    (env.sendErr = none →
      (Hybrid.senderPass { h with channel := rest } w env o).2.1.broker
        = w.broker ++ [⟨o.KafkaTopic, o.KafkaValue, [("key", o.KafkaKey)]⟩] ∧
      (env.deleteErr = none →
        ∀ r ∈ (Hybrid.senderPass { h with channel := rest } w env o).1.collection,
          r.ID ≠ o.ID) ∧
      (env.deleteErr ≠ none →
        (Hybrid.senderPass { h with channel := rest } w env o).1.collection = h.collection)) ∧
    (env.sendErr ≠ none →
      (Hybrid.senderPass { h with channel := rest } w env o).1.collection = h.collection ∧
      (Hybrid.senderPass { h with channel := rest } w env o).2.1.broker = w.broker) := by
  obtain ⟨-, -, -, h4, -, -, -, h8, h9⟩ :=
    senderPass_of_open { h with channel := rest } w env o topics ho
  refine ⟨sender_cons h w env envs closed o rest topics hw hc ho, h4, fun hs => ?_, h8⟩
  obtain ⟨a, b, c⟩ := h9 hs
  refine ⟨a, fun hd r hr => ?_, c⟩
  rw [b hd] at hr
  have := (List.mem_filter.1 hr).2
  simpa using this

set_option maxRecDepth 1000000 in
/-- C11, witness: the amended claim at a worker that takes the record with id `"r1"` from a store
holding `"r1"` and `"r2"`, with a working broker and store: afterwards `"r1"` is gone and `"r2"`
is left. -/
theorem relay_worker_pass_witness :
    ((Hybrid.mk ⟨[], []⟩ [⟨"r1", "", "test", "k", "v", 5⟩, ⟨"r2", "", "test", "k", "w", 6⟩]
        ⟨some [], "oc/"⟩ [⟨"r1", "", "test", "k", "v", 5⟩] true).sender ⟨"", some [], []⟩
      [⟨.ok ⟨"mem", ""⟩, none, none, none⟩] false).state.collection.map (fun r => r.ID)
      = ["r2"] ∧
    ∀ r ∈ (Hybrid.senderPass
        (Hybrid.mk ⟨[], []⟩ [⟨"r1", "", "test", "k", "v", 5⟩, ⟨"r2", "", "test", "k", "w", 6⟩]
          ⟨some [], "oc/"⟩ [] true) ⟨"", some [], []⟩ ⟨.ok ⟨"mem", ""⟩, none, none, none⟩
        ⟨"r1", "", "test", "k", "v", 5⟩).1.collection, r.ID ≠ "r1" :=
  ⟨by decide,
    ((relay_worker_pass
      (Hybrid.mk ⟨[], []⟩ [⟨"r1", "", "test", "k", "v", 5⟩, ⟨"r2", "", "test", "k", "w", 6⟩]
        ⟨some [], "oc/"⟩ [⟨"r1", "", "test", "k", "v", 5⟩] true) ⟨"", some [], []⟩
      ⟨.ok ⟨"mem", ""⟩, none, none, none⟩ [] false ⟨"r1", "", "test", "k", "v", 5⟩ []
      ["test"] (by decide) rfl rfl).2.2.1 rfl).2.1 rfl⟩

/-! ## How long the relay worker runs -/

theorem opens_of_broker (env : RelayEnv) (w w' : Relay) (h : w'.KafkaBroker = w.KafkaBroker) :
    env.opens w' = env.opens w := by
  unfold RelayEnv.opens
  rw [h]

theorem range_of_opens (closed : Bool) (envs : List RelayEnv) :
    ∀ (h : Hybrid) (w : Relay), (∀ env ∈ envs, env.opens w = true) →
      (Hybrid.range closed envs h w).state.channel = h.channel.drop envs.length ∧
      (Hybrid.range closed envs h w).result
        = (if closed = true ∧ h.channel.length ≤ envs.length then some none else none) := by
  induction envs with
  | nil =>
    intro h w _
    rw [Hybrid.range]
    cases hc : h.channel with
    | nil => cases closed <;> simp [hc]
    | cons o rest => simp [hc]
  | cons env envs ih =>
    intro h w hall
    rw [Hybrid.range]
    cases hc : h.channel with
    | nil => cases closed <;> simp [hc]
    | cons o rest =>
      simp only []
      obtain ⟨topics, ho⟩ := openTopic_of_opens w env o.KafkaTopic
        (hall env (List.mem_cons_self _ _))
      obtain ⟨h1, -, h3, h4, -⟩ := senderPass_of_open { h with channel := rest } w env o topics ho
      generalize Hybrid.senderPass { h with channel := rest } w env o = p at h1 h3 h4
      obtain ⟨h', w', e⟩ := p
      simp only at h1 h3 h4
      subst h1
      simp only []
      have hall' : ∀ env' ∈ envs, env'.opens w' = true := by
        intro env' hm
        rw [opens_of_broker env' w w' h3]
        exact hall env' (List.mem_cons_of_mem _ hm)
      obtain ⟨i1, i2⟩ := ih h' w' hall'
      rw [i1, i2, h4]
      simp

theorem range_result (closed : Bool) (envs : List RelayEnv) :
    ∀ (h : Hybrid) (w : Relay),
      ((Hybrid.range closed envs h w).result = some none →
        closed = true ∧ (Hybrid.range closed envs h w).state.channel = []) ∧
      ((Hybrid.range closed envs h w).result ≠ none →
        (Hybrid.range closed envs h w).state.receiving = false) ∧
      ((Hybrid.range closed envs h w).result = none →
        (Hybrid.range closed envs h w).state.receiving = h.receiving) := by
  induction envs with
  | nil =>
    intro h w
    rw [Hybrid.range]
    cases hc : h.channel with
    | nil => cases closed <;> simp [hc]
    | cons o rest => simp
  | cons env envs ih =>
    intro h w
    rw [Hybrid.range]
    cases hc : h.channel with
    | nil => cases closed <;> simp [hc]
    | cons o rest =>
      simp only []
      cases ho : w.openTopic env o.KafkaTopic with
      | error err =>
        rw [senderPass_of_error _ _ _ _ err ho]
        simp
      | ok topics =>
        obtain ⟨h1, -, -, -, h5, -⟩ :=
          senderPass_of_open { h with channel := rest } w env o topics ho
        generalize Hybrid.senderPass { h with channel := rest } w env o = p at h1 h5
        obtain ⟨h', w', e⟩ := p
        simp only at h1 h5
        subst h1
        simp only []
        obtain ⟨i1, i2, i3⟩ := ih h' w'
        refine ⟨i1, i2, fun hr => ?_⟩
        rw [i3 hr, h5]

set_option maxRecDepth 1000000 in
/-- C12, counterexample: two `Publish` calls hand two records to a worker started with a broker
handle map; the worker takes the first while its queue is open, the topic fails to open, and
`sender` returns that error; the second record is never taken and nothing reaches the broker. -/
theorem relay_worker_returns_when_topic_fails_to_open :
    (((Hybrid.mk ⟨[], []⟩ [] ⟨some [], "oc/"⟩ [] true).Publish (Env.working 5) "test"
        (.str "x") none).state.Publish (Env.working 6) "test" (.str "y") none).state.channel.length
      = 2 ∧
    ((((Hybrid.mk ⟨[], []⟩ [] ⟨some [], "oc/"⟩ [] true).Publish (Env.working 5) "test"
        (.str "x") none).state.Publish (Env.working 6) "test" (.str "y") none).state.sender
      ⟨"", some [], []⟩
      [⟨.ok ⟨"mem", ""⟩, some (.external "broker down"), none, none⟩,
        ⟨.ok ⟨"mem", ""⟩, none, none, none⟩] false).result
      = some (some (.external "broker down")) ∧
    ((((Hybrid.mk ⟨[], []⟩ [] ⟨some [], "oc/"⟩ [] true).Publish (Env.working 5) "test"
        (.str "x") none).state.Publish (Env.working 6) "test" (.str "y") none).state.sender
      ⟨"", some [], []⟩
      [⟨.ok ⟨"mem", ""⟩, some (.external "broker down"), none, none⟩,
        ⟨.ok ⟨"mem", ""⟩, none, none, none⟩] false).state.channel.length = 1 ∧
    ((((Hybrid.mk ⟨[], []⟩ [] ⟨some [], "oc/"⟩ [] true).Publish (Env.working 5) "test"
        (.str "x") none).state.Publish (Env.working 6) "test" (.str "y") none).state.sender
      ⟨"", some [], []⟩
      [⟨.ok ⟨"mem", ""⟩, some (.external "broker down"), none, none⟩,
        ⟨.ok ⟨"mem", ""⟩, none, none, none⟩] false).relay.broker = [] := by
  refine ⟨?_, ?_, ?_, ?_⟩ <;> decide

/-- C12, amended: once started with a broker handle map, the Hybrid Relay Worker keeps consuming
while its input queue is open as long as the topics of its records open: for every sequence of
dequeued records and every outcome of sending and deleting, when in every pass the address parses,
a Kafka address has its brokers and `OpenTopic` works, the worker has taken one record per pass
and is still in its loop after each of them, and it returns (without error) exactly when the queue
is closed and drained. Whatever the outcomes, it returns without error only when the queue is
closed and drained, and it returns an error only when a topic did not open. -/
theorem relay_worker_keeps_consuming (h : Hybrid) (w : Relay) (envs : List RelayEnv)
    (closed : Bool) (hw : w.topics ≠ none) :
    ((∀ env ∈ envs, env.opens w = true) →
      (h.sender w envs closed).state.channel = h.channel.drop envs.length ∧
      (h.sender w envs closed).result
        = (if closed = true ∧ h.channel.length ≤ envs.length then some none else none)) ∧
    ((h.sender w envs closed).result = some none →
      closed = true ∧ (h.sender w envs closed).state.channel = []) ∧
    (∀ err, (h.sender w envs closed).result = some (some err) →
      ∃ env ∈ envs, env.opens w = false) := by
  have hs : h.sender w envs closed = Hybrid.range closed envs h w := by
    unfold Hybrid.sender
    cases hwt : w.topics with
    | none => exact absurd hwt hw
    | some t => rfl
  rw [hs]
  refine ⟨range_of_opens closed envs h w, (range_result closed envs h w).1, fun err he => ?_⟩
  by_contra hall
  simp only [not_exists, not_and, Bool.not_eq_false] at hall
  rw [(range_of_opens closed envs h w hall).2] at he
  split at he <;> cases he

set_option maxRecDepth 1000000 in
/-- C12, witness: the amended claim at a worker that takes two records whose topic opens, the
first send failing and the second deletion failing: it has taken both and is still in its loop. -/
theorem relay_worker_keeps_consuming_witness :
    ((Hybrid.mk ⟨[], []⟩ [⟨"r1", "", "test", "k", "v", 5⟩, ⟨"r2", "", "test", "k", "w", 6⟩]
        ⟨some [], "oc/"⟩ [⟨"r1", "", "test", "k", "v", 5⟩, ⟨"r2", "", "test", "k", "w", 6⟩]
        true).sender ⟨"", some [], []⟩
      [⟨.ok ⟨"mem", ""⟩, none, some (.external "broker down"), none⟩,
        ⟨.ok ⟨"mem", ""⟩, none, none, some (.external "store down")⟩] false).result = none :=
  ((relay_worker_keeps_consuming
    (Hybrid.mk ⟨[], []⟩ [⟨"r1", "", "test", "k", "v", 5⟩, ⟨"r2", "", "test", "k", "w", 6⟩]
      ⟨some [], "oc/"⟩ [⟨"r1", "", "test", "k", "v", 5⟩, ⟨"r2", "", "test", "k", "w", 6⟩]
      true) ⟨"", some [], []⟩
    [⟨.ok ⟨"mem", ""⟩, none, some (.external "broker down"), none⟩,
      ⟨.ok ⟨"mem", ""⟩, none, none, some (.external "store down")⟩] false (by decide)).1
    (by decide)).2

/-! ## The hand-over to the relay worker -/

theorem hybrid_publish_handoff (h : Hybrid) (env : Env) (event : String) (message : Value)
    (metadata : Option Metadata)
    (hi : (h.Publish env event message metadata).inserted ≠ none) :
    (h.Publish env event message metadata).handed
      = (h.Publish env event message metadata).inserted ∧
    (h.receiving = true →
      (h.Publish env event message metadata).outcome = .returned none ∧
      (h.Publish env event message metadata).state.channel
        = h.channel ++ (h.Publish env event message metadata).inserted.toList) ∧
    (h.receiving = false →
      (h.Publish env event message metadata).outcome = .blocked ∧
      (h.Publish env event message metadata).state.channel = h.channel) := by
  unfold Hybrid.Publish at hi ⊢
  obtain ⟨-, -, hins, -, -, hhand, hchan, hout⟩ := hybrid_send_outbox h env event "" message metadata
  simp only [if_true] at hhand
  have hh : (h.send env event "" message metadata).handed
      = (h.send env event "" message metadata).inserted := by rw [hhand, hins]
  have hsome : (h.send env event "" message metadata).handed.isSome = true := by
    rw [hh]
    cases hx : (h.send env event "" message metadata).inserted with
    | none => exact absurd hx hi
    | some ob => rfl
  have hobx : (h.toOutbox.send env event "" message metadata).outcome = .returned none := by
    apply (outbox_send_cache h.toOutbox env event "" message metadata).1
    rw [← hins]
    exact hi
  refine ⟨hh, fun hr => ?_, fun hr => ?_⟩
  · rw [hout, hchan, hh]
    simp [hr, hobx]
  · rw [hout, hchan]
    simp [hr, hsome]

theorem sender_receiving (h : Hybrid) (w : Relay) (envs : List RelayEnv) (closed : Bool) :
    ((h.sender w envs closed).result ≠ none → (h.sender w envs closed).state.receiving = false) ∧
    ((h.sender w envs closed).result = none →
      (h.sender w envs closed).state.receiving = h.receiving) := by
  unfold Hybrid.sender
  cases hwt : w.topics with
  | none => simp
  | some t => exact (range_result closed envs h w).2

set_option maxRecDepth 1000000 in
/-- C16, counterexample: the worker of a Hybrid emitter takes the record of a first `Publish`, its
topic fails to open and the worker returns; a second `Publish` then stores its record and never
returns, and the record is not with the worker. -/
theorem hybrid_publish_blocks_after_worker_stopped :
    ((Hybrid.mk ⟨[], []⟩ [] ⟨some [], "oc/"⟩ [] true).Publish (Env.working 5) "test"
        (.str "x") none).outcome = .returned none ∧
    (((Hybrid.mk ⟨[], []⟩ [] ⟨some [], "oc/"⟩ [] true).Publish (Env.working 5) "test"
        (.str "x") none).state.sender ⟨"", some [], []⟩
      [⟨.ok ⟨"mem", ""⟩, some (.external "broker down"), none, none⟩] false).result
      = some (some (.external "broker down")) ∧
    ((((Hybrid.mk ⟨[], []⟩ [] ⟨some [], "oc/"⟩ [] true).Publish (Env.working 5) "test"
        (.str "x") none).state.sender ⟨"", some [], []⟩
      [⟨.ok ⟨"mem", ""⟩, some (.external "broker down"), none, none⟩] false).state.Publish
      (Env.working 6) "test" (.str "y") none).inserted.isSome = true ∧
    ((((Hybrid.mk ⟨[], []⟩ [] ⟨some [], "oc/"⟩ [] true).Publish (Env.working 5) "test"
        (.str "x") none).state.sender ⟨"", some [], []⟩
      [⟨.ok ⟨"mem", ""⟩, some (.external "broker down"), none, none⟩] false).state.Publish
      (Env.working 6) "test" (.str "y") none).outcome = .blocked ∧
    ((((Hybrid.mk ⟨[], []⟩ [] ⟨some [], "oc/"⟩ [] true).Publish (Env.working 5) "test"
        (.str "x") none).state.sender ⟨"", some [], []⟩
      [⟨.ok ⟨"mem", ""⟩, some (.external "broker down"), none, none⟩] false).state.Publish
      (Env.working 6) "test" (.str "y") none).state.channel = [] := by
  refine ⟨?_, ?_, ?_, ?_, ?_⟩ <;> decide

/-- C16, amended: in the Hybrid emitter the hand-off of a newly inserted record to the Relay
Worker is a rendezvous on an unbuffered channel. A `Publish` that has stored its record hands that
record over; while the worker is in its loop the call returns without error and the record is with
the worker, behind the records handed over before; when the worker is not in its loop the call
never returns and the record is not handed over, though it is durably stored. The worker is out of
its loop once `sender` has returned, so every `Publish` that then stores a record never returns;
while `sender` has not returned, the worker stands as it stood. -/
theorem hybrid_handoff_is_rendezvous (h : Hybrid) (w : Relay) (envs : List RelayEnv)
    (closed : Bool) (env : Env) (event : String) (message : Value)
    (metadata : Option Metadata) :
    ((h.Publish env event message metadata).inserted ≠ none →
      (h.Publish env event message metadata).handed
        = (h.Publish env event message metadata).inserted ∧
      (h.receiving = true →
        (h.Publish env event message metadata).outcome = .returned none ∧
        (h.Publish env event message metadata).state.channel
          = h.channel ++ (h.Publish env event message metadata).inserted.toList) ∧
      (h.receiving = false →
        (h.Publish env event message metadata).outcome = .blocked ∧
        (h.Publish env event message metadata).state.channel = h.channel)) ∧
    ((h.sender w envs closed).result = none →
      (h.sender w envs closed).state.receiving = h.receiving) ∧
    ((h.sender w envs closed).result ≠ none →
      (h.sender w envs closed).state.receiving = false ∧
      (((h.sender w envs closed).state.Publish env event message metadata).inserted ≠ none →
        ((h.sender w envs closed).state.Publish env event message metadata).outcome
          = .blocked)) := by
  obtain ⟨s1, s2⟩ := sender_receiving h w envs closed
  refine ⟨hybrid_publish_handoff h env event message metadata, s2, fun hr => ⟨s1 hr, fun hi => ?_⟩⟩
  exact ((hybrid_publish_handoff _ env event message metadata hi).2.2 (s1 hr)).1

set_option maxRecDepth 1000000 in
/-- C16, witness: the amended claim at a fresh Hybrid emitter whose worker is in its loop:
`Publish` of `"x"` returns without error. -/
theorem hybrid_handoff_is_rendezvous_witness :
    ((Hybrid.mk ⟨[], []⟩ [] ⟨some [], "oc/"⟩ [] true).Publish (Env.working 5) "test"
        (.str "x") none).outcome = .returned none :=
  (((hybrid_handoff_is_rendezvous (Hybrid.mk ⟨[], []⟩ [] ⟨some [], "oc/"⟩ [] true)
      ⟨"", some [], []⟩ [] false (Env.working 5) "test" (.str "x") none).1
    (by decide)).2.1 rfl).1

/-! ## Which records reach the relay queue -/

set_option maxRecDepth 1000000 in
/-- C10, counterexample: the worker of a Hybrid emitter takes the record of a first `Publish`,
finds a Kafka address without brokers and returns; a second `Publish` (empty key) then inserts
its record and runs the hand-over on it, but the record does not reach the relay queue, and the
call never returns. -/
theorem unkeyed_insert_is_not_enqueued_after_worker_returned :
    (((Hybrid.mk ⟨[], []⟩ [] ⟨some [], "oc/"⟩ [] true).Publish (Env.working 5) "test"
        (.str "x") none).state.sender ⟨"", some [], []⟩
      [⟨.ok ⟨"kafka", "events"⟩, none, none, none⟩] false).result
      = some (some .missingBroker) ∧
    ((((Hybrid.mk ⟨[], []⟩ [] ⟨some [], "oc/"⟩ [] true).Publish (Env.working 5) "test"
        (.str "x") none).state.sender ⟨"", some [], []⟩
      [⟨.ok ⟨"kafka", "events"⟩, none, none, none⟩] false).state.send
      (Env.working 6) "test" "" (.str "y") none).inserted.isSome = true ∧
    ((((Hybrid.mk ⟨[], []⟩ [] ⟨some [], "oc/"⟩ [] true).Publish (Env.working 5) "test"
        (.str "x") none).state.sender ⟨"", some [], []⟩
      [⟨.ok ⟨"kafka", "events"⟩, none, none, none⟩] false).state.send
      (Env.working 6) "test" "" (.str "y") none).state.collection.length = 2 ∧
    ((((Hybrid.mk ⟨[], []⟩ [] ⟨some [], "oc/"⟩ [] true).Publish (Env.working 5) "test"
        (.str "x") none).state.sender ⟨"", some [], []⟩
      [⟨.ok ⟨"kafka", "events"⟩, none, none, none⟩] false).state.send
      (Env.working 6) "test" "" (.str "y") none).state.channel = [] ∧
    ((((Hybrid.mk ⟨[], []⟩ [] ⟨some [], "oc/"⟩ [] true).Publish (Env.working 5) "test"
        (.str "x") none).state.sender ⟨"", some [], []⟩
      [⟨.ok ⟨"kafka", "events"⟩, none, none, none⟩] false).state.send
      (Env.working 6) "test" "" (.str "y") none).outcome = .blocked := by
  refine ⟨?_, ?_, ?_, ?_, ?_⟩ <;> decide

/-- C10, amended: `Hybrid.send` runs the hand-over `h.channel <- ob` on a record if and only if
the call had an empty key and inserted that record: a keyed call hands nothing over and leaves
the relay queue as it was, and so does a call that inserted nothing (stored record found, or
error). A call with an empty key that inserted its record hands over exactly that record, once:
while the worker is receiving, the relay queue gains that record, behind the records it held,
and the call returns without error; when the worker is not receiving, the record does not reach
the relay queue and the call never returns. -/
theorem hybrid_hands_over_iff_unkeyed_insert (h : Hybrid) (env : Env) (event key : String)
    (message : Value) (metadata : Option Metadata) :
    (∀ ob, (h.send env event key message metadata).handed = some ob ↔
      key = "" ∧ (h.send env event key message metadata).inserted = some ob) ∧
    (key ≠ "" → (h.send env event key message metadata).handed = none ∧
      (h.send env event key message metadata).state.channel = h.channel) ∧
    ((h.send env event key message metadata).inserted = none →
      (h.send env event key message metadata).handed = none ∧
      (h.send env event key message metadata).state.channel = h.channel) ∧
    (h.receiving = true → (h.send env event key message metadata).state.channel
      = h.channel ++ (h.send env event key message metadata).handed.toList) ∧
    (h.receiving = true → ∀ ob, (h.send env event key message metadata).handed = some ob →
      (h.send env event key message metadata).state.channel = h.channel ++ [ob] ∧
      (h.send env event key message metadata).outcome = .returned none) ∧
    (h.receiving = false → (h.send env event key message metadata).state.channel = h.channel) ∧
    (h.receiving = false → ∀ ob, (h.send env event key message metadata).handed = some ob →
      (h.send env event key message metadata).outcome = .blocked) := by
  obtain ⟨_, _, h3, _, _, h6, h7, h8⟩ := hybrid_send_outbox h env event key message metadata
  have h6' := h6
  rw [← h3] at h6
  refine ⟨?_, ?_, ?_, ?_, ?_, ?_, ?_⟩
  · intro ob
    rw [h6]
    by_cases hk : key = "" <;> simp [hk]
  · intro hk
    rw [h7, h6]
    simp [hk]
  · intro hi
    rw [h7, h6, hi]
    simp
  · intro hr
    rw [h7]
    simp [hr]
  · intro hr ob hob
    refine ⟨by rw [h7, hob]; simp [hr], ?_⟩
    rw [h8]
    simp only [hr, Bool.true_eq_false, false_and, if_false]
    apply (outbox_send_cache h.toOutbox env event key message metadata).1
    rw [← h3]
    rw [h6] at hob
    by_cases hk : key = ""
    · simp only [hk, if_true] at hob
      rw [hk, hob]
      simp
    · simp [hk] at hob
  · intro hr
    rw [h7]
    simp [hr]
  · intro hr ob hob
    rw [h8, hob]
    simp [hr]

set_option maxRecDepth 1000000 in
/-- C10, witness: a first `Publish` on an emitter with a receiving worker and an empty relay
queue: the queue then holds one record, the inserted one, and the call has returned. -/
theorem hybrid_hands_over_iff_unkeyed_insert_witness :
    ((Hybrid.mk ⟨[], []⟩ [] ⟨some [], "oc/"⟩ [] true).send (Env.working 5) "test" ""
        (.str "x") none).state.channel
      = ((Hybrid.mk ⟨[], []⟩ [] ⟨some [], "oc/"⟩ [] true).send (Env.working 5) "test" ""
        (.str "x") none).inserted.toList ∧
    ((Hybrid.mk ⟨[], []⟩ [] ⟨some [], "oc/"⟩ [] true).send (Env.working 5) "test" ""
        (.str "x") none).outcome = .returned none :=
  ⟨by
    rw [(hybrid_hands_over_iff_unkeyed_insert (Hybrid.mk ⟨[], []⟩ [] ⟨some [], "oc/"⟩ [] true)
      (Env.working 5) "test" "" (.str "x") none).2.2.2.1 rfl]
    decide,
   ((hybrid_hands_over_iff_unkeyed_insert (Hybrid.mk ⟨[], []⟩ [] ⟨some [], "oc/"⟩ [] true)
      (Env.working 5) "test" "" (.str "x") none).2.2.2.2.1 rfl _ rfl).2⟩

/-! ## Sending the same unkeyed message twice, with the relay worker in between -/

theorem find_filter_ids (col : Collection) (ids : List String) (id : String) :
    (col.filter (fun r => !ids.contains r.ID)).find? (fun r => r.ID == id)
      = if ids.contains id = true then none else col.find? (fun r => r.ID == id) := by
  by_cases hmem : id ∈ ids
  · have hc : ids.contains id = true := by simpa using hmem
    rw [if_pos hc, List.find?_eq_none]
    intro x hx
    have hx2 := (List.mem_filter.1 hx).2
    intro he
    have he2 : x.ID = id := by simpa using he
    rw [he2, hc] at hx2
    simp at hx2
  · have hc : ¬ ids.contains id = true := by simpa using hmem
    rw [if_neg hc]
    induction col with
    | nil => rfl
    | cons r rest ih =>
      by_cases hid : r.ID = id
      · have hp : (!ids.contains r.ID) = true := by
          rw [hid]
          simpa using hmem
        simp only [List.filter_cons, hp, if_true]
        simp [List.find?_cons, hid]
      · have hne : (r.ID == id) = false := by simpa using hid
        rw [List.find?_cons, hne]
        by_cases hp : (!ids.contains r.ID) = true
        · simp only [List.filter_cons, hp, if_true]
          rw [List.find?_cons, hne]
          exact ih
        · simp only [List.filter_cons, hp, if_false]
          exact ih

theorem filter_ids_append (col : Collection) (a b : List String) :
    (col.filter (fun r => !a.contains r.ID)).filter (fun r => !b.contains r.ID)
      = col.filter (fun r => !(a ++ b).contains r.ID) := by
  rw [List.filter_filter]
  congr 1
  funext r
  by_cases ha : r.ID ∈ a <;> by_cases hb : r.ID ∈ b <;> simp [ha, hb]

theorem senderPass_store (h : Hybrid) (w : Relay) (env : RelayEnv) (o : OutboxRecord) :
    (∃ ids : List String,
      (h.senderPass w env o).1.collection = h.collection.filter (fun r => !ids.contains r.ID)) ∧
    (h.senderPass w env o).1.Config = h.Config ∧
    (h.senderPass w env o).1.ec = h.ec := by
  unfold Hybrid.senderPass Collection.Delete
  cases w.openTopic env o.KafkaTopic with
  | error err => exact ⟨⟨[], by simp⟩, rfl, rfl⟩
  | ok topics =>
    cases env.sendErr with
    | some e => exact ⟨⟨[], by simp⟩, rfl, rfl⟩
    | none =>
      cases env.deleteErr with
      | some e => exact ⟨⟨[], by simp⟩, rfl, rfl⟩
      | none =>
        refine ⟨⟨[o.ID], ?_⟩, rfl, rfl⟩
        simp only []
        congr 1
        funext r
        by_cases hr : r.ID = o.ID <;> simp [hr]

theorem range_store (closed : Bool) (envs : List RelayEnv) :
    ∀ (h : Hybrid) (w : Relay),
      (∃ ids : List String, (Hybrid.range closed envs h w).state.collection
        = h.collection.filter (fun r => !ids.contains r.ID)) ∧
      (Hybrid.range closed envs h w).state.Config = h.Config ∧
      (Hybrid.range closed envs h w).state.ec = h.ec := by
  induction envs with
  | nil =>
    intro h w
    rw [Hybrid.range]
    cases hc : h.channel with
    | nil => cases closed <;> exact ⟨⟨[], by simp⟩, rfl, rfl⟩
    | cons o rest => exact ⟨⟨[], by simp⟩, rfl, rfl⟩
  | cons env envs ih =>
    intro h w
    rw [Hybrid.range]
    cases hc : h.channel with
    | nil => cases closed <;> exact ⟨⟨[], by simp⟩, rfl, rfl⟩
    | cons o rest =>
      simp only []
      obtain ⟨⟨ids, h1⟩, h2, h3⟩ := senderPass_store { h with channel := rest } w env o
      generalize Hybrid.senderPass { h with channel := rest } w env o = p at h1 h2 h3
      obtain ⟨h', w', e⟩ := p
      simp only at h1 h2 h3
      cases e with
      | some err => exact ⟨⟨ids, h1⟩, h2, h3⟩
      | none =>
        simp only []
        obtain ⟨⟨ids', i1⟩, i2, i3⟩ := ih h' w'
        refine ⟨⟨ids ++ ids', ?_⟩, i2.trans h2, i3.trans h3⟩
        rw [i1, h1, filter_ids_append]

theorem sender_store (h : Hybrid) (w : Relay) (envs : List RelayEnv) (closed : Bool) :
    (∃ ids : List String, (h.sender w envs closed).state.collection
      = h.collection.filter (fun r => !ids.contains r.ID)) ∧
    (h.sender w envs closed).state.Config = h.Config ∧
    (h.sender w envs closed).state.ec = h.ec := by
  unfold Hybrid.sender
  cases hwt : w.topics with
  | none => exact ⟨⟨[], by simp⟩, rfl, rfl⟩
  | some t => exact range_store closed envs h w

/-- A record id that is still in the store after a run of the worker is looked up there as it
was before the run. -/
theorem sender_find (h : Hybrid) (w : Relay) (envs : List RelayEnv) (closed : Bool)
    (id : String) (hx : ∃ x ∈ (h.sender w envs closed).state.collection, x.ID = id) :
    (h.sender w envs closed).state.collection.find? (fun r => r.ID == id)
      = h.collection.find? (fun r => r.ID == id) := by
  obtain ⟨⟨ids, hc⟩, -, -⟩ := sender_store h w envs closed
  rw [hc] at hx ⊢
  rw [find_filter_ids]
  obtain ⟨x, hm, hid⟩ := hx
  have hx2 := (List.mem_filter.1 hm).2
  rw [hid] at hx2
  have hc2 : ¬ ids.contains id = true := by
    intro hcon
    rw [hcon] at hx2
    simp at hx2
  rw [if_neg hc2]

theorem outbox_persist_absent (o : Outbox) (env : Env) (topic key mhash : String)
    (msg : EventMessage) (b : String) (hg : env.getErr = none) (hc : env.createErr = none)
    (hfree : ∀ x ∈ o.collection, x.ID ≠ (newRecord topic key b).ID) :
    o.persist env topic key mhash false msg b
      = ⟨{ o with collection :=
            o.collection ++ [{ newRecord topic key b with CreatedAt := env.now }] },
          .returned none, some msg, some { newRecord topic key b with CreatedAt := env.now },
          none, none⟩ := by
  have hz0 : (newRecord topic key b).CreatedAt.IsZero = true := rfl
  have hnone : o.collection.find? (fun r => r.ID == (newRecord topic key b).ID) = none := by
    rw [List.find?_eq_none]
    intro r hr
    simpa using hfree r hr
  have hany : o.collection.any (fun r => r.ID == (newRecord topic key b).ID) = false := by
    rw [List.any_eq_false]
    intro r hr
    simpa using hfree r hr
  unfold Outbox.persist Collection.Get Collection.Create
  simp [hg, hc, Error.isNotFound, hz0, hnone, hany]

/-- An unkeyed `send` whose payload hashes and whose envelope serializes is the insert step on
the emitter with the written-back template. -/
theorem outbox_send_unkeyed (o : Outbox) (env : Env) (event : String) (message : Value)
    (metadata : Option Metadata) (mhash b : String) (hm : Event.hash message = .ok mhash)
    (hb : (EventMessage.mk message (Assoc.set "hash" (.str mhash)
      (mergeOpt (o.Config.getMetadata (o.Config.getTopic event)).2.md metadata))).ToBytes
        = .ok b) :
    o.send env event "" message metadata
      = Outbox.persist
          { o with Config := (sendConfig o.Config (o.Config.getTopic event)
            (Assoc.set "hash" (.str mhash)
              (mergeOpt (o.Config.getMetadata (o.Config.getTopic event)).2.md metadata))) }
          env (o.Config.getTopic event) mhash mhash false
          ⟨message, Assoc.set "hash" (.str mhash)
            (mergeOpt (o.Config.getMetadata (o.Config.getTopic event)).2.md metadata)⟩ b := by
  rw [outbox_send_eq]
  simp only [hm, sendMetadata_unkeyed, if_true, hb]
  rfl

/-- An unkeyed `send` that returned success hashed the payload and serialized the envelope. -/
theorem outbox_send_unkeyed_ok (o : Outbox) (env : Env) (event : String) (message : Value)
    (metadata : Option Metadata)
    (h1 : (o.send env event "" message metadata).outcome = .returned none) :
    ∃ mhash b, Event.hash message = .ok mhash ∧
      (EventMessage.mk message (Assoc.set "hash" (.str mhash)
        (mergeOpt (o.Config.getMetadata (o.Config.getTopic event)).2.md metadata))).ToBytes
          = .ok b := by
  rw [outbox_send_eq o] at h1
  cases hm : Event.hash message with
  | error err => simp [hm] at h1
  | ok mhash =>
    simp only [hm, sendMetadata_unkeyed, if_true] at h1
    cases hb : (EventMessage.mk message (Assoc.set "hash" (.str mhash)
        (mergeOpt (o.Config.getMetadata (o.Config.getTopic event)).2.md metadata))).ToBytes with
    | error err => simp [hb] at h1
    | ok b => exact ⟨mhash, b, rfl, hb⟩

/-- The second unkeyed `send` of a message, on any emitter that carries the template the first
call wrote back: it is the insert step with the first call's envelope, on that emitter. -/
theorem outbox_send_again (o2 : Outbox) (c : EventConfig) (env : Env) (event : String)
    (message : Value) (metadata : Option Metadata) (mhash b : String)
    (hw : ∀ m, metadata = some m → (Value.map m).wf = true)
    (hm : Event.hash message = .ok mhash)
    (hb : (EventMessage.mk message (Assoc.set "hash" (.str mhash)
      (mergeOpt (c.getMetadata (c.getTopic event)).2.md metadata))).ToBytes = .ok b)
    (hcfg : o2.Config = sendConfig c (c.getTopic event) (Assoc.set "hash" (.str mhash)
      (mergeOpt (c.getMetadata (c.getTopic event)).2.md metadata))) :
    o2.send env event "" message metadata
      = o2.persist env (c.getTopic event) mhash mhash false
          ⟨message, Assoc.set "hash" (.str mhash)
            (mergeOpt (c.getMetadata (c.getTopic event)).2.md metadata)⟩ b := by
  obtain ⟨hr1, hr2⟩ := resend_config c (c.getTopic event) mhash (hash_nonempty hm) metadata hw
  have ht : o2.Config.getTopic event = c.getTopic event := by
    rw [hcfg, sendConfig_getTopic]
  have hb2 : (EventMessage.mk message (Assoc.set "hash" (.str mhash)
      (mergeOpt (o2.Config.getMetadata (o2.Config.getTopic event)).2.md metadata))).ToBytes
        = .ok b := by
    rw [ht, hcfg, hr1]
    exact hb
  rw [outbox_send_unkeyed o2 env event message metadata mhash b hm hb2, ht]
  have hst : ({ o2 with Config := (sendConfig o2.Config (c.getTopic event)
      (Assoc.set "hash" (.str mhash)
        (mergeOpt (o2.Config.getMetadata (c.getTopic event)).2.md metadata))) } : Outbox)
      = o2 := by
    have : sendConfig o2.Config (c.getTopic event) (Assoc.set "hash" (.str mhash)
        (mergeOpt (o2.Config.getMetadata (c.getTopic event)).2.md metadata)) = o2.Config := by
      rw [hcfg, hr1, hr2]
    rw [this]
  rw [hst]
  have hmd : Assoc.set "hash" (.str mhash)
      (mergeOpt (o2.Config.getMetadata (c.getTopic event)).2.md metadata)
      = Assoc.set "hash" (.str mhash)
        (mergeOpt (c.getMetadata (c.getTopic event)).2.md metadata) := by
    rw [hcfg, hr1]
  rw [hmd]

theorem countP_id_of_nodup (col : Collection) (hn : (col.map (fun r => r.ID)).Nodup)
    (rec : OutboxRecord) (hr : rec ∈ col) :
    col.countP (fun r => r.ID == rec.ID) = 1 := by
  have h1 : (col.map (fun r => r.ID)).count rec.ID = 1 :=
    List.count_eq_one_of_mem hn (List.mem_map.2 ⟨rec, hr, rfl⟩)
  rw [List.count, List.countP_map] at h1
  rw [← h1]
  rfl

theorem countP_id_of_free (col : Collection) (id : String) (hfree : ∀ x ∈ col, x.ID ≠ id) :
    col.countP (fun r => r.ID == id) = 0 := by
  rw [List.countP_eq_zero]
  intro x hx
  simpa using hfree x hx

/-- What a successful unkeyed `send` leaves behind: the payload hashed, the envelope serialized,
the template written back, and a record under the id of the message in the store, with its
creation time set; in a store whose ids are distinct it is the only record under that id. -/
theorem outbox_send_unkeyed_stored (o : Outbox) (env : Env) (event : String) (message : Value)
    (metadata : Option Metadata) (hnow : env.now ≠ 0)
    (h1 : (o.send env event "" message metadata).outcome = .returned none) :
    ∃ mhash b, Event.hash message = .ok mhash ∧
      (EventMessage.mk message (Assoc.set "hash" (.str mhash)
        (mergeOpt (o.Config.getMetadata (o.Config.getTopic event)).2.md metadata))).ToBytes
          = .ok b ∧
      (o.send env event "" message metadata).envelope
        = some ⟨message, Assoc.set "hash" (.str mhash)
            (mergeOpt (o.Config.getMetadata (o.Config.getTopic event)).2.md metadata)⟩ ∧
      (o.send env event "" message metadata).state.Config
        = sendConfig o.Config (o.Config.getTopic event) (Assoc.set "hash" (.str mhash)
            (mergeOpt (o.Config.getMetadata (o.Config.getTopic event)).2.md metadata)) ∧
      (∃ rec, (o.send env event "" message metadata).state.collection.find?
          (fun r => r.ID == (newRecord (o.Config.getTopic event) mhash b).ID) = some rec ∧
        rec.CreatedAt.IsZero = false) ∧
      ((o.collection.map (fun r => r.ID)).Nodup →
        (o.send env event "" message metadata).state.collection.countP
          (fun r => r.ID == (newRecord (o.Config.getTopic event) mhash b).ID) = 1) := by
  obtain ⟨mhash, b, hm, hb⟩ := outbox_send_unkeyed_ok o env event message metadata h1
  have hfirst := outbox_send_unkeyed o env event message metadata mhash b hm hb
  refine ⟨mhash, b, hm, hb, ?_⟩
  rw [hfirst] at h1 ⊢
  obtain ⟨henv, _, _, hcfg, hcases⟩ := outbox_persist_cases
    { o with Config := (sendConfig o.Config (o.Config.getTopic event)
      (Assoc.set "hash" (.str mhash)
        (mergeOpt (o.Config.getMetadata (o.Config.getTopic event)).2.md metadata))) }
    env (o.Config.getTopic event) mhash mhash false
    ⟨message, Assoc.set "hash" (.str mhash)
      (mergeOpt (o.Config.getMetadata (o.Config.getTopic event)).2.md metadata)⟩ b
  obtain ⟨rec, hf, hz⟩ := outbox_persist_stored h1 hnow
  refine ⟨henv, hcfg, ⟨rec, hf, hz⟩, ?_⟩
  intro hn
  rcases hcases with ⟨hs, _⟩ | ⟨_, _, hc, _⟩
  · rw [hs] at hf ⊢
    have hmem : rec ∈ o.collection := List.mem_of_find?_eq_some hf
    have hid : rec.ID = (newRecord (o.Config.getTopic event) mhash b).ID := by
      simpa using List.find?_some hf
    rw [← hid]
    exact countP_id_of_nodup o.collection hn rec hmem
  · obtain ⟨_, hcol, hfree⟩ := Collection.create_ok hc
    rw [hcol, List.countP_append, countP_id_of_free _ _ hfree]
    simp [List.countP_cons]

theorem sender_without_pass (h : Hybrid) (w : Relay) (closed : Bool) :
    (h.sender w [] closed).state.collection = h.collection := by
  unfold Hybrid.sender
  cases w.topics with
  | none => rfl
  | some t =>
    simp only []
    rw [Hybrid.range]
    cases h.channel <;> cases closed <;> rfl

/-- C1, amended: for every event name, payload and (well-formed) caller metadata, when a first
Outbox or Hybrid `send` with an empty key has returned success, the payload was hashed and the
envelope serialized, and a record under the id of that message, with its creation time set, is
in the store; in a store whose ids are distinct it is the only record under that id. The first
call left the cache as it was and either inserted nothing or appended one record whose id no
stored record had. A second Outbox call with identical arguments whose fetch does not fail
returns success, inserts nothing and leaves the store and the cache as they were. Between two
Hybrid calls the relay worker runs (any number of passes, in any world): it leaves the cache
alone, and without a pass it leaves the store alone; if a record under the id of the message is
still stored afterwards, the second call returns success, inserts nothing, hands nothing over and
leaves store, cache and channel as they were; if the worker has deleted it and the insert works,
the second call stores the record again and hands it over again, returning when the worker is
still receiving and never returning otherwise. -/
theorem unkeyed_resend_is_noop (env1 env2 : Env) (event : String) (message : Value)
    (metadata : Option Metadata) (hw : ∀ m, metadata = some m → (Value.map m).wf = true)
    (hnow : env1.now ≠ 0) (hget : env2.getErr = none) :
    (∀ o : Outbox, (o.send env1 event "" message metadata).outcome = .returned none →
      ((o.send env1 event "" message metadata).state.send env2 event "" message
          metadata).outcome = .returned none ∧
      ((o.send env1 event "" message metadata).state.send env2 event "" message
          metadata).inserted = none ∧
      ((o.send env1 event "" message metadata).state.send env2 event "" message
          metadata).state.collection = (o.send env1 event "" message metadata).state.collection ∧
      ((o.send env1 event "" message metadata).state.send env2 event "" message
          metadata).state.ec = (o.send env1 event "" message metadata).state.ec ∧
      (o.send env1 event "" message metadata).state.ec = o.ec ∧
      ((o.send env1 event "" message metadata).inserted = none →
        (o.send env1 event "" message metadata).state.collection = o.collection) ∧
      (∀ ob, (o.send env1 event "" message metadata).inserted = some ob →
        (o.send env1 event "" message metadata).state.collection = o.collection ++ [ob] ∧
        ∀ x ∈ o.collection, x.ID ≠ ob.ID) ∧
      ∃ mhash e b, Event.hash message = .ok mhash ∧
        (o.send env1 event "" message metadata).envelope = some e ∧ e.ToBytes = .ok b ∧
        (∃ rec ∈ ((o.send env1 event "" message metadata).state.send env2 event "" message
            metadata).state.collection,
          rec.ID = (newRecord (o.Config.getTopic event) mhash b).ID ∧
          rec.CreatedAt.IsZero = false) ∧
        ((o.collection.map (fun r => r.ID)).Nodup →
          ((o.send env1 event "" message metadata).state.send env2 event "" message
            metadata).state.collection.countP
              (fun r => r.ID == (newRecord (o.Config.getTopic event) mhash b).ID) = 1)) ∧
    (∀ h : Hybrid, (h.send env1 event "" message metadata).outcome = .returned none →
      (h.send env1 event "" message metadata).state.ec = h.ec ∧
      ((h.send env1 event "" message metadata).inserted = none →
        (h.send env1 event "" message metadata).state.collection = h.collection) ∧
      (∀ ob, (h.send env1 event "" message metadata).inserted = some ob →
        (h.send env1 event "" message metadata).state.collection = h.collection ++ [ob] ∧
        ∀ x ∈ h.collection, x.ID ≠ ob.ID) ∧
      ∃ mhash e b, Event.hash message = .ok mhash ∧
        (h.send env1 event "" message metadata).envelope = some e ∧ e.ToBytes = .ok b ∧
        (∃ rec ∈ (h.send env1 event "" message metadata).state.collection,
          rec.ID = (newRecord (h.Config.getTopic event) mhash b).ID ∧
          rec.CreatedAt.IsZero = false) ∧
        ((h.collection.map (fun r => r.ID)).Nodup →
          (h.send env1 event "" message metadata).state.collection.countP
            (fun r => r.ID == (newRecord (h.Config.getTopic event) mhash b).ID) = 1) ∧
        ∀ (w : Relay) (envs : List RelayEnv) (closed : Bool),
          ((h.send env1 event "" message metadata).state.sender w envs closed).state.ec = h.ec ∧
          (envs = [] →
            ((h.send env1 event "" message metadata).state.sender w envs closed).state.collection
              = (h.send env1 event "" message metadata).state.collection) ∧
          ((∃ x ∈ ((h.send env1 event "" message metadata).state.sender w envs
                closed).state.collection,
              x.ID = (newRecord (h.Config.getTopic event) mhash b).ID) →
            ((((h.send env1 event "" message metadata).state.sender w envs closed).state.send
              env2 event "" message metadata).outcome = .returned none ∧
            (((h.send env1 event "" message metadata).state.sender w envs closed).state.send
              env2 event "" message metadata).inserted = none ∧
            (((h.send env1 event "" message metadata).state.sender w envs closed).state.send
              env2 event "" message metadata).handed = none ∧
            (((h.send env1 event "" message metadata).state.sender w envs closed).state.send
              env2 event "" message metadata).state.collection
              = ((h.send env1 event "" message metadata).state.sender w envs
                  closed).state.collection ∧
            (((h.send env1 event "" message metadata).state.sender w envs closed).state.send
              env2 event "" message metadata).state.ec = h.ec ∧
            (((h.send env1 event "" message metadata).state.sender w envs closed).state.send
              env2 event "" message metadata).state.channel
              = ((h.send env1 event "" message metadata).state.sender w envs
                  closed).state.channel)) ∧
          ((∀ x ∈ ((h.send env1 event "" message metadata).state.sender w envs
                closed).state.collection,
              x.ID ≠ (newRecord (h.Config.getTopic event) mhash b).ID) →
            env2.createErr = none →
            ((((h.send env1 event "" message metadata).state.sender w envs closed).state.send
              env2 event "" message metadata).inserted
              = some { newRecord (h.Config.getTopic event) mhash b with CreatedAt := env2.now } ∧
            (((h.send env1 event "" message metadata).state.sender w envs closed).state.send
              env2 event "" message metadata).handed
              = some { newRecord (h.Config.getTopic event) mhash b with CreatedAt := env2.now } ∧
            (((h.send env1 event "" message metadata).state.sender w envs closed).state.send
              env2 event "" message metadata).state.collection
              = ((h.send env1 event "" message metadata).state.sender w envs
                  closed).state.collection
                ++ [{ newRecord (h.Config.getTopic event) mhash b with CreatedAt := env2.now }] ∧
            (((h.send env1 event "" message metadata).state.sender w envs closed).state.receiving
                = true →
              (((h.send env1 event "" message metadata).state.sender w envs closed).state.send
                env2 event "" message metadata).outcome = .returned none) ∧
            (((h.send env1 event "" message metadata).state.sender w envs closed).state.receiving
                = false →
              (((h.send env1 event "" message metadata).state.sender w envs closed).state.send
                env2 event "" message metadata).outcome = .blocked)))) := by
  refine ⟨?_, ?_⟩
  · intro o h1
    obtain ⟨h2, h3, _⟩ := outbox_resend o env1 env2 event message metadata hw hnow hget h1
    obtain ⟨h5, h6⟩ := outbox_send_inserted o env1 event "" message metadata
    obtain ⟨mhash, b, hm, hb, he, _, ⟨rec, hf, hz⟩, hcount⟩ :=
      outbox_send_unkeyed_stored o env1 event message metadata hnow h1
    rw [h2]
    refine ⟨rfl, rfl, rfl, rfl, h3, h5, h6, mhash, _, b, hm, he, hb, ?_, hcount⟩
    exact ⟨rec, List.mem_of_find?_eq_some hf, by simpa using List.find?_some hf, hz⟩
  · intro h h1
    obtain ⟨a1, a2, a3, _, _, _, _, a8⟩ := hybrid_send_outbox h env1 event "" message metadata
    have hs1 : (h.toOutbox.send env1 event "" message metadata).outcome = .returned none := by
      rw [a8] at h1
      split at h1
      · cases h1
      · exact h1
    obtain ⟨_, h3, _⟩ :=
      outbox_resend h.toOutbox env1 env2 event message metadata hw hnow hget hs1
    obtain ⟨h5, h6⟩ := outbox_send_inserted h.toOutbox env1 event "" message metadata
    obtain ⟨mhash, b, hm, hb, he, hcfg, ⟨rec, hf, hz⟩, hcount⟩ :=
      outbox_send_unkeyed_stored h.toOutbox env1 event message metadata hnow hs1
    have hc0 : h.toOutbox.Config = h.Config := rfl
    have hl0 : h.toOutbox.collection = h.collection := rfl
    have he0 : h.toOutbox.ec = h.ec := rfl
    rw [hc0] at hb he hcfg hf hcount
    rw [hl0] at hcount h5 h6
    rw [he0] at h3
    have hcol : (h.send env1 event "" message metadata).state.collection
        = (h.toOutbox.send env1 event "" message metadata).state.collection :=
      congrArg Outbox.collection a1
    have hec : (h.send env1 event "" message metadata).state.ec
        = (h.toOutbox.send env1 event "" message metadata).state.ec :=
      congrArg Outbox.ec a1
    have hcf : (h.send env1 event "" message metadata).state.Config
        = (h.toOutbox.send env1 event "" message metadata).state.Config :=
      congrArg Outbox.Config a1
    rw [← a2] at he
    rw [← a3, ← hcol] at h5 h6
    rw [← hcol] at hf hcount
    rw [← hec] at h3
    rw [← hcf] at hcfg
    refine ⟨h3, h5, h6, mhash, _, b, hm, he, hb,
      ⟨rec, List.mem_of_find?_eq_some hf, by simpa using List.find?_some hf, hz⟩, hcount, ?_⟩
    intro w envs closed
    obtain ⟨_, s2, s3⟩ :=
      sender_store (h.send env1 event "" message metadata).state w envs closed
    obtain ⟨b1, _, b3, _, _, b6, b7, b8⟩ := hybrid_send_outbox
      ((h.send env1 event "" message metadata).state.sender w envs closed).state
      env2 event "" message metadata
    have hagain := outbox_send_again
      ((h.send env1 event "" message metadata).state.sender w envs closed).state.toOutbox
      h.Config env2 event message metadata mhash b hw hm hb (s2.trans hcfg)
    rw [hagain] at b1 b3 b6 b8
    simp only [if_true] at b6
    have hproj : ∀ (x : Hybrid) (y : Outbox), x.toOutbox = y →
        x.collection = y.collection ∧ x.ec = y.ec := by
      intro x y hxy
      subst hxy
      exact ⟨rfl, rfl⟩
    refine ⟨s3.trans h3, ?_, ?_, ?_⟩
    · intro hnil
      rw [hnil]
      exact sender_without_pass _ w closed
    · intro hx
      have hfind := sender_find (h.send env1 event "" message metadata).state w envs closed
        _ hx
      rw [hf] at hfind
      have hfound := outbox_persist_found
        (o := ((h.send env1 event "" message metadata).state.sender w envs
          closed).state.toOutbox)
        (h.Config.getTopic event) mhash mhash false
        ⟨message, Assoc.set "hash" (.str mhash)
          (mergeOpt (h.Config.getMetadata (h.Config.getTopic event)).2.md metadata)⟩
        hget hfind hz
      rw [hfound] at b1 b3 b6 b8
      simp only [] at b1 b3 b6 b8
      rw [b6] at b7 b8
      obtain ⟨p1, p2⟩ := hproj _ _ b1
      refine ⟨?_, b3, b6, p1, ?_, ?_⟩
      · rw [b8]
        simp
      · rw [p2]
        exact s3.trans h3
      · rw [b7]
        simp
    · intro hfree hcreate
      have habsent := outbox_persist_absent
        ((h.send env1 event "" message metadata).state.sender w envs closed).state.toOutbox
        env2 (h.Config.getTopic event) mhash mhash
        ⟨message, Assoc.set "hash" (.str mhash)
          (mergeOpt (h.Config.getMetadata (h.Config.getTopic event)).2.md metadata)⟩ b
        hget hcreate hfree
      rw [habsent] at b1 b3 b6 b8
      simp only [] at b1 b3 b6 b8
      rw [b6] at b8
      obtain ⟨p1, _⟩ := hproj _ _ b1
      refine ⟨b3, b6, p1, ?_, ?_⟩
      · intro hr
        rw [b8]
        simp [hr]
      · intro hr
        rw [b8]
        simp [hr]

set_option maxRecDepth 1000000 in
/-- C1, witness: `Publish("test", "x", {a:1})` twice. On an Outbox with an empty store the second
call returns success and the store holds one record. On a Hybrid emitter with an empty store and
a receiving worker: when the worker has made no pass between the calls, the second call returns
success and inserts nothing; when the worker has relayed and deleted the record between the
calls, the second call inserts the record again and hands it over again, and the store holds one
record. -/
theorem unkeyed_resend_is_noop_witness :
    ((Outbox.send ⟨⟨[], []⟩, [], ⟨some [], "oc/"⟩⟩ (Env.working 5) "test" "" (.str "x")
      (some [("a", .int 1)])).state.send (Env.working 6) "test" "" (.str "x")
      (some [("a", .int 1)])).outcome = Outcome.returned none ∧
    ((Outbox.send ⟨⟨[], []⟩, [], ⟨some [], "oc/"⟩⟩ (Env.working 5) "test" "" (.str "x")
      (some [("a", .int 1)])).state.send (Env.working 6) "test" "" (.str "x")
      (some [("a", .int 1)])).state.collection.length = 1 ∧
    ((((Hybrid.mk ⟨[], []⟩ [] ⟨some [], "oc/"⟩ [] true).send (Env.working 5) "test" ""
      (.str "x") (some [("a", .int 1)])).state.sender ⟨"", some [], []⟩ [] false).state.send
      (Env.working 6) "test" "" (.str "x") (some [("a", .int 1)])).outcome
      = Outcome.returned none ∧
    ((((Hybrid.mk ⟨[], []⟩ [] ⟨some [], "oc/"⟩ [] true).send (Env.working 5) "test" ""
      (.str "x") (some [("a", .int 1)])).state.sender ⟨"", some [], []⟩ [] false).state.send
      (Env.working 6) "test" "" (.str "x") (some [("a", .int 1)])).inserted = none ∧
    ((((Hybrid.mk ⟨[], []⟩ [] ⟨some [], "oc/"⟩ [] true).send (Env.working 5) "test" ""
      (.str "x") (some [("a", .int 1)])).state.sender ⟨"", some [], []⟩
      [⟨.ok ⟨"mem", ""⟩, none, none, none⟩] false).state.send
      (Env.working 6) "test" "" (.str "x") (some [("a", .int 1)])).inserted.isSome = true ∧
    ((((Hybrid.mk ⟨[], []⟩ [] ⟨some [], "oc/"⟩ [] true).send (Env.working 5) "test" ""
      (.str "x") (some [("a", .int 1)])).state.sender ⟨"", some [], []⟩
      [⟨.ok ⟨"mem", ""⟩, none, none, none⟩] false).state.send
      (Env.working 6) "test" "" (.str "x") (some [("a", .int 1)])).handed
      = ((((Hybrid.mk ⟨[], []⟩ [] ⟨some [], "oc/"⟩ [] true).send (Env.working 5) "test" ""
      (.str "x") (some [("a", .int 1)])).state.sender ⟨"", some [], []⟩
      [⟨.ok ⟨"mem", ""⟩, none, none, none⟩] false).state.send
      (Env.working 6) "test" "" (.str "x") (some [("a", .int 1)])).inserted ∧
    ((((Hybrid.mk ⟨[], []⟩ [] ⟨some [], "oc/"⟩ [] true).send (Env.working 5) "test" ""
      (.str "x") (some [("a", .int 1)])).state.sender ⟨"", some [], []⟩
      [⟨.ok ⟨"mem", ""⟩, none, none, none⟩] false).state.send
      (Env.working 6) "test" "" (.str "x") (some [("a", .int 1)])).state.collection.length
      = 1 := by
  have t := unkeyed_resend_is_noop (Env.working 5) (Env.working 6) "test" (.str "x")
    (some [("a", .int 1)]) (by intro m hm; cases hm; decide) (by decide) rfl
  have ho := t.1 ⟨⟨[], []⟩, [], ⟨some [], "oc/"⟩⟩ (by decide)
  obtain ⟨_, _, _, mhash, e, b, _, _, _, hrec, _, hworker⟩ :=
    t.2 (Hybrid.mk ⟨[], []⟩ [] ⟨some [], "oc/"⟩ [] true) (by decide)
  obtain ⟨_, hnil, ha, _⟩ := hworker ⟨"", some [], []⟩ [] false
  obtain ⟨_, _, _, hb⟩ := hworker ⟨"", some [], []⟩ [⟨.ok ⟨"mem", ""⟩, none, none, none⟩] false
  have hgone : (((Hybrid.mk ⟨[], []⟩ [] ⟨some [], "oc/"⟩ [] true).send (Env.working 5) "test" ""
      (.str "x") (some [("a", .int 1)])).state.sender ⟨"", some [], []⟩
      [⟨.ok ⟨"mem", ""⟩, none, none, none⟩] false).state.collection = [] := by
    decide
  have ha2 := ha (by
    obtain ⟨rec, hm, hid, _⟩ := hrec
    rw [hnil rfl]
    exact ⟨rec, hm, hid⟩)
  have hb2 := hb (by
    intro x hx
    rw [hgone] at hx
    cases hx) rfl
  refine ⟨ho.1, ?_, ha2.1, ha2.2.1, ?_, hb2.2.1.trans hb2.1.symm, ?_⟩
  · rw [ho.2.2.1]
    decide
  · rw [hb2.1]
    rfl
  · rw [hb2.2.2.1, hgone]
    rfl

end Event

/-! # Facts about `config.Load` -/

namespace Config

open Event

/-! ## Keys in lower and upper case -/

theorem toNat_ofNat_add (n : Nat) (h1 : 65 ≤ n) (h2 : n ≤ 90) :
    (Char.ofNat (n + 32)).toNat = n + 32 := by
  interval_cases n <;> rfl

theorem toNat_ofNat_sub (n : Nat) (h1 : 97 ≤ n) (h2 : n ≤ 122) :
    (Char.ofNat (n - 32)).toNat = n - 32 := by
  interval_cases n <;> rfl

theorem lowerChar_idem (c : Char) : lowerChar (lowerChar c) = lowerChar c := by
  unfold lowerChar
  by_cases h : 65 ≤ c.toNat ∧ c.toNat ≤ 90
  · simp only [h, and_self, if_true]
    rw [toNat_ofNat_add _ h.1 h.2]
    have : ¬ (65 ≤ c.toNat + 32 ∧ c.toNat + 32 ≤ 90) := by omega
    simp only [this, if_false]
  · simp only [h, if_false]

theorem lowerChar_ne_dot (c : Char) (h : c ≠ Char.ofNat 46) : lowerChar c ≠ Char.ofNat 46 := by
  unfold lowerChar
  by_cases hc : 65 ≤ c.toNat ∧ c.toNat ≤ 90
  · simp only [hc, and_self, if_true]
    intro he
    have h2 := congrArg Char.toNat he
    rw [toNat_ofNat_add _ hc.1 hc.2] at h2
    have h3 : (Char.ofNat 46).toNat = 46 := rfl
    omega
  · simp only [hc, if_false]
    exact h

theorem upperChar_lowerChar (c : Char) : upperChar (upperChar (lowerChar c)) = upperChar c := by
  unfold upperChar lowerChar
  by_cases h : 65 ≤ c.toNat ∧ c.toNat ≤ 90
  · have h1 : ¬ (97 ≤ c.toNat ∧ c.toNat ≤ 122) := by omega
    simp only [h, and_self, if_true, h1, if_false]
    rw [toNat_ofNat_add _ h.1 h.2]
    have h2 : 97 ≤ c.toNat + 32 ∧ c.toNat + 32 ≤ 122 := by omega
    simp only [h2, and_self, if_true, Nat.add_sub_cancel, Char.ofNat_toNat, h1, if_false]
  · simp only [h, if_false]
    by_cases h1 : 97 ≤ c.toNat ∧ c.toNat ≤ 122
    · simp only [h1, and_self, if_true]
      rw [toNat_ofNat_sub _ h1.1 h1.2]
      have h2 : ¬ (97 ≤ c.toNat - 32 ∧ c.toNat - 32 ≤ 122) := by omega
      simp only [h2, if_false]
    · simp only [h1, if_false]

theorem toLower_idem (s : String) : toLower (toLower s) = toLower s := by
  unfold toLower
  simp only [List.map_map]
  congr 1
  apply List.map_congr_left
  intro c _
  exact lowerChar_idem c

theorem toUpper_toLower (s : String) : toUpper (toUpper (toLower s)) = toUpper s := by
  unfold toUpper toLower
  simp only [List.map_map]
  congr 1
  apply List.map_congr_left
  intro c _
  exact upperChar_lowerChar c

theorem plainKey_toLower (k : String) (h : plainKey k = true) : plainKey (toLower k) = true := by
  unfold plainKey toLower at *
  simp only [Bool.not_eq_true', List.contains_eq_any_beq, List.any_eq_false, beq_iff_eq,
    List.mem_map, forall_exists_index, and_imp, forall_apply_eq_imp_iff₂] at h ⊢
  intro c hc he
  exact lowerChar_ne_dot c (fun hcd => h c hc hcd.symm) he.symm

theorem splitChars_plain (sep : Char) (cs : List Char) (h : sep ∉ cs) :
    splitChars sep cs = [cs] := by
  induction cs with
  | nil => rfl
  | cons c cs ih =>
    simp only [List.mem_cons, not_or] at h
    rw [splitChars, if_neg (fun hc => h.1 hc.symm), ih h.2]

theorem splitKey_plain (k : String) (h : plainKey k = true) : splitKey k = [k] := by
  unfold splitKey
  rw [splitChars_plain]
  · rfl
  · unfold plainKey at h
    simpa using h

theorem splitKey_toLower (k : String) (h : plainKey k = true) :
    splitKey (toLower k) = [toLower k] :=
  splitKey_plain _ (plainKey_toLower k h)

/-! ## Keys without the delimiter -/

theorem searchMap_single (k : String) (m : Settings) :
    searchMap [k] m = (Assoc.get k m).getD .null := by
  unfold searchMap
  cases Assoc.get k m <;> simp

theorem joinKey_single (k : String) : joinKey [k] = k := by
  simp [joinKey, String.intercalate, String.intercalate.go]

theorem searchMapWithPathPrefixes_single (k : String) (m : Settings) :
    searchMapWithPathPrefixes 1 m [k] = (Assoc.get (toLower k) m).getD .null := by
  simp only [searchMapWithPathPrefixes, List.isEmpty_cons, Bool.false_eq_true, if_false,
    List.length_singleton, List.range', List.reverse_singleton, searchPrefixes,
    List.take_succ_cons, List.take_zero, joinKey_single]
  cases Assoc.get (toLower k) m <;> simp

theorem deepSet_single (k : String) (value : Value) (m : Settings) :
    deepSet [k] value m = Assoc.set (toLower k) value m := by
  simp [deepSet]

theorem set_plain (v : Viper) (k : String) (value : Value) (h : plainKey k = true) :
    v.Set k value
      = { v with override := Assoc.set (toLower k) (insensValue value) v.override } := by
  unfold Viper.Set
  rw [splitKey_toLower k h, deepSet_single, toLower_idem]

theorem setDefault_plain (v : Viper) (k : String) (value : Value) (h : plainKey k = true) :
    v.SetDefault k value
      = { v with defaults := Assoc.set (toLower k) (insensValue value) v.defaults } := by
  unfold Viper.SetDefault
  rw [splitKey_toLower k h, deepSet_single, toLower_idem]

theorem find_plain (v : Viper) (environ : List (String × String)) (k : String)
    (h : plainKey k = true) :
    v.find environ (toLower k) =
      if !((Assoc.get (toLower k) v.override).getD .null).isNull then
        (Assoc.get (toLower k) v.override).getD .null
      else
        match (match Assoc.get (toLower k) v.env with
          | some envkey => getEnv environ envkey
          | none => none) with
        | some val => .str val
        | none =>
          if !((Assoc.get (toLower k) v.config).getD .null).isNull then
            (Assoc.get (toLower k) v.config).getD .null
          else if !((Assoc.get (toLower k) v.kvstore).getD .null).isNull then
            (Assoc.get (toLower k) v.kvstore).getD .null
          else (Assoc.get (toLower k) v.defaults).getD .null := by
  unfold Viper.find
  simp only [splitKey_toLower k h, List.length_singleton, Nat.lt_irrefl, decide_False,
    Bool.false_and, Bool.false_eq_true, if_false, searchMap_single,
    searchMapWithPathPrefixes_single, toLower_idem]

/-! ## Lower-case keys of a map -/

theorem erase_of_not_mem (k : String) (m : Settings) (h : k ∉ m.map Prod.fst) :
    Assoc.erase k m = m := by
  induction m with
  | nil => rfl
  | cons e m ih =>
    obtain ⟨k', v'⟩ := e
    simp only [List.map_cons, List.mem_cons, not_or] at h
    simp [Assoc.erase, Ne.symm h.1, ih h.2]

theorem insensMap_of_nodup (m : Settings) (nd : (m.map (fun p => toLower p.1)).Nodup) :
    insensMap m = m.map (fun p => (toLower p.1, insensValue p.2)) := by
  induction m with
  | nil => simp [insensMap]
  | cons e m ih =>
    obtain ⟨k, v⟩ := e
    simp only [List.map_cons, List.nodup_cons] at nd
    rw [insensMap, ih nd.2, erase_of_not_mem]
    · rfl
    · simpa [List.map_map, Function.comp_def] using nd.1

theorem insensValue_isNull (v : Value) : (insensValue v).isNull = v.isNull := by
  cases v <;> simp [insensValue, Value.isNull]

theorem regular_map (m : Settings) (h : regularValue (.map m) = true) :
    (m.map (fun p => toLower p.1)).Nodup ∧ regularFields m = true := by
  simp only [regularValue, Bool.and_eq_true, decide_eq_true_eq] at h
  exact ⟨h.1.1, h.2⟩

theorem regular_of_mem (m : Settings) (h : regularFields m = true) :
    ∀ p ∈ m, regularValue p.2 = true := by
  induction m with
  | nil => intro p hp; simp at hp
  | cons e m ih =>
    obtain ⟨k, v⟩ := e
    have hw : regularValue v = true ∧ regularFields m = true := by
      simpa [regularFields] using h
    intro p hp
    rcases List.mem_cons.1 hp with hp | hp
    · rw [hp]
      exact hw.1
    · exact ih hw.2 p hp

mutual
theorem insensValue_idem : (v : Value) → regularValue v = true →
    insensValue (insensValue v) = insensValue v
  | .null, _ => rfl
  | .bool _, _ => rfl
  | .int _, _ => rfl
  | .str _, _ => rfl
  | .list _, _ => rfl
  | .chan, _ => rfl
  | .map m, h => by
    obtain ⟨nd, hf⟩ := regular_map m h
    have hall := insensFields_idem m hf
    have nd2 : ((m.map (fun p => (toLower p.1, insensValue p.2))).map
        (fun p => toLower p.1)).Nodup := by
      simpa [List.map_map, Function.comp_def, toLower_idem] using nd
    simp only [insensValue]
    rw [insensMap_of_nodup m nd, insensMap_of_nodup _ nd2, List.map_map]
    congr 1
    apply List.map_congr_left
    intro p hp
    simp only [Function.comp_apply, toLower_idem, hall p hp]
theorem insensFields_idem : (m : List (String × Value)) → regularFields m = true →
    ∀ p ∈ m, insensValue (insensValue p.2) = insensValue p.2
  | [], _ => fun p hp => by simp at hp
  | (k, v) :: rest, h => by
    have hw : regularValue v = true ∧ regularFields rest = true := by
      simpa [regularFields] using h
    intro p hp
    rcases List.mem_cons.1 hp with hp | hp
    · rw [hp]
      exact insensValue_idem v hw.1
    · exact insensFields_idem rest hw.2 p hp
end

/-- The lookup of a lower-case key in the lower-cased copy of a map whose keys differ in more
than case. -/
theorem insensMap_get (m : Settings) (nd : (m.map (fun p => toLower p.1)).Nodup)
    (k : String) (v : Value) (h : (k, v) ∈ m) :
    Assoc.get (toLower k) (insensMap m) = some (insensValue v) := by
  rw [insensMap_of_nodup m nd]
  apply Assoc.get_of_mem_of_nodup
  · simpa [List.map_map, Function.comp_def] using nd
  · exact List.mem_map.2 ⟨(k, v), h, rfl⟩

theorem insensMap_get_some (m : Settings) (nd : (m.map (fun p => toLower p.1)).Nodup)
    (lk : String) (x : Value) (h : Assoc.get lk (insensMap m) = some x) :
    ∃ k v, (k, v) ∈ m ∧ toLower k = lk ∧ x = insensValue v := by
  rw [insensMap_of_nodup m nd] at h
  obtain ⟨p, hp, he⟩ := List.mem_map.1 (Assoc.mem_of_get h)
  simp only [Prod.mk.injEq] at he
  exact ⟨p.1, p.2, hp, he.1, he.2.symm⟩

/-! ## The two loops of `Load` -/

theorem econf_find (econf : Viper) (environ : List (String × String)) (k name : String)
    (h : plainKey k = true) (h1 : econf.override = []) (h2 : econf.config = [])
    (h3 : econf.kvstore = []) (h4 : econf.defaults = [])
    (he : Assoc.get (toLower k) econf.env = some name) :
    econf.find environ (toLower k)
      = (match getEnv environ name with
        | some val => .str val
        | none => .null) := by
  rw [find_plain _ _ _ h, h1, h2, h3, h4, he]
  cases hg : getEnv environ name <;> simp [hg, Assoc.get, Value.isNull]

theorem bindDefaults_get (environ : List (String × String)) (lk : String)
    (defs : List (String × Value)) :
    (∀ p ∈ defs, plainKey p.1 = true) → (defs.map (fun p => toLower p.1)).Nodup →
    ∀ econf config : Viper, econf.override = [] → econf.config = [] → econf.kvstore = [] →
      econf.defaults = [] →
      (bindDefaults environ defs (econf, config)).2.env = config.env ∧
      (bindDefaults environ defs (econf, config)).2.config = config.config ∧
      (bindDefaults environ defs (econf, config)).2.kvstore = config.kvstore ∧
      Assoc.get lk (bindDefaults environ defs (econf, config)).2.defaults
        = (match Assoc.get lk (defs.map (fun p => (toLower p.1, insensValue p.2))) with
          | some d => some d
          | none => Assoc.get lk config.defaults) ∧
      Assoc.get lk (bindDefaults environ defs (econf, config)).2.override
        = (match Assoc.get lk (defs.map (fun p => (toLower p.1, insensValue p.2))) with
          | some _ =>
            (match getEnv environ (toUpper (toUpper lk)) with
            | some val => some (.str val)
            | none => Assoc.get lk config.override)
          | none => Assoc.get lk config.override) := by
  induction defs with
  | nil => intro _ _ econf config _ _ _ _; simp [bindDefaults, Assoc.get]
  | cons e rest ih =>
    intro hplain nd econf config h1 h2 h3 h4
    obtain ⟨k', d'⟩ := e
    simp only [List.map_cons, List.nodup_cons] at nd
    have hp : plainKey k' = true := hplain (k', d') (List.mem_cons_self _ _)
    have hfind := econf_find (econf.BindEnv k') environ k' (toUpper (toUpper (toLower k'))) hp
      h1 h2 h3 h4 (Assoc.get_set_self _ _ _)
    have hc2 : (if (econf.BindEnv k').IsSet environ k' = true then
          (config.SetDefault k' d').Set k' ((econf.BindEnv k').Get environ k')
        else config.SetDefault k' d')
        = (match getEnv environ (toUpper (toUpper (toLower k'))) with
          | some val =>
            { config with
              defaults := Assoc.set (toLower k') (insensValue d') config.defaults,
              override := Assoc.set (toLower k') (.str val) config.override }
          | none =>
            { config with
              defaults := Assoc.set (toLower k') (insensValue d') config.defaults }) := by
      unfold Viper.IsSet Viper.Get
      rw [hfind, setDefault_plain _ _ _ hp]
      cases getEnv environ (toUpper (toUpper (toLower k'))) with
      | none => simp [Value.isNull]
      | some val => simp [Value.isNull, set_plain _ _ _ hp, insensValue]
    obtain ⟨i1, i2, i3, i4, i5⟩ := ih (fun p hm => hplain p (List.mem_cons_of_mem _ hm)) nd.2
      (econf.BindEnv k')
      (if (econf.BindEnv k').IsSet environ k' = true then
          (config.SetDefault k' d').Set k' ((econf.BindEnv k').Get environ k')
        else config.SetDefault k' d') h1 h2 h3 h4
    rw [bindDefaults, i1, i2, i3, i4, i5, hc2]
    by_cases hk : toLower k' = lk
    · subst hk
      have hr : Assoc.get (toLower k') (rest.map (fun p => (toLower p.1, insensValue p.2)))
          = none := by
        apply Assoc.get_eq_none_of_not_mem
        simpa [List.map_map, Function.comp_def] using nd.1
      simp only [hr, Assoc.get, if_true]
      cases getEnv environ (toUpper (toUpper (toLower k'))) <;> simp [Assoc.get_set_self]
    · have hk' : lk ≠ toLower k' := fun h => hk h.symm
      simp only [Assoc.get, hk, if_false]
      cases getEnv environ (toUpper (toUpper (toLower k'))) <;>
        cases Assoc.get lk (rest.map (fun p => (toLower p.1, insensValue p.2))) <;>
        simp [Assoc.get_set_ne hk']

theorem applySource_get (environ : List (String × String)) (aconf : Viper) (lk : String)
    (defs : List (String × Value)) :
    (∀ p ∈ defs, plainKey p.1 = true) →
    ∀ config : Viper,
      (applySource environ aconf defs config).env = config.env ∧
      (applySource environ aconf defs config).config = config.config ∧
      (applySource environ aconf defs config).kvstore = config.kvstore ∧
      (applySource environ aconf defs config).defaults = config.defaults ∧
      Assoc.get lk (applySource environ aconf defs config).override
        = (match Assoc.get lk (defs.map (fun p => (toLower p.1, insensValue p.2))) with
          | some _ =>
            if (aconf.find environ lk).isNull = true then Assoc.get lk config.override
            else some (insensValue (aconf.find environ lk))
          | none => Assoc.get lk config.override) := by
  induction defs with
  | nil => intro _ config; simp [applySource, Assoc.get]
  | cons e rest ih =>
    intro hplain config
    obtain ⟨k', d'⟩ := e
    have hp : plainKey k' = true := hplain (k', d') (List.mem_cons_self _ _)
    have hc2 : (if aconf.IsSet environ k' = true then config.Set k' (aconf.Get environ k')
        else config)
        = (if (aconf.find environ (toLower k')).isNull = true then config
          else { config with
            override := (Assoc.set (toLower k') (insensValue (aconf.find environ (toLower k')))
              config.override) }) := by
      unfold Viper.IsSet Viper.Get
      rw [set_plain _ _ _ hp]
      cases (aconf.find environ (toLower k')).isNull <;> simp
    obtain ⟨i1, i2, i3, i4, i5⟩ := ih (fun p hm => hplain p (List.mem_cons_of_mem _ hm))
      (if aconf.IsSet environ k' = true then config.Set k' (aconf.Get environ k') else config)
    rw [applySource, i1, i2, i3, i4, i5, hc2]
    by_cases hk : toLower k' = lk
    · subst hk
      simp only [List.map_cons, Assoc.get, if_true]
      cases hn : (aconf.find environ (toLower k')).isNull <;>
        cases Assoc.get (toLower k') (rest.map (fun p => (toLower p.1, insensValue p.2))) <;>
        simp [Assoc.get_set_self]
    · have hk' : lk ≠ toLower k' := fun h => hk h.symm
      simp only [List.map_cons, Assoc.get, hk, if_false]
      cases hn : (aconf.find environ (toLower k')).isNull <;>
        cases Assoc.get lk (rest.map (fun p => (toLower p.1, insensValue p.2))) <;>
        simp [Assoc.get_set_ne hk']

theorem null_of_isNull (x : Value) (h : x.isNull = true) : x = .null := by
  cases x <;> simp [Value.isNull] at h ⊢

theorem sourced_find (u : URL) (settings : Settings) (environ : List (String × String))
    (k : String) (h : plainKey k = true) :
    (sourced u settings).find environ (toLower k)
      = (Assoc.get (toLower k) (insensMap settings)).getD .null := by
  rw [find_plain _ _ _ h]
  unfold sourced
  by_cases hs : u.Scheme = "file"
  · simp only [hs, if_true, Viper.New, Assoc.get, Option.getD_none]
    generalize (Assoc.get (toLower k) (insensMap settings)).getD .null = x
    cases hn : x.isNull
    · simp [hn, Value.isNull]
    · rw [null_of_isNull x hn]
      simp [Value.isNull]
  · simp only [hs, if_false, Viper.New, Assoc.get, Option.getD_none]
    generalize (Assoc.get (toLower k) (insensMap settings)).getD .null = x
    cases hn : x.isNull
    · simp [hn, Value.isNull]
    · rw [null_of_isNull x hn]
      simp [Value.isNull]

/-- What the getter of `Load` shows for a key without the delimiter: the value given with `Set`
when it is not nil, otherwise the default. -/
theorem getter_get (g : Viper) (environ : List (String × String)) (k : String)
    (h : plainKey k = true) (h1 : g.env = []) (h2 : g.config = []) (h3 : g.kvstore = []) :
    g.find environ (toLower k)
      = (if ((Assoc.get (toLower k) g.override).getD .null).isNull = true then
          (Assoc.get (toLower k) g.defaults).getD .null
        else (Assoc.get (toLower k) g.override).getD .null) := by
  rw [find_plain _ _ _ h, h1, h2, h3]
  cases ((Assoc.get (toLower k) g.override).getD .null).isNull <;>
    simp [Assoc.get, Value.isNull]

/-! ## The layers the getter shows -/

theorem getEnv_of_set (environ : List (String × String)) (name val : String)
    (h : Assoc.get name environ = some val) (hv : val ≠ "") : getEnv environ name = some val := by
  simp [getEnv, h, hv]

theorem getEnv_of_unset (environ : List (String × String)) (name : String)
    (h : Assoc.get name environ = none ∨ Assoc.get name environ = some "") :
    getEnv environ name = none := by
  rcases h with h | h <;> simp [getEnv, h]

theorem defs_get (defs : List (String × Value)) (nd : (defs.map (fun p => toLower p.1)).Nodup)
    (k : String) (d : Value) (h : (k, d) ∈ defs) :
    Assoc.get (toLower k) (defs.map (fun p => (toLower p.1, insensValue p.2)))
      = some (insensValue d) := by
  apply Assoc.get_of_mem_of_nodup
  · simpa [List.map_map, Function.comp_def] using nd
  · exact List.mem_map.2 ⟨(k, d), h, rfl⟩

theorem defs_get_none (defs : List (String × Value)) (q : String)
    (h : ∀ p ∈ defs, toLower p.1 ≠ toLower q) :
    Assoc.get (toLower q) (defs.map (fun p => (toLower p.1, insensValue p.2))) = none := by
  apply Assoc.get_eq_none_of_not_mem
  simp only [List.map_map, List.mem_map, Function.comp_apply, not_exists, not_and]
  intro p hp he
  exact h p hp he

/-- The getter after the first loop of `Load`: environment over defaults. -/
theorem environment_layers (environ environ' : List (String × String))
    (defs : List (String × Value)) (hplain : ∀ p ∈ defs, plainKey p.1 = true)
    (nd : (defs.map (fun p => toLower p.1)).Nodup) :
    (∀ k d q, (k, d) ∈ defs → toLower q = toLower k →
      (∀ val, Assoc.get (toUpper k) environ = some val → val ≠ "" →
        (bindDefaults environ defs (Viper.New, Viper.New)).2.Get environ' q = .str val) ∧
      (Assoc.get (toUpper k) environ = none ∨ Assoc.get (toUpper k) environ = some "" →
        (bindDefaults environ defs (Viper.New, Viper.New)).2.Get environ' q = insensValue d)) ∧
    (∀ q, plainKey q = true → (∀ p ∈ defs, toLower p.1 ≠ toLower q) →
      (bindDefaults environ defs (Viper.New, Viper.New)).2.Get environ' q = .null) := by
  refine ⟨fun k d q hm hq => ?_, fun q hq hno => ?_⟩
  · have hk : plainKey k = true := hplain (k, d) hm
    obtain ⟨b1, b2, b3, b4, b5⟩ := bindDefaults_get environ (toLower k) defs hplain nd
      Viper.New Viper.New rfl rfl rfl rfl
    rw [defs_get defs nd k d hm] at b4 b5
    simp only [toUpper_toLower] at b5
    have hg := getter_get (bindDefaults environ defs (Viper.New, Viper.New)).2 environ' k hk
      b1 b2 b3
    unfold Viper.Get
    rw [hq, hg, b4, b5]
    refine ⟨fun val hv hne => ?_, fun hu => ?_⟩
    · rw [getEnv_of_set environ _ val hv hne]
      simp [Value.isNull]
    · rw [getEnv_of_unset environ _ hu]
      simp [Viper.New, Assoc.get, Value.isNull]
  · obtain ⟨b1, b2, b3, b4, b5⟩ := bindDefaults_get environ (toLower q) defs hplain nd
      Viper.New Viper.New rfl rfl rfl rfl
    rw [defs_get_none defs q hno] at b4 b5
    have hg := getter_get (bindDefaults environ defs (Viper.New, Viper.New)).2 environ' q hq
      b1 b2 b3
    unfold Viper.Get
    rw [hg, b4, b5]
    simp [Viper.New, Assoc.get, Value.isNull]

/-- The getter after the second loop of `Load`: source over environment over defaults. -/
theorem source_layers (environ environ' : List (String × String))
    (defs : List (String × Value)) (hplain : ∀ p ∈ defs, plainKey p.1 = true)
    (nd : (defs.map (fun p => toLower p.1)).Nodup) (u : URL) (settings : Settings)
    (hs : regularValue (.map settings) = true) :
    (∀ k d q, (k, d) ∈ defs → toLower q = toLower k →
      (∀ k' v, (k', v) ∈ settings → toLower k' = toLower k → v.isNull = false →
        (applySource environ (sourced u settings) defs
          (bindDefaults environ defs (Viper.New, Viper.New)).2).Get environ' q
          = insensValue v) ∧
      ((∀ k' v, (k', v) ∈ settings → toLower k' = toLower k → v.isNull = true) →
        (∀ val, Assoc.get (toUpper k) environ = some val → val ≠ "" →
          (applySource environ (sourced u settings) defs
            (bindDefaults environ defs (Viper.New, Viper.New)).2).Get environ' q
            = .str val) ∧
        (Assoc.get (toUpper k) environ = none ∨ Assoc.get (toUpper k) environ = some "" →
          (applySource environ (sourced u settings) defs
            (bindDefaults environ defs (Viper.New, Viper.New)).2).Get environ' q
            = insensValue d))) ∧
    (∀ q, plainKey q = true → (∀ p ∈ defs, toLower p.1 ≠ toLower q) →
      (applySource environ (sourced u settings) defs
        (bindDefaults environ defs (Viper.New, Viper.New)).2).Get environ' q = .null) := by
  obtain ⟨ndS, hfS⟩ := regular_map settings hs
  refine ⟨fun k d q hm hq => ?_, fun q hq hno => ?_⟩
  · have hk : plainKey k = true := hplain (k, d) hm
    obtain ⟨b1, b2, b3, b4, b5⟩ := bindDefaults_get environ (toLower k) defs hplain nd
      Viper.New Viper.New rfl rfl rfl rfl
    obtain ⟨a1, a2, a3, a4, a5⟩ := applySource_get environ (sourced u settings) (toLower k)
      defs hplain (bindDefaults environ defs (Viper.New, Viper.New)).2
    rw [defs_get defs nd k d hm] at b4 b5 a5
    simp only [toUpper_toLower] at b5
    simp only [sourced_find u settings environ k hk] at a5
    have hg := getter_get (applySource environ (sourced u settings) defs
      (bindDefaults environ defs (Viper.New, Viper.New)).2) environ' k hk
      (a1.trans b1) (a2.trans b2) (a3.trans b3)
    unfold Viper.Get
    rw [hq, hg, a4, b4, a5, b5]
    refine ⟨fun k' v hv hkk hn => ?_, fun hall => ⟨fun val hv hne => ?_, fun hu => ?_⟩⟩
    · have hget := insensMap_get settings ndS k' v hv
      rw [hkk] at hget
      have hidem := insensValue_idem v (regular_of_mem settings hfS (k', v) hv)
      simp [hget, insensValue_isNull, hn, hidem]
    · have hnull : ((Assoc.get (toLower k) (insensMap settings)).getD .null).isNull = true := by
        cases hget : Assoc.get (toLower k) (insensMap settings) with
        | none => rfl
        | some x =>
          obtain ⟨k', v, hv, hkk, hx⟩ := insensMap_get_some settings ndS _ x hget
          simp only [Option.getD_some]
          rw [hx, insensValue_isNull]
          exact hall k' v hv hkk
      rw [getEnv_of_set environ _ val hv hne]
      simp only [hnull, if_true]
      simp [Value.isNull]
    · have hnull : ((Assoc.get (toLower k) (insensMap settings)).getD .null).isNull = true := by
        cases hget : Assoc.get (toLower k) (insensMap settings) with
        | none => rfl
        | some x =>
          obtain ⟨k', v, hv, hkk, hx⟩ := insensMap_get_some settings ndS _ x hget
          simp only [Option.getD_some]
          rw [hx, insensValue_isNull]
          exact hall k' v hv hkk
      rw [getEnv_of_unset environ _ hu]
      simp only [hnull, if_true]
      simp [Viper.New, Assoc.get, Value.isNull]
  · obtain ⟨b1, b2, b3, b4, b5⟩ := bindDefaults_get environ (toLower q) defs hplain nd
      Viper.New Viper.New rfl rfl rfl rfl
    obtain ⟨a1, a2, a3, a4, a5⟩ := applySource_get environ (sourced u settings) (toLower q)
      defs hplain (bindDefaults environ defs (Viper.New, Viper.New)).2
    rw [defs_get_none defs q hno] at b4 b5 a5
    have hg := getter_get (applySource environ (sourced u settings) defs
      (bindDefaults environ defs (Viper.New, Viper.New)).2) environ' q hq
      (a1.trans b1) (a2.trans b2) (a3.trans b3)
    unfold Viper.Get
    rw [hg, a4, b4, a5, b5]
    simp [Viper.New, Assoc.get, Value.isNull]

/-! ## `Load` -/

set_option maxRecDepth 100000 in
/-- C17, counterexample: with `def = {"Env": "dev"}` the getter yields `"dev"` for `"env"`, which
is not a key of `def`; with `def = {"a.b": 1}` it yields the map `{"b": 1}` for `"a"`, which is
not a key of `def` either; and with `def = {"port": "8080"}` and the variable `PORT` set to the
empty string it yields `"8080"`, not the variable's value. No address is given in any of the
three. -/
theorem getter_shows_keys_that_are_not_in_def :
    (Assoc.get "env" [("Env", Value.str "dev")] = none ∧
      ∃ g, Load ⟨[], fun _ => .error .notFound, fun _ => .error .notFound,
          fun _ _ _ => .error .notFound⟩ [("Env", .str "dev")] "" = .ok g ∧
        g.Get [] "env" = .str "dev") ∧
    (Assoc.get "a" [("a.b", Value.int 1)] = none ∧
      ∃ g, Load ⟨[], fun _ => .error .notFound, fun _ => .error .notFound,
          fun _ _ _ => .error .notFound⟩ [("a.b", .int 1)] "" = .ok g ∧
        g.Get [] "a" = .map [("b", .int 1)]) ∧
    (Assoc.get "PORT" [("PORT", "")] = some "" ∧
      ∃ g, Load ⟨[("PORT", "")], fun _ => .error .notFound, fun _ => .error .notFound,
          fun _ _ _ => .error .notFound⟩ [("port", .str "8080")] "" = .ok g ∧
        g.Get [] "port" = .str "8080") :=
  ⟨⟨rfl, _, rfl, rfl⟩, ⟨rfl, _, rfl, rfl⟩, ⟨rfl, _, rfl, rfl⟩⟩

/-- C17, amended: `config.Load` layers its sources over the keys of the defaults map, which the
getter compares without regard to case. Let the keys of `def` be free of the delimiter `.`, and
let the keys of every map in `def` be ASCII and differ in more than case. Without an address
`Load` returns a getter; with an address that parses and a source that is read it returns a
getter; an address whose scheme is not file, consul or etcd makes it return the error
"Unsupported config scheme", and an address that does not parse or a source that cannot be read
makes it return that error. The getter, whatever the environment when it is asked, yields for a
key `q` equal up to case to a key `k` of `def`: the source's value (keys of nested maps in lower
case) when the source, its keys ASCII and different in more than case, holds a value that is not
nil under a key equal to `k` up to case; otherwise the value of the variable named by `k` in
upper case, as a string, when `Load` found it set and not empty; otherwise `def[k]` (keys of
nested maps in lower case). For an ASCII key `q` free of the delimiter that equals no key of
`def` up to case it yields nil, whatever the source and the environment hold. -/
theorem load_layers (world : World) (defs : List (String × Value)) (urlStr : String)
    (hplain : ∀ p ∈ defs, plainKey p.1 = true) (hdefs : regularValue (.map defs) = true) :
    (configURL world urlStr = "" →
      ∃ g, Load world defs urlStr = .ok g ∧ ∀ environ' : List (String × String),
        (∀ k d q, (k, d) ∈ defs → toLower q = toLower k →
          (∀ val, Assoc.get (toUpper k) world.environ = some val → val ≠ "" →
            g.Get environ' q = .str val) ∧
          (Assoc.get (toUpper k) world.environ = none ∨
              Assoc.get (toUpper k) world.environ = some "" →
            g.Get environ' q = insensValue d)) ∧
        (∀ q, plainKey q = true → isASCII q = true →
          (∀ p ∈ defs, toLower p.1 ≠ toLower q) → g.Get environ' q = .null)) ∧
    (configURL world urlStr ≠ "" → ∀ u, world.parse (configURL world urlStr) = .ok u →
      (∀ settings, readSource world (configURL world urlStr) u = .ok settings →
        ∃ g, Load world defs urlStr = .ok g ∧
          (regularValue (.map settings) = true → ∀ environ' : List (String × String),
            (∀ k d q, (k, d) ∈ defs → toLower q = toLower k →
              (∀ k' v, (k', v) ∈ settings → toLower k' = toLower k → v.isNull = false →
                g.Get environ' q = insensValue v) ∧
              ((∀ k' v, (k', v) ∈ settings → toLower k' = toLower k → v.isNull = true) →
                (∀ val, Assoc.get (toUpper k) world.environ = some val → val ≠ "" →
                  g.Get environ' q = .str val) ∧
                (Assoc.get (toUpper k) world.environ = none ∨
                    Assoc.get (toUpper k) world.environ = some "" →
                  g.Get environ' q = insensValue d))) ∧
            (∀ q, plainKey q = true → isASCII q = true →
              (∀ p ∈ defs, toLower p.1 ≠ toLower q) → g.Get environ' q = .null))) ∧
      (u.Scheme ≠ "file" → u.Scheme ≠ "consul" → u.Scheme ≠ "etcd" →
        Load world defs urlStr = .error (.external "Unsupported config scheme")) ∧
      (∀ err, readSource world (configURL world urlStr) u = .error err →
        Load world defs urlStr = .error err)) ∧
    (configURL world urlStr ≠ "" → ∀ err, world.parse (configURL world urlStr) = .error err →
      Load world defs urlStr = .error err) := by
  have nd := (regular_map defs hdefs).1
  refine ⟨fun h0 => ?_, fun h0 u hu => ⟨fun settings hr => ?_, fun h1 h2 h3 => ?_,
    fun err hr => ?_⟩, fun h0 err hp => ?_⟩
  · refine ⟨(bindDefaults world.environ defs (Viper.New, Viper.New)).2, ?_, fun environ' => ?_⟩
    · simp [Load, h0]
    · obtain ⟨l1, l2⟩ := environment_layers world.environ environ' defs hplain nd
      exact ⟨l1, fun q hq _ hno => l2 q hq hno⟩
  · refine ⟨applySource world.environ (sourced u settings) defs
      (bindDefaults world.environ defs (Viper.New, Viper.New)).2, ?_, fun hs environ' => ?_⟩
    · simp [Load, h0, hu, hr]
    · obtain ⟨l1, l2⟩ := source_layers world.environ environ' defs hplain nd u settings hs
      exact ⟨l1, fun q hq _ hno => l2 q hq hno⟩
  · have hr : readSource world (configURL world urlStr) u
        = .error (.external "Unsupported config scheme") := by
      simp [readSource, h1, h2, h3]
    simp [Load, h0, hu, hr]
  · simp [Load, h0, hu, hr]
  · simp [Load, h0, hp]

set_option maxRecDepth 100000 in
/-- C17, witness: the setting of `TestConfigFile` with the variables `ENV` and `ADDRESS` set as
in `TestLoadEnvVar`, and a file that holds `"env"` and `"type"`: the file's `"env"` wins over the
variable and the default, the variable `ADDRESS` wins over the default and is shown under the
spelling `"ADDRESS"` too, `"port"` shows its default, and the file's `"type"`, which matches no
key of `def`, is not shown. -/
theorem load_layers_witness :
    ∃ g, Load
        ⟨[("ENV", "development"), ("ADDRESS", "127.0.0.1")],
          fun _ => .ok ⟨"file", "config.json", ""⟩,
          fun _ => .ok [("env", .str "testing"), ("type", .str "file")],
          fun _ _ _ => .error (.external "no remote")⟩
        [("env", .str "dev"), ("address", .str "localhost"), ("port", .str "8080"),
          ("number", .int 10)] "file://config.json" = .ok g ∧
      g.Get [] "env" = .str "testing" ∧ g.Get [] "ADDRESS" = .str "127.0.0.1" ∧
      g.Get [] "port" = .str "8080" ∧ g.Get [] "type" = .null := by
  obtain ⟨g, hg, hl⟩ := ((load_layers
      ⟨[("ENV", "development"), ("ADDRESS", "127.0.0.1")],
        fun _ => .ok ⟨"file", "config.json", ""⟩,
        fun _ => .ok [("env", .str "testing"), ("type", .str "file")],
        fun _ _ _ => .error (.external "no remote")⟩
      [("env", .str "dev"), ("address", .str "localhost"), ("port", .str "8080"),
        ("number", .int 10)] "file://config.json" (by decide) (by decide)).2.1
      (by decide) _ rfl).1 _ rfl
  obtain ⟨l1, l2⟩ := hl (by decide) []
  have hno : ∀ (k : String), toLower "env" ≠ toLower k → toLower "type" ≠ toLower k →
      ∀ k' v, (k', v) ∈ [("env", Value.str "testing"), ("type", Value.str "file")] →
        toLower k' = toLower k → v.isNull = true := by
    intro k h1 h2 k' v hv hk
    rcases List.mem_cons.1 hv with hv | hv
    · cases hv
      exact absurd hk h1
    · rcases List.mem_cons.1 hv with hv | hv
      · cases hv
        exact absurd hk h2
      · cases hv
  refine ⟨g, hg, ?_, ?_, ?_, ?_⟩
  · exact (l1 "env" (.str "dev") "env" (List.mem_cons_self _ _) rfl).1 "env" (.str "testing")
      (List.mem_cons_self _ _) rfl rfl
  · exact ((l1 "address" (.str "localhost") "ADDRESS"
      (List.mem_cons_of_mem _ (List.mem_cons_self _ _)) (by decide)).2
      (hno "address" (by decide) (by decide))).1 "127.0.0.1" (by decide) (by decide)
  · exact ((l1 "port" (.str "8080") "port"
      (List.mem_cons_of_mem _ (List.mem_cons_of_mem _ (List.mem_cons_self _ _))) rfl).2
      (hno "port" (by decide) (by decide))).2 (Or.inl (by decide))
  · exact l2 "type" (by decide) (by decide) (by decide)

end Config

/-! # Facts about the cached collection -/

namespace Storage

open Event

theorem set_all {β : Type} (p : String × β → Bool) (k : String) (v : β)
    (m : List (String × β)) (hm : m.all p = true) (hv : p (k, v) = true) :
    (Assoc.set k v m).all p = true := by
  induction m with
  | nil => simp [Assoc.set, hv]
  | cons e m ih =>
    obtain ⟨k', v'⟩ := e
    simp only [List.all_cons, Bool.and_eq_true] at hm
    unfold Assoc.set
    by_cases hk : k' = k
    · simp only [hk, if_true, List.all_cons, Bool.and_eq_true]
      exact ⟨hv, hm.2⟩
    · simp only [hk, if_false, List.all_cons, Bool.and_eq_true]
      exact ⟨hm.1, ih hm.2⟩

theorem storeCreate_ok (c : CachedCollection) (world : World) (d : Person)
    (hc : (c.storeCreate world d).err = none) :
    (c.storeCreate world d).doc = (if d.ID = "" then { d with ID := world.unique } else d) ∧
    (c.storeCreate world d).state.Collection = c.Collection ++ [(c.storeCreate world d).doc] ∧
    (c.storeCreate world d).state.Cache = c.Cache ∧
    (∀ r ∈ c.Collection, r.ID ≠ (c.storeCreate world d).doc.ID) := by
  unfold CachedCollection.storeCreate at hc ⊢
  cases hce : world.createErr with
  | some err => simp [hce] at hc
  | none =>
    simp only [hce] at hc ⊢
    generalize (if d.ID = "" then ({ d with ID := world.unique } : Person) else d) = d2 at hc ⊢
    by_cases hany : (c.Collection.any fun r => r.ID == d2.ID) = true
    · simp [hany] at hc
    · simp only [hany, if_false, Bool.false_eq_true]
      refine ⟨by first | rfl | trivial, by first | rfl | trivial, by first | rfl | trivial,
        fun r hr hid => hany ?_⟩
      exact List.any_eq_true.2 ⟨r, hr, by simp [hid]⟩

theorem generateID_fields (Hash58 : Person → String) (now : Time) (doc : Person) :
    ((doc.SetCreatedTime now).GenerateID Hash58).Name = doc.Name ∧
    ((doc.SetCreatedTime now).GenerateID Hash58).Age = doc.Age ∧
    ((doc.SetCreatedTime now).GenerateID Hash58).CreatedAt = now ∧
    (doc.ID ≠ "" → ((doc.SetCreatedTime now).GenerateID Hash58).ID = doc.ID) := by
  unfold Person.GenerateID Person.SetCreatedTime
  by_cases h : doc.ID = "" <;> simp [h]

theorem keyed_fields (d : Person) (u : String) :
    (if d.ID = "" then ({ d with ID := u } : Person) else d).Name = d.Name ∧
    (if d.ID = "" then ({ d with ID := u } : Person) else d).Age = d.Age ∧
    (if d.ID = "" then ({ d with ID := u } : Person) else d).CreatedAt = d.CreatedAt ∧
    (d.ID ≠ "" → (if d.ID = "" then ({ d with ID := u } : Person) else d).ID = d.ID) := by
  by_cases h : d.ID = "" <;> simp [h]

theorem cached_create_ok (Hash58 : Person → String) (c : CachedCollection) (world : World)
    (doc : Person) (hu : world.unique ≠ "")
    (hc : (c.Create Hash58 world doc).err = none) :
    (c.Create Hash58 world doc).doc.ID ≠ "" ∧
    (c.Create Hash58 world doc).doc.Name = doc.Name ∧
    (c.Create Hash58 world doc).doc.Age = doc.Age ∧
    (c.Create Hash58 world doc).doc.CreatedAt = world.now ∧
    (doc.ID ≠ "" → (c.Create Hash58 world doc).doc.ID = doc.ID) ∧
    (c.Create Hash58 world doc).state.Collection
      = c.Collection ++ [(c.Create Hash58 world doc).doc] ∧
    (c.Create Hash58 world doc).state.Cache = c.Cache ∧
    (∀ r ∈ c.Collection, r.ID ≠ (c.Create Hash58 world doc).doc.ID) := by
  unfold CachedCollection.Create at hc ⊢
  obtain ⟨h1, h2, h3, h4⟩ := storeCreate_ok c world _ hc
  obtain ⟨g1, g2, g3, g4⟩ := generateID_fields Hash58 world.now doc
  obtain ⟨k1, k2, k3, k4⟩ := keyed_fields ((doc.SetCreatedTime world.now).GenerateID Hash58)
    world.unique
  refine ⟨?_, ?_, ?_, ?_, ?_, h2, h3, h4⟩
  · rw [h1]
    split
    · exact hu
    · assumption
  · rw [h1, k1, g1]
  · rw [h1, k2, g2]
  · rw [h1, k3, g3]
  · intro hid
    rw [h1, k4 (by rw [g4 hid]; exact hid), g4 hid]

theorem get_from_store (c : CachedCollection) (world : World) (out stored : Person)
    (hid : out.ID ≠ "") (hs : stored.ID = out.ID)
    (hcache : Assoc.get out.ID c.Cache = none)
    (hfind : c.Collection.find? (fun r => r.ID == out.ID) = some stored)
    (hg : world.getErr = none) (hset : world.setErr = none) :
    (c.Get world out).err = none ∧ (c.Get world out).doc = stored ∧
    (c.Get world out).origin = .store ∧
    (c.Get world out).state.Collection = c.Collection ∧
    (c.Get world out).state.Cache = Assoc.set out.ID stored c.Cache := by
  unfold CachedCollection.Get CachedCollection.storeGet Person.GetID
  simp [hid, hcache, hfind, hg, hset, hs]

theorem get_from_cache (c : CachedCollection) (world : World) (out cached : Person)
    (hid : out.ID ≠ "") (hcache : Assoc.get out.ID c.Cache = some cached)
    (hg : world.getObjectErr = none) :
    (c.Get world out).err = none ∧ (c.Get world out).doc = cached ∧
    (c.Get world out).origin = .cache ∧ (c.Get world out).state = c := by
  unfold CachedCollection.Get Person.GetID
  simp [hid, hcache, hg]

theorem no_entry_of_consistent (c : CachedCollection) (id : String)
    (hc : c.consistent = true) (hn : ∀ r ∈ c.Collection, r.ID ≠ id) :
    Assoc.get id c.Cache = none := by
  cases hg : Assoc.get id c.Cache with
  | none => rfl
  | some p =>
    exfalso
    have hm := Assoc.mem_of_get hg
    unfold CachedCollection.consistent at hc
    have := List.all_eq_true.1 hc _ hm
    simp only [Bool.and_eq_true, beq_iff_eq] at this
    exact hn p (by simpa using this.1) this.2

theorem find_created (col : List Person) (d : Person) (hn : ∀ r ∈ col, r.ID ≠ d.ID) :
    (col ++ [d]).find? (fun r => r.ID == d.ID) = some d := by
  rw [List.find?_append]
  have : col.find? (fun r => r.ID == d.ID) = none := by
    rw [List.find?_eq_none]
    intro r hr
    simpa using hn r hr
  simp [this]

theorem consistent_after (c : CachedCollection) (d : Person)
    (hc : c.consistent = true) :
    (CachedCollection.mk c.CacheExpiration (c.Collection ++ [d])
      (Assoc.set d.ID d c.Cache)).consistent = true := by
  unfold CachedCollection.consistent at hc ⊢
  simp only []
  apply set_all
  · rw [List.all_eq_true] at hc ⊢
    intro e he
    have := hc e he
    simp only [Bool.and_eq_true, beq_iff_eq, List.contains_eq_any_beq, List.any_eq_true,
      List.mem_append] at this ⊢
    obtain ⟨⟨x, hx, hxe⟩, h2⟩ := this
    exact ⟨⟨x, Or.inl hx, hxe⟩, h2⟩
  · simp

/-- C18: CachedCollection round trip, for every `Person` document and every collection whose cache
agrees with its store: after `Create` succeeds the document has a non-empty id and keeps its name
and age; a `Get` with that id, with the store and the cache at work, returns no error and fills
the output with the created document, taken from the store; a second `Get` with the same id
returns no error and the same document as the first, now taken from the cache; and the cache
agrees with the store again. -/
theorem cached_round_trip (Hash58 : Person → String) (c : CachedCollection)
    (world w1 w2 : World) (doc out1 out2 : Person)
    (hcons : c.consistent = true) (hu : world.unique ≠ "")
    (hc : (c.Create Hash58 world doc).err = none)
    (ho1 : out1.ID = (c.Create Hash58 world doc).doc.ID)
    (ho2 : out2.ID = (c.Create Hash58 world doc).doc.ID)
    (hg : w1.getErr = none) (hs : w1.setErr = none) (hgo : w2.getObjectErr = none) :
    (c.Create Hash58 world doc).doc.ID ≠ "" ∧
    (c.Create Hash58 world doc).doc.Name = doc.Name ∧
    (c.Create Hash58 world doc).doc.Age = doc.Age ∧
    ((c.Create Hash58 world doc).state.Get w1 out1).err = none ∧
    ((c.Create Hash58 world doc).state.Get w1 out1).doc = (c.Create Hash58 world doc).doc ∧
    ((c.Create Hash58 world doc).state.Get w1 out1).origin = .store ∧
    (((c.Create Hash58 world doc).state.Get w1 out1).state.Get w2 out2).err = none ∧
    (((c.Create Hash58 world doc).state.Get w1 out1).state.Get w2 out2).doc
      = ((c.Create Hash58 world doc).state.Get w1 out1).doc ∧
    (((c.Create Hash58 world doc).state.Get w1 out1).state.Get w2 out2).origin = .cache ∧
    (((c.Create Hash58 world doc).state.Get w1 out1).state.Get w2 out2).state.consistent
      = true := by
  obtain ⟨c1, c2, c3, -, -, c6, c7, c8⟩ := cached_create_ok Hash58 c world doc hu hc
  have hid1 : out1.ID ≠ "" := by rw [ho1]; exact c1
  have hid2 : out2.ID ≠ "" := by rw [ho2]; exact c1
  have hcache : Assoc.get out1.ID (c.Create Hash58 world doc).state.Cache = none := by
    rw [c7, ho1]
    exact no_entry_of_consistent c _ hcons c8
  have hfind : (c.Create Hash58 world doc).state.Collection.find? (fun r => r.ID == out1.ID)
      = some (c.Create Hash58 world doc).doc := by
    rw [c6, ho1]
    exact find_created _ _ c8
  obtain ⟨g1, g2, g3, g4, g5⟩ := get_from_store (c.Create Hash58 world doc).state w1 out1
    (c.Create Hash58 world doc).doc hid1 ho1.symm hcache hfind hg hs
  have hcache2 : Assoc.get out2.ID ((c.Create Hash58 world doc).state.Get w1 out1).state.Cache
      = some (c.Create Hash58 world doc).doc := by
    rw [g5, ho2, ho1]
    exact Assoc.get_set_self _ _ _
  obtain ⟨f1, f2, f3, f4⟩ := get_from_cache ((c.Create Hash58 world doc).state.Get w1 out1).state
    w2 out2 (c.Create Hash58 world doc).doc hid2 hcache2 hgo
  refine ⟨c1, c2, c3, g1, g2, g3, f1, by rw [f2, g2], f3, ?_⟩
  rw [f4]
  have := consistent_after c (c.Create Hash58 world doc).doc hcons
  generalize ((c.Create Hash58 world doc).state.Get w1 out1).state = s at g4 g5 ⊢
  obtain ⟨e, col, cache⟩ := s
  simp only at g4 g5
  rw [c6] at g4
  rw [c7, ho1] at g5
  subst g4 g5
  unfold CachedCollection.consistent at this ⊢
  exact this

/-- C18, witness: the claim at the setting of `TestModelCreate`: an empty collection, the document
`test` of age 25, and an id function that derives the id from the name. -/
theorem cached_round_trip_witness :
    (((CachedCollection.mk 86400 [] []).Create (fun p => "id-" ++ p.Name)
        ⟨5, "u1", none, none, none, none⟩ ⟨"", "test", 25, 0⟩).state.Get
      ⟨6, "u2", none, none, none, none⟩ ⟨"id-test", "", 0, 0⟩).doc
      = ((CachedCollection.mk 86400 [] []).Create (fun p => "id-" ++ p.Name)
        ⟨5, "u1", none, none, none, none⟩ ⟨"", "test", 25, 0⟩).doc ∧
    ((((CachedCollection.mk 86400 [] []).Create (fun p => "id-" ++ p.Name)
        ⟨5, "u1", none, none, none, none⟩ ⟨"", "test", 25, 0⟩).state.Get
      ⟨6, "u2", none, none, none, none⟩ ⟨"id-test", "", 0, 0⟩).state.Get
      ⟨7, "u3", none, none, none, none⟩ ⟨"id-test", "", 0, 0⟩).origin = .cache :=
  ⟨(cached_round_trip (fun p => "id-" ++ p.Name) (CachedCollection.mk 86400 [] [])
      ⟨5, "u1", none, none, none, none⟩ ⟨6, "u2", none, none, none, none⟩
      ⟨7, "u3", none, none, none, none⟩ ⟨"", "test", 25, 0⟩ ⟨"id-test", "", 0, 0⟩
      ⟨"id-test", "", 0, 0⟩ (by decide) (by decide) (by decide) (by decide) (by decide)
      rfl rfl rfl).2.2.2.2.1,
   (cached_round_trip (fun p => "id-" ++ p.Name) (CachedCollection.mk 86400 [] [])
      ⟨5, "u1", none, none, none, none⟩ ⟨6, "u2", none, none, none, none⟩
      ⟨7, "u3", none, none, none, none⟩ ⟨"", "test", 25, 0⟩ ⟨"id-test", "", 0, 0⟩
      ⟨"id-test", "", 0, 0⟩ (by decide) (by decide) (by decide) (by decide) (by decide)
      rfl rfl rfl).2.2.2.2.2.2.2.2.1⟩

end Storage
